import Mathlib

/-!
# DRAMSim2 trace driver and multi-channel front end

A shallow embedding of `TraceBasedSim.cpp` and `MultiChannelMemorySystem.cpp`.

Conventions of the embedding

* `std::string` is `List Char`; `size_t` and `uint64_t` values are natural numbers below
  `2 ^ 64`, with the wrap-around written out (`sizeAdd`, `sizeSub`, `% 2 ^ 64`);
  `std::string::npos` is `2 ^ 64 - 1`.
* `exit`, `abort` and an uncaught `std::out_of_range` end the run; functions that can reach one
  of them return `Except Stop _`.
* by-reference parameters are passed in and handed back in the result.
* text written to `cout`/`cerr` is not part of the state, except for the `ERROR` reports of the
  trace parser, which are collected.
-/

namespace DRAMSim

/-! ## Machine integers and `std::string` -/

/-- The value of `std::string::npos`, the largest `size_t`. -/
def npos : Nat := 2 ^ 64 - 1

/-- Addition of two `size_t` values. -/
def sizeAdd (a b : Nat) : Nat := (a + b) % 2 ^ 64

/-- Subtraction of two `size_t` values. -/
def sizeSub (a b : Nat) : Nat := (a + 2 ^ 64 - b % 2 ^ 64) % 2 ^ 64

/-- Ways in which a run ends before the function at hand returns: `exit`, `abort`, an uncaught
`std::out_of_range`, and behaviour that C++ leaves undefined (for which the model has no
result). -/
inductive Stop where
  | exit (code : Int)
  | abort
  | out_of_range
  | undefined
  deriving DecidableEq, Repr

/-- Search of `std::string::find (c, pos)` on the characters from `pos` on, `i` being the index
of the head of `s`. -/
def findFrom (c : Char) : List Char → Nat → Nat
  | [], _ => npos
  | d :: s, i => if d = c then i else findFrom c s (i + 1)

/-- The call `s.find(c, pos)`, which is also `s.find_first_of` with a one-character set. -/
def find (s : List Char) (c : Char) (pos : Nat) : Nat :=
  findFrom c (s.drop pos) pos

/-- Search of `find_first_not_of (c, pos)` on the characters from `pos` on. -/
def findNotFrom (c : Char) : List Char → Nat → Nat
  | [], _ => npos
  | d :: s, i => if d = c then findNotFrom c s (i + 1) else i

/-- The call `s.find_first_not_of(c, pos)` with a one-character set. -/
def find_first_not_of (s : List Char) (c : Char) (pos : Nat) : Nat :=
  findNotFrom c (s.drop pos) pos

/-- Index of the last `c` among the characters of `s`, `i` being the index of its head and
`acc` the answer so far. -/
def findLastFrom (c : Char) : List Char → Nat → Nat → Nat
  | [], _, acc => acc
  | d :: s, i, acc => findLastFrom c s (i + 1) (if d = c then i else acc)

/-- The call `s.find_last_of(c)` with a one-character set. -/
def find_last_of (s : List Char) (c : Char) : Nat :=
  findLastFrom c s 0 npos

/-- The call `s.substr(pos, n)`: it throws when `pos` is past the end, and stops at the end. -/
def substr (s : List Char) (pos n : Nat) : Except Stop (List Char) :=
  if pos > s.length then .error .out_of_range else .ok ((s.drop pos).take n)

/-- The call `s.substr(pos)`. -/
def substrFrom (s : List Char) (pos : Nat) : Except Stop (List Char) :=
  substr s pos npos

/-! ## Configuration and transactions -/

/-- The fields of `Config` that the two files read (`tCK`, a floating-point number, is
represented by the clock frequency derived from it, see `Env.dramsimClkFreqHz`). -/
structure Config where
  BL : Nat
  JEDEC_DATA_BUS_BITS : Nat
  NUM_CHANS : Nat
  EPOCH_LENGTH : Nat
  VERIFICATION_OUTPUT : Bool
  deriving DecidableEq, Repr

/-- The transaction types the trace driver produces. -/
inductive TransactionType where
  | DATA_READ
  | DATA_WRITE
  | RETURN_DATA
  deriving DecidableEq, Repr

/-- A `Transaction`: its type, its byte address, the data buffer (`none` for `NULL`) and the
configuration it refers to. -/
structure Transaction where
  transactionType : TransactionType
  address : Nat
  data : Option (List Nat)
  cfg : Config
  deriving DecidableEq, Repr

/-- The number of low-order bits `alignTransactionAddress` throws away,
`dramsim_log2((cfg.BL*cfg.JEDEC_DATA_BUS_BITS/8))`, an `unsigned`. The function `dramsim_log2`
is declared in a header that is not among the sources and is a parameter. -/
def throwAwayBits (dramsim_log2 : Nat → Nat) (cfg : Config) : Nat :=
  dramsim_log2 ((cfg.BL * cfg.JEDEC_DATA_BUS_BITS) % 2 ^ 32 / 8) % 2 ^ 32

/-- Search for the least `k` from `k` on with `value ≤ 2 ^ k`. -/
def log2From (value : Nat) : Nat → Nat → Nat
  | 0, k => k
  | fuel + 1, k => if value ≤ 2 ^ k then k else log2From value fuel (k + 1)

/-- Modelled from the spec: `dramsim_log2`, whose header is not among the sources; the spec
writes `log2` of counts that are powers of two, read here as the least `k` with
`value ≤ 2 ^ k`. It is used to instantiate the parameter at concrete inputs. -/
def dramsim_log2 (value : Nat) : Nat :=
  log2From value value 0

/-- `alignTransactionAddress`: shift the 64-bit address right and then left by `throwAwayBits`.
C++ leaves a shift of a 64-bit value by 64 or more undefined: the model has no result there. -/
def alignTransactionAddress (dramsim_log2 : Nat → Nat) (trans : Transaction) :
    Option Transaction :=
  let throwAway := throwAwayBits dramsim_log2 trans.cfg
  if throwAway < 64 then
    let shifted := trans.address / 2 ^ throwAway
    some { trans with address := (shifted * 2 ^ throwAway) % 2 ^ 64 }
  else
    none

/-! ## Formatted extraction (`istringstream >> value`) -/

/-- The characters `std::isspace` accepts in the "C" locale. -/
def isspace (c : Char) : Bool :=
  c = ' ' || c = '\t' || c = '\n' || c = '\x0b' || c = '\x0c' || c = '\r'

/-- The value of a character as a digit, letters counting from ten on. -/
def digitValue (c : Char) : Option Nat :=
  if '0' ≤ c ∧ c ≤ '9' then some (c.toNat - '0'.toNat)
  else if 'a' ≤ c ∧ c ≤ 'f' then some (c.toNat - 'a'.toNat + 10)
  else if 'A' ≤ c ∧ c ≤ 'F' then some (c.toNat - 'A'.toNat + 10)
  else none

/-- The value of `c` as a digit of the given base, if it is one. -/
def digitIn (base : Nat) (c : Char) : Option Nat :=
  match digitValue c with
  | some d => if d < base then some d else none
  | none => none

/-- Accumulate the digits at the front of the input: the number of digits read and the value
of the numeral they form, starting from `acc`. -/
def readDigits (base : Nat) : List Char → Nat → Nat → Nat × Nat
  | [], count, acc => (count, acc)
  | c :: s, count, acc =>
    match digitIn base c with
    | some d => readDigits base s (count + 1) (acc * base + d)
    | none => (count, acc)

/-- Drop an optional sign; the flag tells whether it was a minus. -/
def readSign (s : List Char) : Bool × List Char :=
  match s with
  | [] => (false, [])
  | c :: rest =>
    if c = '-' then (true, rest) else if c = '+' then (false, rest) else (false, c :: rest)

/-- Drop the `0x`/`0X` prefix that base-16 extraction accepts. -/
def readHexPrefix (base : Nat) (s : List Char) : List Char :=
  match s with
  | c :: d :: rest => if base = 16 ∧ c = '0' ∧ (d = 'x' ∨ d = 'X') then rest else s
  | _ => s

/-- The effect of `stream >> value` (base 10) or `stream >> hex >> value` (base 16) for a
`uint64_t value` on a fresh `istringstream` over `s`, as the C++ standard library defines it:
leading white space is skipped; at the end of the input nothing is stored and `old` stays; a
field without digits stores 0; a numeral too large for 64 bits stores the largest value; a
minus sign negates modulo `2 ^ 64`. -/
def extractU64 (base : Nat) (s : List Char) (old : Nat) : Nat :=
  match s.dropWhile isspace with
  | [] => old
  | c :: rest =>
    let signed := readSign (c :: rest)
    let digits := readDigits base (readHexPrefix base signed.2) 0 0
    if digits.1 = 0 then 0
    else if digits.2 > 2 ^ 64 - 1 then 2 ^ 64 - 1
    else if signed.1 then (2 ^ 64 - digits.2) % 2 ^ 64
    else digits.2

/-! ## `parseTraceFileLine` -/

/-- The trace formats. -/
inductive TraceType where
  | k6
  | mase
  | misc
  deriving DecidableEq, Repr

/-- The reports the parser makes through `ERROR` without leaving. -/
inductive ParseReport where
  | unknownCommand (cmdStr : List Char)
  | malformedLine (line : List Char)
  deriving DecidableEq, Repr

/-- What `parseTraceFileLine` hands back: the three by-reference outputs, the returned data
buffer (`none` for `NULL`) and the reports made on the way. -/
structure ParseResult where
  addr : Nat
  transType : TransactionType
  clockCycle : Nat
  dataBuffer : Option (List Nat)
  reports : List ParseReport
  deriving DecidableEq, Repr

/-- The three fields of a `k6` or `mase` line (the two cases split the line with the same
statements): address, command and clock cycle strings. -/
def splitAddrCmdCycle (line : List Char) :
    Except Stop (List Char × List Char × List Char) := do
  let spaceIndex := find line ' ' 0
  let addressStr ← substr line 0 spaceIndex
  let previousIndex := spaceIndex
  let spaceIndex := find_first_not_of line ' ' previousIndex
  let cmdStr ← substr line spaceIndex (sizeSub (find line ' ' spaceIndex) spaceIndex)
  let previousIndex := find line ' ' spaceIndex
  let spaceIndex := find_first_not_of line ' ' previousIndex
  let ccStr ← substr line spaceIndex (sizeSub (find line ' ' spaceIndex) spaceIndex)
  return (addressStr, cmdStr, ccStr)

/-- The tail shared by the `k6` and `mase` cases: the address after its `0x`, and the clock
cycle when it is used. -/
def finishAddrCycle (addressStr ccStr : List Char) (transType : TransactionType)
    (addr clockCycle : Nat) (useClockCycle : Bool) (reports : List ParseReport) :
    Except Stop ParseResult := do
  let a ← substrFrom addressStr 2
  let addr := extractU64 16 a addr
  let clockCycle := if useClockCycle then extractU64 10 ccStr clockCycle else clockCycle
  return ⟨addr, transType, clockCycle, none, reports⟩

/-- The loop that fills the data buffer of a `misc` write: `n` iterations are left, `i` is the
loop counter. -/
def parseDataLoop (dataStr : List Char) : Nat → Nat → List Nat → Except Stop (List Nat)
  | 0, _, dataBuffer => .ok dataBuffer
  | n + 1, i, dataBuffer =>
    let strlen := dataStr.length
    let startIndex := i * 16
    if startIndex > strlen then .ok dataBuffer
    else do
      let charsLeft := min 16 (sizeAdd (sizeSub strlen startIndex) 1)
      let piece ← substr dataStr (i * 16) charsLeft
      parseDataLoop dataStr n (i + 1) (dataBuffer.set i (extractU64 16 piece (dataBuffer.getD i 0)))

/-- The fields of a `misc` line, as the first statements of the `misc` case cut them: address,
command and data strings, and the report made when the line has no blank after its first
character. -/
def splitMisc (line : List Char) :
    Except Stop (List Char × List Char × List Char × List ParseReport) := do
  let previousIndex := 0
  let spaceIndex := 0
  let spaceIndex := find line ' ' (sizeAdd spaceIndex 1)
  let reports := if spaceIndex = npos then [ParseReport.malformedLine line] else []
  let addressStr ← substr line previousIndex spaceIndex
  let previousIndex := spaceIndex
  let spaceIndex := find line ' ' (sizeAdd spaceIndex 1)
  if spaceIndex = npos then do
    let cmdStr ← substrFrom line (sizeAdd previousIndex 1)
    return (addressStr, cmdStr, [], reports)
  else do
    let cmdStr ← substr line (sizeAdd previousIndex 1)
      (sizeSub (sizeSub spaceIndex previousIndex) 1)
    let dataStr ← substrFrom line (sizeAdd spaceIndex 1)
    return (addressStr, cmdStr, dataStr, reports)

/-- The command test of the `misc` case: an invalid command ends the run with `exit(-1)`. -/
def miscTransType (cmdStr : List Char) : Except Stop TransactionType :=
  if cmdStr = "read".toList then .ok .DATA_READ
  else if cmdStr = "write".toList then .ok .DATA_WRITE
  else .error (.exit (-1))

/-- The `misc` case of `parseTraceFileLine`. `noStorage` stands for the `NO_STORAGE` build. The
clock cycle is not touched. -/
def parseMisc (noStorage : Bool) (line : List Char) (addr : Nat) (clockCycle : Nat) :
    Except Stop ParseResult := do
  let fields ← splitMisc line
  let addressStr := fields.1
  let cmdStr := fields.2.1
  let dataStr := fields.2.2.1
  let reports := fields.2.2.2
  let a ← substrFrom addressStr 2
  let addr := extractU64 16 a addr
  let transType ← miscTransType cmdStr
  if !noStorage && decide (dataStr.length > 0) && decide (transType = .DATA_WRITE) then do
    let dataBuffer ← parseDataLoop dataStr 4 0 [0, 0, 0, 0]
    return ⟨addr, transType, clockCycle, some dataBuffer, reports⟩
  else
    return ⟨addr, transType, clockCycle, none, reports⟩

/-- The command test of the `k6` case: an unknown command ends the run with `exit(0)`. -/
def k6TransType (cmdStr : List Char) : Except Stop TransactionType :=
  if cmdStr = "P_MEM_WR".toList ∨ cmdStr = "BOFF".toList then
    .ok .DATA_WRITE
  else if cmdStr = "P_FETCH".toList ∨ cmdStr = "P_MEM_RD".toList ∨
      cmdStr = "P_LOCK_RD".toList ∨ cmdStr = "P_LOCK_WR".toList then
    .ok .DATA_READ
  else
    .error (.exit 0)

/-- The command test of the `mase` case: an unknown command is reported and `transType` keeps
the value it came in with. -/
def maseTransType (cmdStr : List Char) (transType : TransactionType) :
    TransactionType × List ParseReport :=
  if cmdStr = "IFETCH".toList ∨ cmdStr = "READ".toList then
    (.DATA_READ, [])
  else if cmdStr = "WRITE".toList then
    (.DATA_WRITE, [])
  else
    (transType, [ParseReport.unknownCommand cmdStr])

/-- `parseTraceFileLine`. The by-reference `addr`, `transType` and `clockCycle` come in with
the values the caller's variables hold. -/
def parseTraceFileLine (noStorage : Bool) (line : List Char) (addr : Nat)
    (transType : TransactionType) (clockCycle : Nat) (type : TraceType)
    (useClockCycle : Bool) : Except Stop ParseResult :=
  match type with
  | .k6 => do
    let fields ← splitAddrCmdCycle line
    let transType ← k6TransType fields.2.1
    finishAddrCycle fields.1 fields.2.2 transType addr clockCycle useClockCycle []
  | .mase => do
    let fields ← splitAddrCmdCycle line
    let typed := maseTransType fields.2.1 transType
    finishAddrCycle fields.1 fields.2.2 typed.1 addr clockCycle useClockCycle typed.2
  | .misc => parseMisc noStorage line addr clockCycle

/-! ## `parseParamOverrides` -/

/-- An `OptionsMap` (`std::map<string, string>`): the keys with their values, no key twice. -/
abbrev OptionsMap := List (List Char × List Char)

/-- The assignment `kv_map[key] = value`. -/
def OptionsMap.assign : OptionsMap → List Char → List Char → OptionsMap
  | [], key, value => [(key, value)]
  | (k, v) :: m, key, value =>
    if k = key then (key, value) :: m else (k, v) :: OptionsMap.assign m key value

/-- The value stored under `key`, if any. -/
def OptionsMap.get? : OptionsMap → List Char → Option (List Char)
  | [], _ => none
  | (k, v) :: m, key => if k = key then some v else OptionsMap.get? m key

/-- The `while (1)` loop of `parseParamOverrides`, run for at most `fuel` iterations: `none`
when the iterations do not suffice. -/
def parseParamOverridesLoop (kv_str : List Char) :
    Nat → Nat → OptionsMap → Option (Except Stop OptionsMap)
  | 0, _, _ => none
  | fuel + 1, start, kv_map =>
    let equal_sign := find kv_str '=' start
    if equal_sign = npos then some (.ok kv_map)
    else
      let comma := find kv_str ',' equal_sign
      let comma := if comma = npos then kv_str.length % 2 ^ 64 else comma
      match substr kv_str start (sizeSub equal_sign start) with
      | .error e => some (.error e)
      | .ok key =>
        match substr kv_str (sizeAdd equal_sign 1) (sizeSub (sizeSub comma equal_sign) 1) with
        | .error e => some (.error e)
        | .ok value =>
          parseParamOverridesLoop kv_str fuel (sizeAdd comma 1) (kv_map.assign key value)

/-- `parseParamOverrides`: every iteration but the last moves `start` past a further `=`, so
one iteration more than there are characters is enough. -/
def parseParamOverrides (kv_str : List Char) : Option (Except Stop OptionsMap) :=
  parseParamOverridesLoop kv_str (kv_str.length + 1) 0 []

/-! ## The parts of the program outside the two files -/

/-- One call of a completion callback, as a channel makes it during `update()`. -/
structure Completion where
  isWrite : Bool
  id : Nat
  address : Nat
  done_cycle : Nat
  deriving DecidableEq, Repr

/-- The results of `stat` that `fileExists` tells apart. -/
inductive StatResult where
  | ok
  | enoent
  | otherError
  deriving DecidableEq, Repr

/-- The functions and classes the two files use and do not define, and the platform they run
on, as parameters: the helpers of `util.h` and `AddressMapping.h`, the ini reader, `Config`,
the per-channel `MemorySystem` (`χ` is its state; the completion callbacks it makes during an
update are handed back as a list and run by the caller, in order), the file system and the
environment. -/
structure Env (χ : Type) where
  dramsim_log2 : Nat → Nat
  strip : List Char → List Char
  split : List Char → List (List Char)
  convert_uint64_t : List Char → Except Stop Nat
  addressMapping : Nat → Config → Nat
  ReadIniFile : List Char → Except Stop OptionsMap
  defaultConfig : Config
  configSet : Config → OptionsMap → Config
  dramsimClkFreqHz : Config → Nat
  newMemorySystem : Nat → Nat → Config → Except Stop χ
  channelUpdate : χ → χ × List Completion
  channelAddTransaction : χ → Transaction → Bool × χ
  channelAddTransactionRW : χ → Bool → Nat → Bool × χ
  WillAcceptTransaction : χ → Bool
  stat : List Char → StatResult
  openOutput : List Char → Bool
  openInput : List Char → Option (List Char)
  SIM_DESC : Option (List Char)
  LOG_OUTPUT : Bool

/-! ## `MultiChannelMemorySystem` -/

/-- Search for an exponent `j ≥ k` with `2 ^ j = x`, giving up once `2 ^ j` is past `x`. -/
def isPowerOfTwoFrom (x : Nat) : Nat → Nat → Bool
  | 0, _ => false
  | fuel + 1, k =>
    if 2 ^ k = x then true
    else if 2 ^ k > x then false
    else isPowerOfTwoFrom x fuel (k + 1)

/-- Modelled from the spec: `isPowerOfTwo`, whose header is not among the sources; `x` is a
power of two when it is `2 ^ k` for some `k` (which is then at most `x`). -/
def isPowerOfTwo (x : Nat) : Bool :=
  isPowerOfTwoFrom x (x + 1) 0

/-- The state of a `MultiChannelMemorySystem`: its members, the two clocks of its
`clockDomainCrosser` and the crosser's accumulator. -/
structure MultiChannelMemorySystem (χ : Type) where
  megsOfMemory : Nat
  deviceIniFilename : List Char
  systemIniFilename : List Char
  traceFilename : List Char
  pwd : List Char
  cfg : Config
  channels : List χ
  currentClockCycle : Nat
  clock1 : Nat
  clock2 : Nat
  counter : Nat

/-- A file name with `pwd` put in front, unless `pwd` is empty or the name is absolute. -/
def underPwd (pwd filename : List Char) : List Char :=
  if pwd.length > 0 ∧ filename.headD '\x00' ≠ '/' then pwd ++ '/' :: filename else filename

/-- The configuration the constructor arrives at: the device file, the system file and then
the overrides are set on the default configuration. -/
def resolveConfig {χ : Type} (env : Env χ) (deviceIniFilename systemIniFilename pwd : List Char)
    (paramOverrides : Option OptionsMap) : Except Stop Config := do
  let deviceParameters ← env.ReadIniFile (underPwd pwd deviceIniFilename)
  let systemParameters ← env.ReadIniFile (underPwd pwd systemIniFilename)
  let cfg := env.configSet (env.configSet env.defaultConfig deviceParameters) systemParameters
  match paramOverrides with
  | some overrides => return env.configSet cfg overrides
  | none => return cfg

/-- The loop that creates the channels `i, i + 1, ...`, `n` of them. -/
def newChannels {χ : Type} (env : Env χ) (megsPerChannel : Nat) (cfg : Config) :
    Nat → Nat → Except Stop (List χ)
  | 0, _ => .ok []
  | n + 1, i => do
    let channel ← env.newMemorySystem i megsPerChannel cfg
    let channels ← newChannels env megsPerChannel cfg n (i + 1)
    return channel :: channels

/-- The constructor `MultiChannelMemorySystem::MultiChannelMemorySystem`. The members that
the constructor in the source file does not assign, which are the clock cycle held by the base
class and the clocks and the counter of the crosser, are given the start of a run here: cycle
0, equal clocks and an empty counter (their declarations are not among the sources). -/
def MultiChannelMemorySystem.create {χ : Type} (env : Env χ)
    (deviceIniFilename systemIniFilename pwd traceFilename : List Char) (megsOfMemory : Nat)
    (paramOverrides : Option OptionsMap) : Except Stop (MultiChannelMemorySystem χ) :=
  if !isPowerOfTwo megsOfMemory then
    .error .abort
  else
    match resolveConfig env deviceIniFilename systemIniFilename pwd paramOverrides with
    | .error e => .error e
    | .ok cfg =>
      if cfg.NUM_CHANS = 0 then
        .error .abort
      else
        match newChannels env (megsOfMemory / cfg.NUM_CHANS) cfg cfg.NUM_CHANS 0 with
        | .error e => .error e
        | .ok channels =>
          .ok {
            megsOfMemory := megsOfMemory
            deviceIniFilename := underPwd pwd deviceIniFilename
            systemIniFilename := underPwd pwd systemIniFilename
            traceFilename := traceFilename
            pwd := pwd
            cfg := cfg
            channels := channels
            currentClockCycle := 0
            clock1 := 1
            clock2 := 1
            counter := 0 }

/-- `setCPUClockSpeed`. -/
def MultiChannelMemorySystem.setCPUClockSpeed {χ : Type} (env : Env χ)
    (sys : MultiChannelMemorySystem χ) (cpuClkFreqHz : Nat) : MultiChannelMemorySystem χ :=
  let dramsimClkFreqHz := env.dramsimClkFreqHz sys.cfg
  { sys with
    clock1 := dramsimClkFreqHz
    clock2 := if cpuClkFreqHz = 0 then dramsimClkFreqHz else cpuClkFreqHz }

/-- `fileExists`: only `ENOENT` counts as absence. -/
def fileExists (stat : List Char → StatResult) (path : List Char) : Bool :=
  match stat path with
  | .enoent => false
  | _ => true

/-- The decimal text `operator<<` writes for an unsigned number. -/
def decimalText (n : Nat) : List Char :=
  Nat.toDigits 10 n

/-- Writing `text` into the buffer of a `stringstream` at put position `pos`: the characters
there are overwritten and the buffer grows as needed. -/
def streamWrite (buffer : List Char) (pos : Nat) (text : List Char) : List Char :=
  buffer.take pos ++ text ++ buffer.drop (pos + text.length)

/-- The `for` loop of `FilenameWithNumberSuffix`, at counter `i` with at most `n` iterations
to go; `tmpNum` is the buffer of the string stream. -/
def suffixLoop (stat : List Char → StatResult) (filename extension : List Char)
    (maxNumber : Nat) : Nat → Nat → List Char → List Char → List Char
  | 0, _, _, currentFilename => currentFilename
  | n + 1, i, tmpNum, currentFilename =>
    if i < maxNumber then
      let currentFilename := filename ++ tmpNum ++ extension
      if fileExists stat currentFilename then
        let currentFilename := filename
        let tmpNum := streamWrite tmpNum 0 ('.' :: decimalText i)
        suffixLoop stat filename extension maxNumber n (i + 1) tmpNum currentFilename
      else
        currentFilename
    else
      currentFilename

/-- `FilenameWithNumberSuffix` (the callers leave `maxNumber` at its default, 100). -/
def FilenameWithNumberSuffix (stat : List Char → StatResult) (filename extension : List Char)
    (maxNumber : Nat) : List Char :=
  let currentFilename := filename ++ extension
  if !fileExists stat currentFilename then
    currentFilename
  else
    let tmpNum := streamWrite [] 0 ('.' :: decimalText 1)
    suffixLoop stat filename extension maxNumber maxNumber 1 tmpNum currentFilename

/-- `InitOutputFiles`: the run aborts when the verification file cannot be opened; a log file
that cannot be opened is only reported. -/
def MultiChannelMemorySystem.InitOutputFiles {χ : Type} (env : Env χ)
    (sys : MultiChannelMemorySystem χ) : Except Stop Unit := do
  if sys.cfg.VERIFICATION_OUTPUT then
    let basefilename ← substrFrom sys.deviceIniFilename
      (sizeAdd (find_last_of sys.deviceIniFilename '/') 1)
    let verify_filename := "sim_out_".toList ++ basefilename
    let verify_filename :=
      match env.SIM_DESC with
      | some sim_description_str => verify_filename ++ '.' :: sim_description_str
      | none => verify_filename
    let verify_filename := verify_filename ++ ".tmp".toList
    if !env.openOutput verify_filename then
      throw .abort
  return ()

/-- `actual_update`, one tick: the output files are set up at cycle 0, every channel is
updated, and the cycle counter goes up. The completions of the channels come back in order.
(The test `currentClockCycle % cfg.EPOCH_LENGTH == 0` guards an empty block; with
`EPOCH_LENGTH` 0 it is undefined.) -/
def MultiChannelMemorySystem.actual_update {χ : Type} (env : Env χ)
    (sys : MultiChannelMemorySystem χ) :
    Except Stop (MultiChannelMemorySystem χ × List Completion) := do
  if sys.currentClockCycle = 0 then
    MultiChannelMemorySystem.InitOutputFiles env sys
  if sys.cfg.EPOCH_LENGTH = 0 then
    throw .undefined
  let updated := sys.channels.map env.channelUpdate
  return ({ sys with
      channels := updated.map Prod.fst
      currentClockCycle := (sys.currentClockCycle + 1) % 2 ^ 64 },
    (updated.map Prod.snd).flatten)

/-- Run `actual_update` `n` times. -/
def MultiChannelMemorySystem.ticks {χ : Type} (env : Env χ) :
    Nat → MultiChannelMemorySystem χ → Except Stop (MultiChannelMemorySystem χ × List Completion)
  | 0, sys => .ok (sys, [])
  | n + 1, sys => do
    let first ← MultiChannelMemorySystem.actual_update env sys
    let rest ← MultiChannelMemorySystem.ticks env n first.1
    return (rest.1, first.2 ++ rest.2)

/-- Modelled from the spec: `ClockDomainCrosser::update`, whose file is not among the sources.
Equal clocks are the 1:1 ratio, one tick per update; otherwise the accumulator gains `clock1`
and one tick is made for every `clock2` it holds. -/
def MultiChannelMemorySystem.update {χ : Type} (env : Env χ)
    (sys : MultiChannelMemorySystem χ) :
    Except Stop (MultiChannelMemorySystem χ × List Completion) :=
  if sys.clock1 = sys.clock2 ∨ sys.clock2 = 0 then
    MultiChannelMemorySystem.ticks env 1 sys
  else
    let acc := sys.counter + sys.clock1
    MultiChannelMemorySystem.ticks env (acc / sys.clock2) { sys with counter := acc % sys.clock2 }

/-- `findChannelNumber`. -/
def MultiChannelMemorySystem.findChannelNumber {χ : Type} (env : Env χ)
    (sys : MultiChannelMemorySystem χ) (addr : Nat) : Except Stop Nat :=
  if sys.cfg.NUM_CHANS = 1 then
    .ok 0
  else if !isPowerOfTwo sys.cfg.NUM_CHANS then
    .error .abort
  else
    let channelNumber := env.addressMapping addr sys.cfg % 2 ^ 32
    if channelNumber ≥ sys.cfg.NUM_CHANS then
      .error .abort
    else
      .ok channelNumber

/-- `addTransaction(Transaction *trans)`: the channel the address maps to is asked; the
answer and the new state come back. Indexing `channels` out of bounds is undefined. -/
def MultiChannelMemorySystem.addTransaction {χ : Type} (env : Env χ)
    (sys : MultiChannelMemorySystem χ) (trans : Transaction) :
    Except Stop (Bool × MultiChannelMemorySystem χ) := do
  let channelNumber ← MultiChannelMemorySystem.findChannelNumber env sys trans.address
  match sys.channels.get? channelNumber with
  | none => throw .undefined
  | some channel =>
    let answer := env.channelAddTransaction channel trans
    return (answer.1, { sys with channels := sys.channels.set channelNumber answer.2 })

/-- `addTransaction(bool isWrite, uint64_t addr, ...)`; the three sizes are ignored. -/
def MultiChannelMemorySystem.addTransactionRW {χ : Type} (env : Env χ)
    (sys : MultiChannelMemorySystem χ) (isWrite : Bool) (addr : Nat) :
    Except Stop (Bool × MultiChannelMemorySystem χ) := do
  let channelNumber ← MultiChannelMemorySystem.findChannelNumber env sys addr
  match sys.channels.get? channelNumber with
  | none => throw .undefined
  | some channel =>
    let answer := env.channelAddTransactionRW channel isWrite addr
    return (answer.1, { sys with channels := sys.channels.set channelNumber answer.2 })

/-- The loop of `willAcceptTransaction()` over the channels from `c` on. -/
def willAcceptFrom {χ : Type} (env : Env χ) (channels : List χ) : Nat → Nat → Option Bool
  | 0, _ => some true
  | n + 1, c =>
    match channels.get? c with
    | none => none
    | some channel =>
      if !env.WillAcceptTransaction channel then some false
      else willAcceptFrom env channels n (c + 1)

/-- `willAcceptTransaction()` without an address: `none` when `channels` is indexed out of
bounds. -/
def MultiChannelMemorySystem.willAcceptTransaction {χ : Type} (env : Env χ)
    (sys : MultiChannelMemorySystem χ) : Option Bool :=
  willAcceptFrom env sys.channels sys.cfg.NUM_CHANS 0

/-! ## The trace driver: `TransactionReceiver` and the process-wide variables -/

/-- A `map<uint64_t, list<uint64_t>>`: the addresses with their lists of cycles, no address
twice. -/
abbrev PendingMap := List (Nat × List Nat)

/-- The list stored under `address` (`find`), if there is an entry. -/
def PendingMap.find? : PendingMap → Nat → Option (List Nat)
  | [], _ => none
  | (a, l) :: m, address => if a = address then some l else PendingMap.find? m address

/-- The statement `m[address].push_back(cycle)`; a missing entry is created. -/
def PendingMap.push_back : PendingMap → Nat → Nat → PendingMap
  | [], address, cycle => [(address, [cycle])]
  | (a, l) :: m, address, cycle =>
    if a = address then (a, l ++ [cycle]) :: m
    else (a, l) :: PendingMap.push_back m address cycle

/-- The statement `m[address].pop_front()` for an address that has an entry. -/
def PendingMap.pop_front : PendingMap → Nat → PendingMap
  | [], _ => []
  | (a, l) :: m, address =>
    if a = address then (a, l.tail) :: m else (a, l) :: PendingMap.pop_front m address

/-- The members of `TransactionReceiver`. -/
structure TransactionReceiver where
  pendingReadRequests : PendingMap
  pendingWriteRequests : PendingMap
  numReads : Nat
  numWrites : Nat
  deriving DecidableEq, Repr

/-- The process-wide variables of `TraceBasedSim.cpp` (all `uint64_t`). -/
structure Globals where
  complete : Nat
  pending : Nat
  throttle_count : Nat
  throttle_cycles : Nat
  final_cycles : Nat
  speedup_factor : Nat
  START_TRANS : Nat
  MAX_TRANS : Nat
  trace_cycles : Nat
  last_clock : Nat
  CLOCK_DELAY : Nat
  deriving DecidableEq, Repr

/-- The values the variables are initialised with. -/
def Globals.start : Globals :=
  { complete := 0, pending := 0, throttle_count := 0, throttle_cycles := 0, final_cycles := 0,
    speedup_factor := 0, START_TRANS := 0, MAX_TRANS := 0, trace_cycles := 0, last_clock := 0,
    CLOCK_DELAY := 1000000 }

/-- The constant `MAX_PENDING`. -/
def MAX_PENDING : Nat := 1024

/-- The constant `MIN_PENDING`. -/
def MIN_PENDING : Nat := 1023

/-- `TransactionReceiver::add_pending`. -/
def TransactionReceiver.add_pending (r : TransactionReceiver) (t : Transaction) (cycle : Nat) :
    Except Stop TransactionReceiver :=
  match t.transactionType with
  | .DATA_READ =>
    .ok { r with pendingReadRequests := r.pendingReadRequests.push_back t.address cycle }
  | .DATA_WRITE =>
    .ok { r with pendingWriteRequests := r.pendingWriteRequests.push_back t.address cycle }
  | .RETURN_DATA => .error (.exit (-1))

/-- The counting both callbacks end with: `complete++`, `pending--`, and the progress line,
which sets `last_clock`. -/
def Globals.countCompletion (g : Globals) (done_cycle : Nat) : Globals :=
  let complete := (g.complete + 1) % 2 ^ 64
  let pending := sizeSub g.pending 1
  let last_clock :=
    if complete % 1000 = 0 ∨ sizeSub done_cycle g.last_clock > g.CLOCK_DELAY then done_cycle
    else g.last_clock
  { g with complete := complete, pending := pending, last_clock := last_clock }

/-- `TransactionReceiver::read_complete`. -/
def TransactionReceiver.read_complete (r : TransactionReceiver) (g : Globals)
    (address done_cycle : Nat) : Except Stop (TransactionReceiver × Globals) :=
  match r.pendingReadRequests.find? address with
  | none => .error (.exit (-1))
  | some l =>
    if l.length = 0 then .error (.exit (-1))
    else
      .ok ({ r with
          pendingReadRequests := r.pendingReadRequests.pop_front address
          numReads := (r.numReads + 1) % 2 ^ 32 },
        g.countCompletion done_cycle)

/-- `TransactionReceiver::write_complete`. -/
def TransactionReceiver.write_complete (r : TransactionReceiver) (g : Globals)
    (address done_cycle : Nat) : Except Stop (TransactionReceiver × Globals) :=
  match r.pendingWriteRequests.find? address with
  | none => .error (.exit (-1))
  | some l =>
    if l.length = 0 then .error (.exit (-1))
    else
      .ok ({ r with
          pendingWriteRequests := r.pendingWriteRequests.pop_front address
          numWrites := (r.numWrites + 1) % 2 ^ 32 },
        g.countCompletion done_cycle)

/-! ## The trace driver: runs -/

/-- What a run of a driver does that can be seen from outside, in the order it happens. -/
inductive Event where
  | construct
  | line (text : List Char)
  | addTransaction (t : Transaction) (result : Option Bool)
  | add_pending (t : Transaction) (cycle : Nat)
  | update
  | read_complete (address done_cycle : Nat)
  | write_complete (address done_cycle : Nat)
  deriving DecidableEq, Repr

/-- The state of a driver apart from the memory system and the loop variables: the receiver
of the callbacks, the process-wide variables and the events so far, the latest first. -/
structure DriverState where
  receiver : TransactionReceiver
  g : Globals
  events : List Event
  deriving DecidableEq, Repr

/-- The state a process starts a driver in. -/
def DriverState.start (g : Globals) : DriverState :=
  { receiver := ⟨[], [], 0, 0⟩, g := g, events := [] }

/-- Why a run is over before its function returns: the program stopped, or the model ran out
of the iterations it was given. -/
inductive Halt where
  | stop (s : Stop)
  | outOfFuel
  deriving DecidableEq, Repr

/-- A step of a driver: a value, or the end of the run together with the state reached. -/
abbrev Run (α : Type) := Except (Halt × DriverState) α

/-- Take a step that can stop the program, at state `st`. -/
def Run.lift {α : Type} (st : DriverState) (x : Except Stop α) : Run α :=
  match x with
  | .ok a => .ok a
  | .error s => .error (.stop s, st)

/-- Note an event. -/
def DriverState.note (st : DriverState) (e : Event) : DriverState :=
  { st with events := e :: st.events }

/-- One completion callback, as registered with `registerCallbacks`. -/
def runCallback (st : DriverState) (c : Completion) : Run DriverState :=
  if c.isWrite then
    let st := st.note (.write_complete c.address c.done_cycle)
    match st.receiver.write_complete st.g c.address c.done_cycle with
    | .ok (r, g) => .ok { st with receiver := r, g := g }
    | .error s => .error (.stop s, st)
  else
    let st := st.note (.read_complete c.address c.done_cycle)
    match st.receiver.read_complete st.g c.address c.done_cycle with
    | .ok (r, g) => .ok { st with receiver := r, g := g }
    | .error s => .error (.stop s, st)

/-- The callbacks of one update, in order. -/
def runCallbacks : List Completion → DriverState → Run DriverState
  | [], st => .ok st
  | c :: cs, st => do
    let st ← runCallback st c
    runCallbacks cs st

/-- The call `memorySystem->update()` together with the callbacks it makes. -/
def driverUpdate {χ : Type} (env : Env χ) (mem : MultiChannelMemorySystem χ)
    (st : DriverState) : Run (MultiChannelMemorySystem χ × DriverState) :=
  let st := st.note .update
  match MultiChannelMemorySystem.update env mem with
  | .error s => .error (.stop s, st)
  | .ok (mem, completions) => do
    let st ← runCallbacks completions st
    return (mem, st)

/-- The call `memorySystem->addTransaction(trans)`. -/
def driverAdd {χ : Type} (env : Env χ) (mem : MultiChannelMemorySystem χ) (st : DriverState)
    (trans : Transaction) : Run (Bool × MultiChannelMemorySystem χ × DriverState) :=
  match MultiChannelMemorySystem.addTransaction env mem trans with
  | .error s => .error (.stop s, st.note (.addTransaction trans none))
  | .ok (accepted, mem) => .ok (accepted, mem, st.note (.addTransaction trans (some accepted)))

/-- The call `transactionReceiver.add_pending(*trans, cycle)`. -/
def driverAddPending (st : DriverState) (trans : Transaction) (cycle : Nat) : Run DriverState :=
  let st := st.note (.add_pending trans cycle)
  match st.receiver.add_pending trans cycle with
  | .ok r => .ok { st with receiver := r }
  | .error s => .error (.stop s, st)

/-- `new Transaction(transType, addr, data, cfg)` followed by `alignTransactionAddress`. -/
def alignedTransaction {χ : Type} (env : Env χ) (st : DriverState) (transType : TransactionType)
    (addr : Nat) (data : Option (List Nat)) (cfg : Config) : Run Transaction :=
  match alignTransactionAddress env.dramsim_log2 ⟨transType, addr, data, cfg⟩ with
  | some aligned => .ok aligned
  | none => .error (.stop .undefined, st)

/-! ## Input streams -/

/-- An `ifstream` that has been opened: the characters not yet read and two state bits. -/
structure IStream where
  buf : List Char
  eofbit : Bool
  failbit : Bool
  deriving DecidableEq, Repr

/-- `stream.good()`. -/
def IStream.good (s : IStream) : Bool := !s.eofbit && !s.failbit

/-- `std::getline(stream, line)`: the characters up to the next newline, which is taken off
the stream too; at the end of the input `eofbit` is set, and `failbit` when nothing was read.
On a stream that is not good nothing is read. -/
def getlineString (s : IStream) (line : List Char) : List Char × IStream :=
  if !s.good then (line, { s with failbit := true })
  else
    let text := s.buf.takeWhile (fun c => c ≠ '\n')
    match s.buf.dropWhile (fun c => c ≠ '\n') with
    | [] => (text, { buf := [], eofbit := true, failbit := text.isEmpty })
    | _ :: rest => (text, { buf := rest, eofbit := false, failbit := false })

/-- `stream.getline(char_line, n)` followed by `(string)char_line`: as `std::getline`, but at
most `n - 1` characters are stored, `failbit` is set when the line is longer, and the string
ends at the first null character. -/
def getlineBuffer (n : Nat) (s : IStream) : List Char × IStream :=
  if !s.good then ([], { s with failbit := true })
  else
    let text := s.buf.takeWhile (fun c => c ≠ '\n')
    let asString := fun (chars : List Char) => chars.takeWhile (fun c => c ≠ '\x00')
    if text.length < n then
      match s.buf.dropWhile (fun c => c ≠ '\n') with
      | [] => (asString text, { buf := [], eofbit := true, failbit := text.isEmpty })
      | _ :: rest => (asString text, { buf := rest, eofbit := false, failbit := false })
    else
      (asString (text.take (n - 1)),
        { buf := s.buf.drop (n - 1), eofbit := false, failbit := true })

/-! ## The trace driver: `old_TBS` -/

/-- The first statements of `old_TBS`: the trace type is read off the file name, and an
unknown prefix ends the run with `exit(0)`. -/
def detectTraceType (traceFileName : List Char) : Except Stop TraceType := do
  let temp ← substrFrom traceFileName (sizeAdd (find_last_of traceFileName '/') 1)
  let temp ← substr temp 0 (find temp '_' 0)
  if temp = "mase".toList then
    return .mase
  else if temp = "k6".toList then
    return .k6
  else if temp = "misc".toList then
    return .misc
  else
    throw (.exit 0)

/-- The variables of the cycle loop of `old_TBS`. -/
structure OldLoop (χ : Type) where
  mem : MultiChannelMemorySystem χ
  st : DriverState
  traceFile : IStream
  line : List Char
  addr : Nat
  clockCycle : Nat
  transType : TransactionType
  lineNumber : Nat
  trans : Option Transaction
  pendingTrans : Bool

/-- The body of the cycle loop of `old_TBS` up to the call of `update()`, in cycle `i`. -/
def old_TBS_body {χ : Type} (env : Env χ) (noStorage : Bool) (traceType : TraceType)
    (useClockCycle : Bool) (cfg : Config) (i : Nat) (s : OldLoop χ) : Run (OldLoop χ) :=
  if !s.pendingTrans then
    if !s.traceFile.eofbit then
      let read := getlineString s.traceFile s.line
      let s := { s with line := read.1, traceFile := read.2, st := s.st.note (.line read.1) }
      if s.line.length > 0 then do
        let parsed ← Run.lift s.st (parseTraceFileLine noStorage s.line s.addr s.transType
          s.clockCycle traceType useClockCycle)
        let s := { s with
          addr := parsed.addr, transType := parsed.transType, clockCycle := parsed.clockCycle }
        let t ← alignedTransaction env s.st parsed.transType parsed.addr parsed.dataBuffer cfg
        let s := { s with trans := some t, lineNumber := s.lineNumber + 1 }
        if i ≥ s.clockCycle then do
          let added ← driverAdd env s.mem s.st t
          if !added.1 then
            return { s with mem := added.2.1, st := added.2.2, pendingTrans := true }
          else do
            let st ← driverAddPending added.2.2 t i
            return { s with mem := added.2.1, st := st, trans := none }
        else
          return { s with pendingTrans := true }
      else
        return { s with lineNumber := s.lineNumber + 1 }
    else
      return { s with pendingTrans := false }
  else if s.pendingTrans && decide (i ≥ s.clockCycle) then
    match s.trans with
    | none => throw (.stop .undefined, s.st)
    | some t => do
      let added ← driverAdd env s.mem s.st t
      if added.1 then do
        let st ← driverAddPending added.2.2 t i
        return { s with mem := added.2.1, st := st, pendingTrans := false, trans := none }
      else
        return { s with mem := added.2.1, st := added.2.2, pendingTrans := true }
  else
    return s

/-- The cycle loop of `old_TBS`: `n` cycles from cycle `i` on, each ending with `update()`. -/
def old_TBS_loop {χ : Type} (env : Env χ) (noStorage : Bool) (traceType : TraceType)
    (useClockCycle : Bool) (cfg : Config) : Nat → Nat → OldLoop χ → Run (OldLoop χ)
  | 0, _, s => .ok s
  | n + 1, i, s => do
    let s ← old_TBS_body env noStorage traceType useClockCycle cfg i s
    let updated ← driverUpdate env s.mem s.st
    old_TBS_loop env noStorage traceType useClockCycle cfg n (i + 1)
      { s with mem := updated.1, st := updated.2 }

/-- `old_TBS` from the test of the device file name on, for the trace type found. The local
variables `addr` and `transType` start with whatever the stack holds: `addr0` and
`transType0`. -/
def old_TBS_run {χ : Type} (env : Env χ) (noStorage : Bool) (traceType : TraceType)
    (traceFileName systemIniFilename deviceIniFilename pwdString : List Char)
    (megsOfMemory : Nat) (useClockCycle : Bool) (paramOverrides : OptionsMap) (numCycles : Nat)
    (addr0 : Nat) (transType0 : TransactionType) (st : DriverState) : Run DriverState :=
  if deviceIniFilename.length = 0 then
    .error (.stop (.exit (-1)), st)
  else
    let traceFileName := underPwd pwdString traceFileName
    let st := st.note .construct
    match MultiChannelMemorySystem.create env deviceIniFilename systemIniFilename pwdString
        traceFileName megsOfMemory (some paramOverrides) with
    | .error e => .error (.stop e, st)
    | .ok mem =>
      let mem := mem.setCPUClockSpeed env 0
      match env.openInput traceFileName with
      | none => .error (.stop (.exit 0), st)
      | some content => do
        let s ← old_TBS_loop env noStorage traceType useClockCycle mem.cfg numCycles 0
          { mem := mem, st := st, traceFile := ⟨content, false, false⟩, line := [],
            addr := addr0, clockCycle := 0, transType := transType0, lineNumber := 0,
            trans := none, pendingTrans := false }
        return s.st

/-- `old_TBS`: the trace type is detected first. -/
def old_TBS {χ : Type} (env : Env χ) (noStorage : Bool)
    (traceFileName systemIniFilename deviceIniFilename pwdString : List Char)
    (megsOfMemory : Nat) (useClockCycle : Bool) (paramOverrides : OptionsMap) (numCycles : Nat)
    (addr0 : Nat) (transType0 : TransactionType) (st : DriverState) : Run DriverState := do
  let traceType ← Run.lift st (detectTraceType traceFileName)
  old_TBS_run env noStorage traceType traceFileName systemIniFilename deviceIniFilename
    pwdString megsOfMemory useClockCycle paramOverrides numCycles addr0 transType0 st

/-! ## The trace driver: `simple_TBS` -/

/-- The variables of the loops of `simple_TBS`. -/
structure SimpleLoop (χ : Type) where
  mem : MultiChannelMemorySystem χ
  st : DriverState
  inFile : IStream
  trans : Option Transaction
  done : Bool
  paused : Bool
  trans_count : Nat

/-- The fast-forward loop of `simple_TBS`, for at most `fuel` iterations. -/
def skipLoop (START_TRANS : Nat) (st : DriverState) :
    Nat → IStream → Nat → Bool → Run (IStream × Nat)
  | 0, inFile, trans_count, done =>
    if inFile.good && !done then .error (.outOfFuel, st) else .ok (inFile, trans_count)
  | fuel + 1, inFile, trans_count, done =>
    if inFile.good && !done then
      let read := getlineBuffer 256 inFile
      let trans_count := (trans_count + 1) % 2 ^ 64
      skipLoop START_TRANS st fuel read.2 trans_count (decide (trans_count ≥ START_TRANS))
    else
      .ok (inFile, trans_count)

/-- The loop `while (trace_cycles < trans_cycle)` of `simple_TBS`, for at most `fuel`
iterations. -/
def advanceLoop {χ : Type} (env : Env χ) (trans_cycle : Nat) :
    Nat → MultiChannelMemorySystem χ → DriverState →
      Run (MultiChannelMemorySystem χ × DriverState)
  | 0, mem, st =>
    if st.g.trace_cycles < trans_cycle then .error (.outOfFuel, st) else .ok (mem, st)
  | fuel + 1, mem, st =>
    if st.g.trace_cycles < trans_cycle then do
      let updated ← driverUpdate env mem st
      let st := updated.2
      advanceLoop env trans_cycle fuel updated.1
        { st with g := { st.g with trace_cycles := (st.g.trace_cycles + 1) % 2 ^ 64 } }
    else
      .ok (mem, st)

/-- The loop `while (pending > MIN_PENDING)` of `simple_TBS`, for at most `fuel`
iterations. -/
def throttleLoop {χ : Type} (env : Env χ) :
    Nat → MultiChannelMemorySystem χ → DriverState →
      Run (MultiChannelMemorySystem χ × DriverState)
  | 0, mem, st =>
    if st.g.pending > MIN_PENDING then .error (.outOfFuel, st) else .ok (mem, st)
  | fuel + 1, mem, st =>
    if st.g.pending > MIN_PENDING then do
      let updated ← driverUpdate env mem st
      let st := updated.2
      throttleLoop env fuel updated.1
        { st with g := { st.g with throttle_cycles := (st.g.throttle_cycles + 1) % 2 ^ 64 } }
    else
      .ok (mem, st)

/-- The loop `while (pending > 0)` that ends `simple_TBS`, for at most `fuel` iterations. -/
def drainLoop {χ : Type} (env : Env χ) :
    Nat → MultiChannelMemorySystem χ → DriverState →
      Run (MultiChannelMemorySystem χ × DriverState)
  | 0, mem, st =>
    if st.g.pending > 0 then .error (.outOfFuel, st) else .ok (mem, st)
  | fuel + 1, mem, st =>
    if st.g.pending > 0 then do
      let updated ← driverUpdate env mem st
      let st := updated.2
      drainLoop env fuel updated.1
        { st with g := { st.g with final_cycles := (st.g.final_cycles + 1) % 2 ^ 64 } }
    else
      .ok (mem, st)

/-- The end of the parsing in `simple_TBS`, from the three numbers of a line (stored in
`uint64_t line_vals[3]`) to the cycle, the type and the address of the transaction. -/
def finishSimpleLine (speedup_factor v0 v1 v2 : Nat) : Nat × TransactionType × Nat :=
  let line_vals := (v0 % 2 ^ 64, v1 % 2 ^ 64, v2 % 2 ^ 64)
  let trans_cycle :=
    if speedup_factor ≠ 0 then line_vals.1 / speedup_factor else line_vals.1
  let write := line_vals.2.1 % 2
  let transType :=
    if write = 0 then TransactionType.DATA_READ else TransactionType.DATA_WRITE
  let addr := line_vals.2.2
  (trans_cycle, transType, addr)

/-- What `simple_TBS` reads off a line: `none` for a line that is empty once the comment and
the surrounding white space are gone, else the cycle, the transaction type and the address;
a line that does not split in three, or a field that `convert_uint64_t` rejects, ends the
run. -/
def parseSimpleLine {χ : Type} (env : Env χ) (speedup_factor : Nat) (char_line : List Char) :
    Except Stop (Option (Nat × TransactionType × Nat)) :=
  match substr char_line 0 (find char_line '#' 0) with
  | .error e => .error e
  | .ok line =>
    if (env.strip line).isEmpty then
      .ok none
    else
      match env.split (env.strip line) with
      | [first, second, third] =>
        match env.convert_uint64_t first with
        | .error e => .error e
        | .ok v0 =>
          match env.convert_uint64_t second with
          | .error e => .error e
          | .ok v1 =>
            match env.convert_uint64_t third with
            | .error e => .error e
            | .ok v2 => .ok (some (finishSimpleLine speedup_factor v0 v1 v2))
      | _ => .error .abort

/-- "Add the transaction and continue": the transaction is offered to the memory system; when
it is accepted it is recorded as pending, and when not the driver pauses for one update. -/
def simple_TBS_offer {χ : Type} (env : Env χ) (s : SimpleLoop χ) (t : Transaction) :
    Run (SimpleLoop χ) := do
  let added ← driverAdd env s.mem s.st t
  if added.1 then do
    let st ← driverAddPending added.2.2 t added.2.2.g.trace_cycles
    let st := { st with g := { st.g with pending := (st.g.pending + 1) % 2 ^ 64 } }
    pure { s with
      mem := added.2.1, st := st, trans_count := (s.trans_count + 1) % 2 ^ 64, paused := false }
  else do
    let updated ← driverUpdate env added.2.1 added.2.2
    let st := updated.2
    let st :=
      { st with g := { st.g with throttle_cycles := (st.g.throttle_cycles + 1) % 2 ^ 64 } }
    pure { s with mem := updated.1, st := st, paused := true }

/-- The throttling: at `MAX_PENDING` pending transactions the driver updates until the count is
back at `MIN_PENDING`. -/
def simple_TBS_throttle {χ : Type} (env : Env χ) (bound : Nat) (s : SimpleLoop χ) :
    Run (SimpleLoop χ) :=
  if s.st.g.pending ≥ MAX_PENDING then do
    let st := s.st
    let st :=
      { st with g := { st.g with throttle_count := (st.g.throttle_count + 1) % 2 ^ 64 } }
    let throttled ← throttleLoop env bound s.mem st
    pure { s with mem := throttled.1, st := throttled.2 }
  else
    pure s

/-- The test that ends the trace at `MAX_TRANS` transactions. -/
def simple_TBS_checkDone {χ : Type} (s : SimpleLoop χ) : SimpleLoop χ :=
  if s.st.g.MAX_TRANS ≠ 0 ∧ s.trans_count ≥ s.st.g.MAX_TRANS then { s with done := true } else s

/-- The second half of the loop body of `simple_TBS`, which follows the parsing of a new line
and is all that is done while the driver is paused. -/
def simple_TBS_submit {χ : Type} (env : Env χ) (bound : Nat) (s : SimpleLoop χ) :
    Run (SimpleLoop χ) :=
  match s.trans with
  | none => throw (.stop .undefined, s.st)
  | some t => do
    let s ← simple_TBS_offer env s t
    let s ← simple_TBS_throttle env bound s
    return simple_TBS_checkDone s

/-- The end of the first half of the loop body of `simple_TBS`, for a line that parsed:
`update()` is called until `trace_cycles` is at the cycle of the line, then the transaction is
built, aligned and submitted. -/
def simple_TBS_issue {χ : Type} (env : Env χ) (bound : Nat) (cfg : Config) (s : SimpleLoop χ)
    (trans_cycle : Nat) (transType : TransactionType) (addr : Nat) : Run (SimpleLoop χ) := do
  let advanced ← advanceLoop env trans_cycle bound s.mem s.st
  let t ← alignedTransaction env advanced.2 transType addr none cfg
  simple_TBS_submit env bound { s with mem := advanced.1, st := advanced.2, trans := some t }

/-- The body of the main loop of `simple_TBS`. An empty line takes the `continue`. -/
def simple_TBS_body {χ : Type} (env : Env χ) (bound : Nat) (cfg : Config) (s : SimpleLoop χ) :
    Run (SimpleLoop χ) :=
  if !s.paused then
    let read := getlineBuffer 256 s.inFile
    let s := { s with inFile := read.2, st := s.st.note (.line read.1) }
    match parseSimpleLine env s.st.g.speedup_factor read.1 with
    | .error e => .error (.stop e, s.st)
    | .ok none => .ok s
    | .ok (some (trans_cycle, transType, addr)) =>
      simple_TBS_issue env bound cfg s trans_cycle transType addr
  else
    simple_TBS_submit env bound s

/-- The main loop of `simple_TBS`, for at most `fuel` iterations; the inner loops get `bound`
iterations each. -/
def simple_TBS_loop {χ : Type} (env : Env χ) (bound : Nat) (cfg : Config) :
    Nat → SimpleLoop χ → Run (SimpleLoop χ)
  | 0, s => if s.inFile.good && !s.done then .error (.outOfFuel, s.st) else .ok s
  | fuel + 1, s =>
    if s.inFile.good && !s.done then do
      let s ← simple_TBS_body env bound cfg s
      simple_TBS_loop env bound cfg fuel s
    else
      .ok s

/-- The fast-forward of `simple_TBS`, made when `START_TRANS` is not 0: the stream after it
and the number of lines skipped. -/
def simple_TBS_skip (st : DriverState) (bound : Nat) (inFile : IStream) : Run (IStream × Nat) :=
  if st.g.START_TRANS ≠ 0 then skipLoop st.g.START_TRANS st bound inFile 0 false
  else .ok (inFile, 0)

/-- `simple_TBS` from the opened trace file on: the fast-forward, the main loop, and the
updates until nothing is pending. -/
def simple_TBS_trace {χ : Type} (env : Env χ) (bound : Nat) (cfg : Config)
    (mem : MultiChannelMemorySystem χ) (st : DriverState) (inFile : IStream) :
    Run DriverState := do
  let skipped ← simple_TBS_skip st bound inFile
  let s ← simple_TBS_loop env bound cfg bound
    { mem := mem, st := st, inFile := skipped.1, trans := none, done := false,
      paused := false, trans_count := skipped.2 }
  let drained ← drainLoop env bound s.mem s.st
  return drained.2

/-- `simple_TBS`, every loop of which is run for at most `bound` iterations. -/
def simple_TBS {χ : Type} (env : Env χ) (bound : Nat)
    (traceFileName systemIniFilename deviceIniFilename pwdString : List Char)
    (megsOfMemory : Nat) (paramOverrides : OptionsMap) (st : DriverState) :
    Run DriverState :=
  if deviceIniFilename.length = 0 then
    .error (.stop (.exit (-1)), st)
  else
    let st := st.note .construct
    match MultiChannelMemorySystem.create env deviceIniFilename systemIniFilename pwdString
        traceFileName megsOfMemory (some paramOverrides) with
    | .error e => .error (.stop e, st)
    | .ok mem =>
      let mem := mem.setCPUClockSpeed env 0
      match env.openInput traceFileName with
      | none => .error (.stop .abort, st)
      | some content => simple_TBS_trace env bound mem.cfg mem st ⟨content, false, false⟩

/-! ## `main` -/

/-- What one call of `getopt_long` hands to the `switch` of `main`: the option, with `optarg`
where the option takes an argument. (`getopt_long` itself belongs to the C library; `main` is
modelled from its results, in the order of the command line.) The results are 0 for a long
option that stores into a flag, which is `--quiet` (`flag`); `'h'` for `--help`; the letters
`t`, `s`, `d`, `c`, `S`, `p`, `o`, `v`, `e`, each with an argument; the letters `q`, `n`, `k`;
and `'?'` for an option that is not known or lacks its argument (`unknown`). -/
inductive CommandOption where
  | flag
  | help
  | tracefile (optarg : List Char)
  | systemini (optarg : List Char)
  | deviceini (optarg : List Char)
  | numcycles (optarg : List Char)
  | size (optarg : List Char)
  | pwd (optarg : List Char)
  | quiet
  | notiming
  | option (optarg : List Char)
  | visfile (optarg : List Char)
  | keep_simple
  | end_trans (optarg : List Char)
  | unknown
  deriving DecidableEq, Repr

/-- The local variables of `main`, the unread text of its `stringstream ss`, and the two
process-wide variables the option loop assigns. -/
structure MainVars where
  traceFileName : List Char
  systemIniFilename : List Char
  deviceIniFilename : List Char
  pwdString : List Char
  visFilename : List Char
  megsOfMemory : Nat
  useClockCycle : Bool
  numCycles : Nat
  paramOverrides : OptionsMap
  KISS : Bool
  ss : List Char
  SHOW_SIM_OUTPUT : Int
  MAX_TRANS : Nat
  deriving DecidableEq, Repr

/-- The variables as `main` declares them. -/
def MainVars.start : MainVars :=
  { traceFileName := []
    systemIniFilename := "system.ini".toList
    deviceIniFilename := []
    pwdString := []
    visFilename := "dramsim.vis".toList
    megsOfMemory := 2048
    useClockCycle := true
    numCycles := 1000
    paramOverrides := []
    KISS := false
    ss := []
    SHOW_SIM_OUTPUT := 1
    MAX_TRANS := 0 }

/-- The C library's `atoi`: white space, an optional sign and decimal digits are read; a text
without a number gives 0, and the result is undefined (`none`) when the number does not fit an
`int`. -/
def atoi (s : List Char) : Option Int :=
  let signed := readSign (s.dropWhile isspace)
  let digits := readDigits 10 signed.2 0 0
  let value : Int := if signed.1 then -(digits.2 : Int) else (digits.2 : Int)
  if -(2 ^ 31) ≤ value ∧ value < 2 ^ 31 then some value else none

/-- The conversion of an `int` to `unsigned`. -/
def toUnsigned (value : Int) : Nat :=
  (value % 2 ^ 32).toNat

/-- The characters `stream >> value` (base 10, `uint64_t`) leaves unread: the white space, the
sign and the digits at the front are taken. -/
def unreadAfterU64 (s : List Char) : List Char :=
  let signed := readSign (s.dropWhile isspace)
  signed.2.drop (readDigits 10 signed.2 0 0).1

/-- One round of the option loop of `main`: the `switch` on the result of `getopt_long`. -/
def MainVars.step (v : MainVars) : CommandOption → Except Halt MainVars
  | .flag => .ok { v with SHOW_SIM_OUTPUT := 113 }
  | .help => .error (.stop (.exit 0))
  | .tracefile optarg => .ok { v with traceFileName := optarg }
  | .systemini optarg => .ok { v with systemIniFilename := optarg }
  | .deviceini optarg => .ok { v with deviceIniFilename := optarg }
  | .numcycles optarg =>
    match atoi optarg with
    | some value => .ok { v with numCycles := toUnsigned value }
    | none => .error (.stop .undefined)
  | .size optarg =>
    match atoi optarg with
    | some value => .ok { v with megsOfMemory := toUnsigned value }
    | none => .error (.stop .undefined)
  | .pwd optarg => .ok { v with pwdString := optarg }
  | .quiet => .ok { v with SHOW_SIM_OUTPUT := 0 }
  | .notiming => .ok { v with useClockCycle := false }
  | .option optarg =>
    match parseParamOverrides optarg with
    | none => .error .outOfFuel
    | some (.error s) => .error (.stop s)
    | some (.ok kv_map) => .ok { v with paramOverrides := kv_map }
  | .visfile optarg => .ok { v with visFilename := optarg }
  | .keep_simple => .ok { v with KISS := true }
  | .end_trans optarg =>
    let text := v.ss ++ optarg
    .ok { v with MAX_TRANS := extractU64 10 text v.MAX_TRANS, ss := unreadAfterU64 text }
  | .unknown => .error (.stop (.exit (-1)))

/-- The option loop of `main`, over the results of `getopt_long` until it returns -1. -/
def MainVars.scan (v : MainVars) : List CommandOption → Except Halt MainVars
  | [] => .ok v
  | c :: rest =>
    match v.step c with
    | .error h => .error h
    | .ok v2 => MainVars.scan v2 rest

/-- `main`: the options are read and one of the two drivers is run. The drivers start from
the process-wide variables as initialised, but for `MAX_TRANS`, which `-e` sets. -/
def main {χ : Type} (env : Env χ) (noStorage : Bool) (bound : Nat) (addr0 : Nat)
    (transType0 : TransactionType) (options : List CommandOption) : Run DriverState :=
  match MainVars.start.scan options with
  | .error h => .error (h, DriverState.start Globals.start)
  | .ok v =>
    let st := DriverState.start { Globals.start with MAX_TRANS := v.MAX_TRANS }
    if v.KISS then
      simple_TBS env bound v.traceFileName v.systemIniFilename v.deviceIniFilename v.pwdString
        v.megsOfMemory v.paramOverrides st
    else
      old_TBS env noStorage v.traceFileName v.systemIniFilename v.deviceIniFilename v.pwdString
        v.megsOfMemory v.useClockCycle v.paramOverrides v.numCycles addr0 transType0 st

/-! ## The words of the specification -/

/-- The hexadecimal digits. -/
def hexDigits : List Char := "0123456789abcdefABCDEF".toList

/-- The decimal digits. -/
def decDigits : List Char := "0123456789".toList

/-- The number a numeral denotes in the given base: each digit weighs the base to the power of
the number of digits after it. -/
def numeralValue (base : Nat) : List Char → Nat
  | [] => 0
  | c :: s => (digitValue c).getD 0 * base ^ s.length + numeralValue base s

/-- The six commands of a `k6` trace. -/
def k6Commands : List (List Char) :=
  ["P_MEM_WR".toList, "BOFF".toList, "P_FETCH".toList, "P_MEM_RD".toList, "P_LOCK_RD".toList,
    "P_LOCK_WR".toList]

/-- The transaction type the specification gives a `k6` command: the first two write, the
rest read. -/
def k6CommandType (cmd : List Char) : TransactionType :=
  if cmd = "P_MEM_WR".toList ∨ cmd = "BOFF".toList then .DATA_WRITE else .DATA_READ

/-- The transaction type the specification gives a `misc` command. -/
def miscCommandType (cmd : List Char) : TransactionType :=
  if cmd = "write".toList then .DATA_WRITE else .DATA_READ

/-- Word `i` of the data of a `misc` write in the words of the specification: the value of the
hexadecimal digits `d[16 i .. min (16 i + 16) L)`, which is 0 for an empty slice. -/
def dataWord (d : List Char) (i : Nat) : Nat :=
  numeralValue 16 ((d.drop (16 * i)).take 16)

/-- The basename of a path: the text after the last `/`, the whole path if there is none. -/
def baseName (path : List Char) : List Char :=
  (path.reverse.takeWhile (fun c => c ≠ '/')).reverse

/-- The basename cut at its first `_`, the whole basename if there is none. -/
def namePrefix (path : List Char) : List Char :=
  (baseName path).takeWhile (fun c => c ≠ '_')

/-- The trace format a prefix selects, if any. -/
def traceTypeOfPrefix (pre : List Char) : Option TraceType :=
  if pre = "k6".toList then some .k6
  else if pre = "mase".toList then some .mase
  else if pre = "misc".toList then some .misc
  else none

/-- The number of calls of `update()` among the events. -/
def updatesIn : List Event → Nat
  | [] => 0
  | .update :: es => updatesIn es + 1
  | _ :: es => updatesIn es

/-- The line read last (the events come latest first). -/
def lastLine : List Event → Option (List Char)
  | [] => none
  | .line text :: _ => some text
  | _ :: es => lastLine es

/-- A line of a KISS trace after everything from the first `#` is deleted and the surrounding
white space is stripped. -/
def lineBody {χ : Type} (env : Env χ) (text : List Char) : List Char :=
  env.strip (text.takeWhile (fun c => c ≠ '#'))

/-- The transaction type the specification gives an `op` of a KISS trace. -/
def kissType (op : Nat) : TransactionType :=
  if op % 2 = 0 then .DATA_READ else .DATA_WRITE

/-- `t` is the transaction of the line `text`, which is not empty and splits into three
unsigned integers `cycle`, `op`, `addr` (held in 64 bits): it reads iff `op` is even, its
address is `addr` aligned, and `updates` calls of `update()` are at least `cycle`. -/
def SubmittedFor {χ : Type} (env : Env χ) (text : List Char) (t : Transaction)
    (updates : Nat) : Prop :=
  lineBody env text ≠ [] ∧
    ∃ first second third cycle op addr,
      env.split (lineBody env text) = [first, second, third] ∧
      env.convert_uint64_t first = .ok cycle ∧
      env.convert_uint64_t second = .ok op ∧
      env.convert_uint64_t third = .ok addr ∧
      cycle % 2 ^ 64 ≤ updates ∧
      t.transactionType = kissType op ∧
      alignTransactionAddress env.dramsim_log2 ⟨kissType op, addr % 2 ^ 64, none, t.cfg⟩
        = some t

/-- Every submission among the events is of the transaction of the line read last before it,
and comes after enough calls of `update()`. -/
def Timed {χ : Type} (env : Env χ) : List Event → Prop
  | [] => True
  | .addTransaction t _ :: es =>
    (∃ text, lastLine es = some text ∧ SubmittedFor env text t (updatesIn es)) ∧ Timed env es
  | _ :: es => Timed env es

/-- The text `k1=v1,k2=v2,...,kn=vn` of a list of keys with their values. -/
def renderOverrides : List (List Char × List Char) → List Char
  | [] => []
  | [p] => p.1 ++ '=' :: p.2
  | p :: q :: r => p.1 ++ '=' :: p.2 ++ ',' :: renderOverrides (q :: r)

/-- The value of the last occurrence of `key` in a list of keys with their values. -/
def lastValue (pairs : List (List Char × List Char)) (key : List Char) : Option (List Char) :=
  (pairs.reverse.find? (fun p => p.1 = key)).map Prod.snd

/-- The number of calls of `add_pending` among the events. -/
def addsIn : List Event → Nat
  | [] => 0
  | .add_pending _ _ :: es => addsIn es + 1
  | _ :: es => addsIn es

/-- The number of completion callbacks among the events. -/
def completionsIn : List Event → Nat
  | [] => 0
  | .read_complete _ _ :: es => completionsIn es + 1
  | .write_complete _ _ :: es => completionsIn es + 1
  | _ :: es => completionsIn es

/-- The texts of the lines read among the events, the latest first. -/
def linesIn : List Event → List (List Char)
  | [] => []
  | .line text :: es => text :: linesIn es
  | _ :: es => linesIn es

/-- The lines of the text `s`, cut at the newlines; `line` holds the characters of the current
line, the latest first. -/
def traceLinesFrom : List Char → List Char → List (List Char)
  | [], line => [line.reverse]
  | c :: s, line =>
    if c = '\n' then line.reverse :: traceLinesFrom s [] else traceLinesFrom s (c :: line)

/-- The lines of a trace file, in order: the texts between its newlines (after a final
newline comes a last, empty line). -/
def traceLines (content : List Char) : List (List Char) :=
  traceLinesFrom content []

/-- What the line buffer `char char_line[256]` holds of a line, as a string: its first 255
characters at most, up to the first null character. -/
def bufferText (line : List Char) : List Char :=
  (line.take 255).takeWhile (fun c => c ≠ '\x00')

/-- A line fits the line buffer: it has fewer than 256 characters, none of them null. -/
def FitsBuffer (line : List Char) : Prop :=
  line.length < 256 ∧ '\x00' ∉ line

/-- The texts read (the latest first) are, in order, the lines of the trace file from line
`skip` on, each as the line buffer holds it. -/
def LinesAt (content : List Char) (skip : Nat) : List (List Char) → Prop
  | [] => True
  | text :: texts =>
    (∃ line,
        (traceLines content)[skip + texts.length]? = some line ∧ text = bufferText line) ∧
      LinesAt content skip texts

/-- Every submission among the events is made for a line of the trace file, the one read last
before it (by count: the lines are read in order, from line `skip` on). The transaction is the
one of the text the line buffer holds of the line, submitted after enough calls of `update()`;
so for a line that fits the buffer it is the transaction of the line. -/
def TimedLines {χ : Type} (env : Env χ) (content : List Char) (skip : Nat) :
    List Event → Prop
  | [] => True
  | .addTransaction t _ :: es =>
    (∃ line, (traceLines content)[skip + (linesIn es).length - 1]? = some line ∧
      1 ≤ (linesIn es).length ∧
      lastLine es = some (bufferText line) ∧
      SubmittedFor env (bufferText line) t (updatesIn es) ∧
      (FitsBuffer line → SubmittedFor env line t (updatesIn es))) ∧
    TimedLines env content skip es
  | _ :: es => TimedLines env content skip es

/-- The transactions submitted among the events, the latest first. -/
def submissionsIn : List Event → List Transaction
  | [] => []
  | .addTransaction t _ :: es => t :: submissionsIn es
  | _ :: es => submissionsIn es

/-! ## Sequences of calls on a `TransactionReceiver` -/

/-- The value of `m[address].front()`, which `read_complete` and `write_complete` store in
their local `added_cycle`, for an address whose list is not empty. -/
def PendingMap.front (m : PendingMap) (address : Nat) : Option Nat :=
  match m.find? address with
  | some (cycle :: _) => some cycle
  | _ => none

/-- A call of a member function of `TransactionReceiver`. -/
inductive ReceiverCall where
  | add_pending (t : Transaction) (cycle : Nat)
  | read_complete (address done_cycle : Nat)
  | write_complete (address done_cycle : Nat)
  deriving DecidableEq, Repr

/-- What a completion was matched with: whether it was a write, its address, and the
`added_cycle` it took off the front of the list. -/
structure Matched where
  isWrite : Bool
  address : Nat
  added_cycle : Nat
  deriving DecidableEq, Repr

/-- One call on the receiver; a completion also hands back what it was matched with. -/
def ReceiverCall.run (r : TransactionReceiver) (g : Globals) :
    ReceiverCall → Except Stop (TransactionReceiver × Globals × List Matched)
  | .add_pending t cycle =>
    match r.add_pending t cycle with
    | .error s => .error s
    | .ok r2 => .ok (r2, g, [])
  | .read_complete address done_cycle =>
    match r.read_complete g address done_cycle with
    | .error s => .error s
    | .ok (r2, g2) =>
      .ok (r2, g2, (r.pendingReadRequests.front address).toList.map (Matched.mk false address))
  | .write_complete address done_cycle =>
    match r.write_complete g address done_cycle with
    | .error s => .error s
    | .ok (r2, g2) =>
      .ok (r2, g2, (r.pendingWriteRequests.front address).toList.map (Matched.mk true address))

/-- A sequence of calls, in order, with the matches of its completions, in order. -/
def runCalls (r : TransactionReceiver) (g : Globals) :
    List ReceiverCall → Except Stop (TransactionReceiver × Globals × List Matched)
  | [] => .ok (r, g, [])
  | call :: calls =>
    match call.run r g with
    | .error s => .error s
    | .ok (r2, g2, first) =>
      match runCalls r2 g2 calls with
      | .error s => .error s
      | .ok (r3, g3, rest) => .ok (r3, g3, first ++ rest)

/-- The transaction type of an operation kind. -/
def kindType (isWrite : Bool) : TransactionType :=
  if isWrite then .DATA_WRITE else .DATA_READ

/-- The cycles passed to the calls of `add_pending` of one kind at the address `A`, in order. -/
def addedCycles (isWrite : Bool) (A : Nat) : List ReceiverCall → List Nat
  | [] => []
  | .add_pending t cycle :: calls =>
    if t.transactionType = kindType isWrite ∧ t.address = A then
      cycle :: addedCycles isWrite A calls
    else addedCycles isWrite A calls
  | _ :: calls => addedCycles isWrite A calls

/-- The added cycles the completions of one kind at the address `A` were matched with, in
order. -/
def matchedCycles (isWrite : Bool) (A : Nat) (log : List Matched) : List Nat :=
  (log.filter (fun m => m.isWrite = isWrite ∧ m.address = A)).map Matched.added_cycle

/-- The list of one kind the receiver holds for the address `A`, empty when there is no
entry. -/
def TransactionReceiver.pendingAt (r : TransactionReceiver) (isWrite : Bool) (A : Nat) :
    List Nat :=
  ((if isWrite then r.pendingWriteRequests else r.pendingReadRequests).find? A).getD []

/-! ## What holds along a run of `simple_TBS` -/

/-- A step of a run satisfies `P` on its value, or `Q` on the state it ended the run in. -/
def Run.sat {α : Type} (r : Run α) (P : α → Prop) (Q : DriverState → Prop) : Prop :=
  match r with
  | .ok a => P a
  | .error (_, st) => Q st

/-- The state `st2` comes after `st1` in a run, with no line read and `trace_cycles` left
alone in between: what is known of the submissions stays known. -/
structure Frame {χ : Type} (env : Env χ) (st1 st2 : DriverState) : Prop where
  timed : Timed env st1.events → Timed env st2.events
  line : lastLine st2.events = lastLine st1.events
  updates : updatesIn st1.events ≤ updatesIn st2.events
  cycles : st2.g.trace_cycles = st1.g.trace_cycles
  speedup : st2.g.speedup_factor = st1.g.speedup_factor
  maxTrans : st2.g.MAX_TRANS = st1.g.MAX_TRANS
  lines : linesIn st2.events = linesIn st1.events

/-- What holds of the state between the steps of `simple_TBS`. -/
structure Inv {χ : Type} (env : Env χ) (st : DriverState) : Prop where
  timed : Timed env st.events
  cycles : st.g.trace_cycles ≤ updatesIn st.events
  speedup : st.g.speedup_factor = 0

/-- The transaction `t` may be submitted in state `st`. -/
def Ready {χ : Type} (env : Env χ) (st : DriverState) (t : Transaction) : Prop :=
  ∃ text, lastLine st.events = some text ∧ SubmittedFor env text t (updatesIn st.events)

/-- The stream stands at the start of line `position` of the trace file, as far as it can
still be read. -/
def AtLine (content : List Char) (position : Nat) (inFile : IStream) : Prop :=
  inFile.good = true → (traceLines content).drop position = traceLines inFile.buf

/-- What holds of the reading of the trace between the steps of `simple_TBS`: the lines read
so far are the lines of the file from line `skip` on, and the stream stands at the line after
them. -/
structure Reading (content : List Char) (skip : Nat) (st : DriverState) (inFile : IStream) :
    Prop where
  lines : LinesAt content skip (linesIn st.events)
  stream : AtLine content (skip + (linesIn st.events).length) inFile

/-! ## Concrete inputs -/

/-- A stand-in for `strip` at concrete inputs: white space is taken off both ends. -/
def stripBlanks (s : List Char) : List Char :=
  ((s.dropWhile isspace).reverse.dropWhile isspace).reverse

/-- The words of a string from the characters `s`, `word` holding the current word backwards. -/
def splitBlanksFrom : List Char → List Char → List (List Char)
  | [], word => if word.isEmpty then [] else [word.reverse]
  | c :: s, word =>
    if isspace c then
      if word.isEmpty then splitBlanksFrom s [] else word.reverse :: splitBlanksFrom s []
    else
      splitBlanksFrom s (c :: word)

/-- A stand-in for `split` at concrete inputs: the words between white space. -/
def splitBlanks (s : List Char) : List (List Char) :=
  splitBlanksFrom s []

/-- A stand-in for `convert_uint64_t` at concrete inputs: a non-empty decimal numeral is
converted, anything else aborts. -/
def convertDecimal (s : List Char) : Except Stop Nat :=
  if s ≠ [] ∧ s.all (fun c => decide (c ∈ decDigits)) then .ok (numeralValue 10 s % 2 ^ 64)
  else .error .abort

/-- A platform for concrete runs. A channel is the queue of the transactions it has accepted
(write flag and address): it accepts while fewer than two wait, and an update completes the
oldest. Transactions are 64 bytes and the channel is taken from the address bits above them;
the ini files set nothing; the trace file holds `trace`; no other file exists. -/
def demoEnv (numChans : Nat) (trace : List Char) : Env (List (Bool × Nat)) where
  dramsim_log2 := dramsim_log2
  strip := stripBlanks
  split := splitBlanks
  convert_uint64_t := convertDecimal
  addressMapping := fun addr cfg => (addr / 64) % cfg.NUM_CHANS
  ReadIniFile := fun _ => .ok []
  defaultConfig := ⟨8, 64, numChans, 100000, false⟩
  configSet := fun cfg _ => cfg
  dramsimClkFreqHz := fun _ => 666666666
  newMemorySystem := fun _ _ _ => .ok []
  channelUpdate := fun queue =>
    match queue with
    | [] => ([], [])
    | (isWrite, address) :: rest => (rest, [⟨isWrite, 0, address, 0⟩])
  channelAddTransaction := fun queue t =>
    if queue.length < 2 then
      (true, queue ++ [(decide (t.transactionType = .DATA_WRITE), t.address)])
    else (false, queue)
  channelAddTransactionRW := fun queue isWrite addr =>
    if queue.length < 2 then (true, queue ++ [(isWrite, addr)]) else (false, queue)
  WillAcceptTransaction := fun queue => decide (queue.length < 2)
  stat := fun _ => .enoent
  openOutput := fun _ => true
  openInput := fun _ => some trace
  SIM_DESC := none
  LOG_OUTPUT := false

/-- The system the constructor builds on the concrete platform with three channels. -/
def threeChannels : MultiChannelMemorySystem (List (Bool × Nat)) :=
  { megsOfMemory := 2048
    deviceIniFilename := "device.ini".toList
    systemIniFilename := "system.ini".toList
    traceFilename := "k6_t.trc".toList
    pwd := []
    cfg := ⟨8, 64, 3, 100000, false⟩
    channels := [[], [], []]
    currentClockCycle := 0
    clock1 := 1
    clock2 := 1
    counter := 0 }

/-- A file system in which every name exists except `dramsim.99.log`. -/
def statAllBut99 (path : List Char) : StatResult :=
  if path = "dramsim.99.log".toList then .enoent else .ok

/-- A sequence of calls for concrete runs: two reads and a write are added at address 64, a
read at address 128, and two reads at 64 complete. -/
def fifoCalls : List ReceiverCall :=
  [.add_pending ⟨.DATA_READ, 64, none, ⟨8, 64, 1, 100000, false⟩⟩ 3,
    .add_pending ⟨.DATA_WRITE, 64, none, ⟨8, 64, 1, 100000, false⟩⟩ 4,
    .add_pending ⟨.DATA_READ, 128, none, ⟨8, 64, 1, 100000, false⟩⟩ 1,
    .add_pending ⟨.DATA_READ, 64, none, ⟨8, 64, 1, 100000, false⟩⟩ 5,
    .read_complete 64 10, .read_complete 64 11]

/-- A system with four channels on the concrete platform. -/
def fourChannels : MultiChannelMemorySystem (List (Bool × Nat)) :=
  { threeChannels with cfg := ⟨8, 64, 4, 100000, false⟩, channels := [[], [], [], []] }

/-- A file system in which `dramsim.log`, `dramsim.1.log` and `dramsim.2.log` exist and
nothing else. -/
def statThreeLogs (path : List Char) : StatResult :=
  if path = "dramsim.log".toList ∨ path = "dramsim.1.log".toList
      ∨ path = "dramsim.2.log".toList then .ok
  else .enoent

/-- The command line `-t k6_t.trc -d device.ini`, as `getopt_long` delivers it. -/
def plainCommandLine : List CommandOption :=
  [.tracefile "k6_t.trc".toList, .deviceini "device.ini".toList]

/-- A line of 257 characters that splits into the three numbers 0, 0 and 128: `0 0`, 251
blanks, `128`. -/
def longLine : List Char :=
  "0 0".toList ++ List.replicate 251 ' ' ++ "128".toList

/-- A KISS trace for concrete runs: a comment line, a read and a write. -/
def kissTrace : List Char :=
  "# t\n0 0 64\n3 1 130\n".toList

/-- The KISS trace that holds the one long line. -/
def longTrace : List Char :=
  longLine ++ ['\n']

/-! ## Theorems -/

/-! ### Searching and cutting strings -/

theorem pow64_eq : (2:Nat) ^ 64 = 18446744073709551616 := by norm_num

theorem npos_eq : npos = 18446744073709551615 := by
  unfold npos; norm_num

theorem sizeSub_of_le {a b : Nat} (hb : b ≤ a) (ha : a < 2 ^ 64) : sizeSub a b = a - b := by
  unfold sizeSub
  rw [pow64_eq] at *
  omega

theorem sizeAdd_of_lt {a b : Nat} (h : a + b < 2 ^ 64) : sizeAdd a b = a + b := by
  unfold sizeAdd
  exact Nat.mod_eq_of_lt h

theorem findFrom_append_of_not_mem (c : Char) (a r : List Char) (i : Nat) (h : c ∉ a) :
    findFrom c (a ++ r) i = findFrom c r (i + a.length) := by
  induction a generalizing i with
  | nil => simp
  | cons d a ih =>
    have hd : d ≠ c := fun e => h (by simp [e])
    have ha : c ∉ a := fun e => h (by simp [e])
    have e : i + 1 + a.length = i + (a.length + 1) := by omega
    rw [List.cons_append, findFrom, if_neg hd, ih (i + 1) ha, List.length_cons, e]

theorem findFrom_cons_self (c : Char) (r : List Char) (i : Nat) : findFrom c (c :: r) i = i := by
  simp [findFrom]

theorem findFrom_of_not_mem (c : Char) (a : List Char) (i : Nat) (h : c ∉ a) :
    findFrom c a i = npos := by
  have := findFrom_append_of_not_mem c a [] i h
  simpa [findFrom] using this

theorem find_append_left (p s : List Char) (c : Char) :
    find (p ++ s) c p.length = findFrom c s p.length := by
  simp [find]

theorem find_of_length_le (s : List Char) (c : Char) (pos : Nat) (h : s.length ≤ pos) :
    find s c pos = npos := by
  simp [find, List.drop_eq_nil_of_le h, findFrom]

theorem findNotFrom_replicate (c : Char) (n : Nat) (r : List Char) (i : Nat) :
    findNotFrom c (List.replicate n c ++ r) i = findNotFrom c r (i + n) := by
  induction n generalizing i with
  | zero => simp
  | succ n ih =>
    have e : i + 1 + n = i + (n + 1) := by omega
    rw [List.replicate_succ, List.cons_append, findNotFrom, if_pos rfl, ih, e]

theorem findNotFrom_cons_ne (c d : Char) (r : List Char) (i : Nat) (h : d ≠ c) :
    findNotFrom c (d :: r) i = i := by
  simp [findNotFrom, h]

theorem find_first_not_of_append_left (p s : List Char) (c : Char) :
    find_first_not_of (p ++ s) c p.length = findNotFrom c s p.length := by
  simp [find_first_not_of]

theorem substr_append (p a r : List Char) :
    substr (p ++ (a ++ r)) p.length a.length = .ok a := by
  simp [substr]

theorem substr_to_end (p a : List Char) (n : Nat) (h : a.length ≤ n) :
    substr (p ++ a) p.length n = .ok a := by
  simp [substr, List.take_of_length_le h]

theorem find_split {l p s : List Char} (c : Char) {i : Nat} (h : l = p ++ s)
    (hp : p.length = i) : find l c i = findFrom c s i := by
  subst h hp
  exact find_append_left p s c

theorem find_first_not_of_split {line p s : List Char} (c : Char) {pos : Nat}
    (h : line = p ++ s) (hp : p.length = pos) :
    find_first_not_of line c pos = findNotFrom c s pos := by
  subst h hp
  exact find_first_not_of_append_left p s c

theorem substr_split {line p a r : List Char} {pos n : Nat} (h : line = p ++ (a ++ r))
    (hp : p.length = pos) (hn : n = a.length) : substr line pos n = .ok a := by
  subst h hp hn
  exact substr_append p a r

theorem substr_split_end {line p a : List Char} {pos n : Nat} (h : line = p ++ a)
    (hp : p.length = pos) (hn : a.length ≤ n) : substr line pos n = .ok a := by
  subst h hp
  exact substr_to_end p a n hn

theorem findFrom_token_then_blank (a r : List Char) (n i : Nat) (ha : ' ' ∉ a) (hn : 0 < n) :
    findFrom ' ' (a ++ (List.replicate n ' ' ++ r)) i = i + a.length := by
  rw [findFrom_append_of_not_mem _ _ _ _ ha]
  obtain ⟨m, rfl⟩ : ∃ m, n = m + 1 := ⟨n - 1, by omega⟩
  rw [List.replicate_succ, List.cons_append, findFrom_cons_self]

theorem findNotFrom_blanks_then_token (b r : List Char) (n i : Nat) (hb : ' ' ∉ b)
    (hne : b ≠ []) : findNotFrom ' ' (List.replicate n ' ' ++ (b ++ r)) i = i + n := by
  rw [findNotFrom_replicate]
  cases b with
  | nil => exact absurd rfl hne
  | cons d b =>
    have hd : d ≠ ' ' := fun e => hb (by simp [e])
    rw [List.cons_append, findNotFrom_cons_ne _ _ _ _ hd]

theorem splitAddrCmdCycle_fields (a b c : List Char) (n1 n2 : Nat)
    (ha : ' ' ∉ a) (hb : ' ' ∉ b) (hc : ' ' ∉ c) (hbne : b ≠ []) (hcne : c ≠ [])
    (hn1 : 0 < n1) (hn2 : 0 < n2)
    (hlen : (a ++ (List.replicate n1 ' ' ++ (b ++ (List.replicate n2 ' ' ++ c)))).length
      < npos) :
    splitAddrCmdCycle (a ++ (List.replicate n1 ' ' ++ (b ++ (List.replicate n2 ' ' ++ c))))
      = .ok (a, b, c) := by
  generalize hline : a ++ (List.replicate n1 ' ' ++ (b ++ (List.replicate n2 ' ' ++ c))) = line
    at hlen
  have hL : line.length = a.length + (n1 + (b.length + (n2 + c.length))) := by
    rw [← hline]; simp
  rw [npos_eq] at hlen
  -- the first blank ends the address
  have h1 : find line ' ' 0 = a.length := by
    have e : find line ' ' 0 = findFrom ' ' line 0 :=
      find_split (l := line) (p := []) (s := line) ' ' (i := 0) rfl rfl
    rw [e, ← hline, findFrom_token_then_blank a _ n1 0 ha hn1]
    omega
  have s1 : substr line 0 a.length = .ok a :=
    substr_split (p := []) (r := List.replicate n1 ' ' ++ (b ++ (List.replicate n2 ' ' ++ c)))
      (by simp [hline]) rfl rfl
  -- the command starts after the blanks
  have h2 : find_first_not_of line ' ' a.length = a.length + n1 := by
    rw [find_first_not_of_split (p := a) ' ' hline.symm rfl,
      findNotFrom_blanks_then_token b _ n1 _ hb hbne]
  have h3 : find line ' ' (a.length + n1) = a.length + n1 + b.length := by
    rw [find_split (p := a ++ List.replicate n1 ' ') (s := b ++ (List.replicate n2 ' ' ++ c))
        ' ' (by simp [← hline]) (by simp),
      findFrom_token_then_blank b _ n2 _ hb hn2]
  have s2 : substr line (a.length + n1) b.length = .ok b :=
    substr_split (p := a ++ List.replicate n1 ' ') (r := List.replicate n2 ' ' ++ c)
      (by simp [← hline]) (by simp) rfl
  -- the clock cycle runs to the end of the line
  have h4 : find_first_not_of line ' ' (a.length + n1 + b.length)
      = a.length + n1 + b.length + n2 := by
    rw [find_first_not_of_split (p := a ++ (List.replicate n1 ' ' ++ b))
        (s := List.replicate n2 ' ' ++ c) ' ' (by simp [← hline]) (by simp; omega)]
    have := findNotFrom_blanks_then_token c [] n2 (a.length + n1 + b.length) hc hcne
    simpa using this
  have h5 : find line ' ' (a.length + n1 + b.length + n2) = npos := by
    rw [find_split (p := a ++ (List.replicate n1 ' ' ++ (b ++ List.replicate n2 ' '))) (s := c)
        ' ' (by simp [← hline]) (by simp; omega)]
    exact findFrom_of_not_mem _ _ _ hc
  have s3 : substr line (a.length + n1 + b.length + n2)
      (sizeSub npos (a.length + n1 + b.length + n2)) = .ok c := by
    refine substr_split_end (p := a ++ (List.replicate n1 ' ' ++ (b ++ List.replicate n2 ' ')))
      (by simp [← hline]) (by simp; omega) ?_
    rw [sizeSub_of_le (by rw [npos_eq]; omega) (by rw [npos_eq, pow64_eq]; omega), npos_eq]
    omega
  have e2 : sizeSub (a.length + n1 + b.length) (a.length + n1) = b.length := by
    rw [sizeSub_of_le (by omega) (by rw [pow64_eq]; omega)]
    omega
  simp only [splitAddrCmdCycle, h1, s1, h2, h3, e2, s2, h4, h5, s3, bind, Except.bind, pure,
    Except.pure]


/-- C1: for a 64-bit address `a` and a throw-away width `k < 64`, `alignTransactionAddress`
sets the address to `a - a mod 2^k`, which has its low `k` bits zero and the bits above them
those of `a`; the other fields of the transaction are untouched. -/
theorem alignTransactionAddress_clears_low_bits (dramsim_log2 : Nat → Nat) (trans : Transaction)
    (ha : trans.address < 2 ^ 64) (hk : throwAwayBits dramsim_log2 trans.cfg < 64) :
    alignTransactionAddress dramsim_log2 trans =
        some { trans with
          address := trans.address - trans.address % 2 ^ throwAwayBits dramsim_log2 trans.cfg } ∧
      (trans.address - trans.address % 2 ^ throwAwayBits dramsim_log2 trans.cfg)
          % 2 ^ throwAwayBits dramsim_log2 trans.cfg = 0 ∧
      (trans.address - trans.address % 2 ^ throwAwayBits dramsim_log2 trans.cfg)
          / 2 ^ throwAwayBits dramsim_log2 trans.cfg
        = trans.address / 2 ^ throwAwayBits dramsim_log2 trans.cfg := by
  generalize hkk : throwAwayBits dramsim_log2 trans.cfg = k at hk
  have hpos : 0 < 2 ^ k := Nat.pow_pos (by decide)
  have hle : trans.address / 2 ^ k * 2 ^ k ≤ trans.address := Nat.div_mul_le_self _ _
  have hsplit : 2 ^ k * (trans.address / 2 ^ k) + trans.address % 2 ^ k = trans.address :=
    Nat.div_add_mod _ _
  have hcomm : trans.address / 2 ^ k * 2 ^ k = 2 ^ k * (trans.address / 2 ^ k) :=
    Nat.mul_comm _ _
  have hval : trans.address - trans.address % 2 ^ k = trans.address / 2 ^ k * 2 ^ k := by omega
  refine ⟨?_, ?_, ?_⟩
  · simp only [alignTransactionAddress, hkk, hk, if_true]
    rw [Nat.mod_eq_of_lt (lt_of_le_of_lt hle ha), hval]
  · rw [hval]
    exact Nat.mul_mod_left _ _
  · rw [hval]
    exact Nat.mul_div_cancel _ hpos

/-- C1 at a concrete input: burst length 8 on a 64-bit bus (64-byte transactions, six bits
thrown away) and the address `0x12345`. -/
theorem alignTransactionAddress_clears_low_bits_witness :
    alignTransactionAddress dramsim_log2 ⟨.DATA_READ, 0x12345, none, ⟨8, 64, 1, 100000, false⟩⟩
        = some ⟨.DATA_READ, 0x12340, none, ⟨8, 64, 1, 100000, false⟩⟩ :=
  (alignTransactionAddress_clears_low_bits dramsim_log2 ⟨.DATA_READ, 0x12345, none, ⟨8, 64, 1, 100000, false⟩⟩
    (by decide) (by decide)).1

theorem OptionsMap.get?_assign (m : OptionsMap) (k v key : List Char) :
    (m.assign k v).get? key = if k = key then some v else m.get? key := by
  induction m with
  | nil => simp [OptionsMap.assign, OptionsMap.get?]
  | cons e m ih =>
    obtain ⟨k', v'⟩ := e
    by_cases h : k' = k
    · subst h
      by_cases hk : k' = key <;> simp [OptionsMap.assign, OptionsMap.get?, hk]
    · by_cases h' : k' = key
      · subst h'
        have : ¬ k = k' := fun e => h e.symm
        simp [OptionsMap.assign, OptionsMap.get?, h, this]
      · simp [OptionsMap.assign, OptionsMap.get?, h, h', ih]

theorem OptionsMap.get?_isSome_iff (m : OptionsMap) (key : List Char) :
    (m.get? key).isSome ↔ key ∈ m.map Prod.fst := by
  induction m with
  | nil => simp [OptionsMap.get?]
  | cons e m ih =>
    obtain ⟨k', v'⟩ := e
    by_cases h : k' = key
    · simp [OptionsMap.get?, h]
    · have h2 : ¬ key = k' := fun e => h e.symm
      simp [OptionsMap.get?, h, h2, ih]

theorem OptionsMap.keys_assign (m : OptionsMap) (k v key : List Char) :
    key ∈ (m.assign k v).map Prod.fst ↔ key = k ∨ key ∈ m.map Prod.fst := by
  rw [← OptionsMap.get?_isSome_iff, OptionsMap.get?_assign, ← OptionsMap.get?_isSome_iff]
  by_cases h : k = key
  · simp [h]
  · have : ¬ key = k := fun e => h e.symm
    simp [h, this]

theorem OptionsMap.nodup_assign (m : OptionsMap) (k v : List Char)
    (h : (m.map Prod.fst).Nodup) : ((m.assign k v).map Prod.fst).Nodup := by
  induction m with
  | nil => simp [OptionsMap.assign]
  | cons e m ih =>
    obtain ⟨k', v'⟩ := e
    simp only [List.map_cons, List.nodup_cons] at h
    by_cases hk : k' = k
    · subst hk
      simpa [OptionsMap.assign] using h
    · simp only [OptionsMap.assign, hk, if_false, List.map_cons, List.nodup_cons]
      refine ⟨?_, ih h.2⟩
      rw [OptionsMap.keys_assign]
      rintro (e | e)
      · exact hk e
      · exact h.1 e

/-! ### `parseParamOverrides` -/

/-- The map after the assignments of a list of keys with their values, in order. -/
theorem OptionsMap.get?_foldl (pairs : List (List Char × List Char)) (m : OptionsMap)
    (key : List Char) :
    (pairs.foldl (fun m p => m.assign p.1 p.2) m).get? key
      = (lastValue pairs key).or (m.get? key) := by
  induction pairs generalizing m with
  | nil => simp [lastValue]
  | cons p ps ih =>
    rw [List.foldl_cons, ih, OptionsMap.get?_assign]
    simp only [lastValue, List.reverse_cons, List.find?_append]
    cases hfind : List.find? (fun p => decide (p.1 = key)) ps.reverse with
    | some x => simp
    | none =>
      by_cases h : p.1 = key
      · simp [h]
      · simp [h]

theorem OptionsMap.nodup_foldl (pairs : List (List Char × List Char)) (m : OptionsMap)
    (h : (m.map Prod.fst).Nodup) :
    ((pairs.foldl (fun m p => m.assign p.1 p.2) m).map Prod.fst).Nodup := by
  induction pairs generalizing m with
  | nil => simpa using h
  | cons p ps ih => exact ih _ (OptionsMap.nodup_assign m p.1 p.2 h)

theorem lastValue_isSome_iff (pairs : List (List Char × List Char)) (key : List Char) :
    (lastValue pairs key).isSome ↔ key ∈ pairs.map Prod.fst := by
  simp only [lastValue, Option.isSome_map', List.find?_isSome, List.mem_reverse,
    decide_eq_true_eq, List.mem_map]

theorem parseParamOverridesLoop_last (pre k v : List Char) (m : OptionsMap) (fuel : Nat)
    (hk : '=' ∉ k) (hv : ',' ∉ v) (hfuel : 2 ≤ fuel)
    (hlen : (pre ++ (k ++ '=' :: v)).length < npos) :
    parseParamOverridesLoop (pre ++ (k ++ '=' :: v)) fuel pre.length m
      = some (.ok (m.assign k v)) := by
  obtain ⟨f, rfl⟩ : ∃ f, fuel = f + 2 := ⟨fuel - 2, by omega⟩
  generalize hS : pre ++ (k ++ '=' :: v) = S at hlen
  have hL : S.length = pre.length + (k.length + (v.length + 1)) := by
    rw [← hS]; simp
  rw [npos_eq] at hlen
  have h1 : find S '=' pre.length = pre.length + k.length := by
    rw [find_split (p := pre) (s := k ++ '=' :: v) '=' hS.symm rfl,
      findFrom_append_of_not_mem _ _ _ _ hk, findFrom_cons_self]
  have h2 : find S ',' (pre.length + k.length) = npos := by
    rw [find_split (p := pre ++ k) (s := '=' :: v) ',' (by simp [← hS]) (by simp)]
    exact findFrom_of_not_mem _ _ _ (by simp [hv])
  have hne : pre.length + k.length ≠ npos := by rw [npos_eq]; omega
  have hmod : S.length % 2 ^ 64 = S.length := Nat.mod_eq_of_lt (by rw [pow64_eq]; omega)
  have e1 : sizeSub (pre.length + k.length) pre.length = k.length := by
    rw [sizeSub_of_le (by omega) (by rw [pow64_eq]; omega)]; omega
  have e2 : sizeAdd (pre.length + k.length) 1 = pre.length + k.length + 1 :=
    sizeAdd_of_lt (by rw [pow64_eq]; omega)
  have e3 : sizeSub (sizeSub S.length (pre.length + k.length)) 1 = v.length := by
    have inner : sizeSub S.length (pre.length + k.length) = v.length + 1 := by
      rw [sizeSub_of_le (by omega) (by rw [pow64_eq]; omega)]; omega
    rw [inner, sizeSub_of_le (by omega) (by rw [pow64_eq]; omega)]
    omega
  have e4 : sizeAdd S.length 1 = S.length + 1 := sizeAdd_of_lt (by rw [pow64_eq]; omega)
  have s1 : substr S pre.length k.length = .ok k :=
    substr_split (p := pre) (r := '=' :: v) hS.symm rfl rfl
  have s2 : substr S (pre.length + k.length + 1) v.length = .ok v :=
    substr_split_end (p := pre ++ (k ++ ['='])) (by simp [← hS]) (by simp; omega) (le_refl _)
  have h3 : find S '=' (S.length + 1) = npos := find_of_length_le _ _ _ (by omega)
  rw [parseParamOverridesLoop]
  simp only [h1, hne, if_false, h2, if_true, hmod, e1, s1, e2, e3, s2, e4]
  rw [parseParamOverridesLoop]
  simp only [h3, if_true]

theorem parseParamOverridesLoop_next (pre k v rest : List Char) (m : OptionsMap) (fuel : Nat)
    (hk : '=' ∉ k) (hv : ',' ∉ v)
    (hlen : (pre ++ (k ++ '=' :: (v ++ ',' :: rest))).length < npos) :
    parseParamOverridesLoop (pre ++ (k ++ '=' :: (v ++ ',' :: rest))) (fuel + 1) pre.length m
      = parseParamOverridesLoop (pre ++ (k ++ '=' :: (v ++ ',' :: rest))) fuel
          (pre ++ (k ++ '=' :: (v ++ [','])) ).length (m.assign k v) := by
  generalize hS : pre ++ (k ++ '=' :: (v ++ ',' :: rest)) = S at hlen
  have hL : S.length = pre.length + (k.length + (v.length + (rest.length + 1) + 1)) := by
    rw [← hS]; simp
  rw [npos_eq] at hlen
  have h1 : find S '=' pre.length = pre.length + k.length := by
    rw [find_split (p := pre) (s := k ++ '=' :: (v ++ ',' :: rest)) '=' hS.symm rfl,
      findFrom_append_of_not_mem _ _ _ _ hk, findFrom_cons_self]
  have h2 : find S ',' (pre.length + k.length) = pre.length + k.length + 1 + v.length := by
    rw [find_split (p := pre ++ k) (s := '=' :: (v ++ ',' :: rest)) ',' (by simp [← hS])
      (by simp)]
    have : findFrom ',' ('=' :: (v ++ ',' :: rest)) (pre.length + k.length)
        = findFrom ',' (v ++ ',' :: rest) (pre.length + k.length + 1) := by
      rw [findFrom, if_neg (by decide)]
    rw [this, findFrom_append_of_not_mem _ _ _ _ hv, findFrom_cons_self]
  have hne : pre.length + k.length ≠ npos := by rw [npos_eq]; omega
  have hne2 : pre.length + k.length + 1 + v.length ≠ npos := by rw [npos_eq]; omega
  have e1 : sizeSub (pre.length + k.length) pre.length = k.length := by
    rw [sizeSub_of_le (by omega) (by rw [pow64_eq]; omega)]; omega
  have e2 : sizeAdd (pre.length + k.length) 1 = pre.length + k.length + 1 :=
    sizeAdd_of_lt (by rw [pow64_eq]; omega)
  have e3 : sizeSub (sizeSub (pre.length + k.length + 1 + v.length) (pre.length + k.length)) 1
      = v.length := by
    have inner : sizeSub (pre.length + k.length + 1 + v.length) (pre.length + k.length)
        = v.length + 1 := by
      rw [sizeSub_of_le (by omega) (by rw [pow64_eq]; omega)]; omega
    rw [inner, sizeSub_of_le (by omega) (by rw [pow64_eq]; omega)]
    omega
  have e4 : sizeAdd (pre.length + k.length + 1 + v.length) 1
      = (pre ++ (k ++ '=' :: (v ++ [',']))).length := by
    rw [sizeAdd_of_lt (by rw [pow64_eq]; omega)]
    simp; omega
  have s1 : substr S pre.length k.length = .ok k :=
    substr_split (p := pre) (r := '=' :: (v ++ ',' :: rest)) hS.symm rfl rfl
  have s2 : substr S (pre.length + k.length + 1) v.length = .ok v :=
    substr_split (p := pre ++ (k ++ ['='])) (r := ',' :: rest) (by simp [← hS])
      (by simp; omega) rfl
  rw [parseParamOverridesLoop]
  simp only [h1, hne, if_false, h2, hne2, e1, s1, e2, e3, s2, e4]

theorem parseParamOverridesLoop_render (rest : List (List Char × List Char)) (hne : rest ≠ [])
    (hchars : ∀ p ∈ rest, '=' ∉ p.1 ∧ ',' ∉ p.1 ∧ '=' ∉ p.2 ∧ ',' ∉ p.2) :
    ∀ (pre : List Char) (m : OptionsMap) (fuel : Nat), rest.length + 1 ≤ fuel →
      (pre ++ renderOverrides rest).length < npos →
      parseParamOverridesLoop (pre ++ renderOverrides rest) fuel pre.length m
        = some (.ok (rest.foldl (fun m p => m.assign p.1 p.2) m)) := by
  induction rest with
  | nil => exact absurd rfl hne
  | cons p r ih =>
    intro pre m fuel hfuel hlen
    have hp := hchars p (by simp)
    cases r with
    | nil =>
      simp only [renderOverrides] at hlen ⊢
      simp only [List.length_singleton] at hfuel
      rw [parseParamOverridesLoop_last pre p.1 p.2 m fuel hp.1 hp.2.2.2 (by omega) hlen]
      rfl
    | cons q r =>
      obtain ⟨f, rfl⟩ : ∃ f, fuel = f + 1 := ⟨fuel - 1, by omega⟩
      have hS : pre ++ renderOverrides (p :: q :: r)
          = pre ++ (p.1 ++ '=' :: (p.2 ++ ',' :: renderOverrides (q :: r))) := by
        simp [renderOverrides]
      have hS2 : pre ++ renderOverrides (p :: q :: r)
          = (pre ++ (p.1 ++ '=' :: (p.2 ++ [',']))) ++ renderOverrides (q :: r) := by
        simp [renderOverrides]
      rw [hS] at hlen
      rw [hS, parseParamOverridesLoop_next pre p.1 p.2 _ m f hp.1 hp.2.2.2 hlen, ← hS, hS2]
      rw [← hS, hS2] at hlen
      rw [ih (by simp) (fun x hx => hchars x (by simp [hx])) _ _ f
        (by simp only [List.length_cons] at hfuel ⊢; omega) hlen]
      rfl
/-- C2: for `n ≥ 1` keys and values free of `=` and `,`, `parseParamOverrides` applied to
`k1=v1,...,kn=vn` returns a map whose keys are exactly `k1..kn`, each once, and which gives for
every key the value of its last occurrence in the string. -/
theorem parseParamOverrides_wellformed (pairs : List (List Char × List Char))
    (hne : pairs ≠ [])
    (hchars : ∀ p ∈ pairs, '=' ∉ p.1 ∧ ',' ∉ p.1 ∧ '=' ∉ p.2 ∧ ',' ∉ p.2)
    (hlen : (renderOverrides pairs).length < npos) :
    ∃ kv_map : OptionsMap,
      parseParamOverrides (renderOverrides pairs) = some (.ok kv_map) ∧
      (∀ key, key ∈ kv_map.map Prod.fst ↔ key ∈ pairs.map Prod.fst) ∧
      (kv_map.map Prod.fst).Nodup ∧
      (∀ key, kv_map.get? key = lastValue pairs key) := by
  have hcount : pairs.length + 1 ≤ (renderOverrides pairs).length + 1 := by
    have : ∀ l : List (List Char × List Char), l.length ≤ (renderOverrides l).length + 1 := by
      intro l
      induction l with
      | nil => simp
      | cons p r ih =>
        cases r with
        | nil => simp [renderOverrides]
        | cons q r =>
          simp only [renderOverrides, List.length_append, List.length_cons] at ih ⊢
          omega
    have h1 := this pairs
    cases pairs with
    | nil => exact absurd rfl hne
    | cons p r =>
      cases r with
      | nil => simp [renderOverrides]; omega
      | cons q r =>
        have h2 := this (q :: r)
        simp only [renderOverrides, List.length_append, List.length_cons] at h2 ⊢
        omega
  have hrun := parseParamOverridesLoop_render pairs hne hchars [] []
    ((renderOverrides pairs).length + 1) hcount (by simpa using hlen)
  refine ⟨pairs.foldl (fun m p => m.assign p.1 p.2) [], by simpa [parseParamOverrides] using hrun,
    ?_, OptionsMap.nodup_foldl pairs [] (by simp), ?_⟩
  · intro key
    rw [← OptionsMap.get?_isSome_iff, OptionsMap.get?_foldl, ← lastValue_isSome_iff]
    simp [OptionsMap.get?]
  · intro key
    rw [OptionsMap.get?_foldl]
    simp [OptionsMap.get?]

/-- C2 at the string `tRC=14,tFAW=19,tRC=15`, in which `tRC` is given twice. -/
theorem parseParamOverrides_wellformed_witness :
    ∃ kv_map : OptionsMap,
      parseParamOverrides "tRC=14,tFAW=19,tRC=15".toList = some (.ok kv_map) ∧
      (∀ key, key ∈ kv_map.map Prod.fst ↔ key ∈ ["tRC".toList, "tFAW".toList, "tRC".toList]) ∧
      (kv_map.map Prod.fst).Nodup ∧
      (∀ key, kv_map.get? key = lastValue
        [("tRC".toList, "14".toList), ("tFAW".toList, "19".toList), ("tRC".toList, "15".toList)]
        key) :=
  parseParamOverrides_wellformed
    [("tRC".toList, "14".toList), ("tFAW".toList, "19".toList), ("tRC".toList, "15".toList)]
    (by decide) (by decide) (by decide)

/-! ### Numerals -/

theorem hexDigits_facts : ∀ c ∈ hexDigits,
    isspace c = false ∧ c ≠ '-' ∧ c ≠ '+' ∧ c ≠ 'x' ∧ c ≠ 'X' ∧ c ≠ ' ' ∧
      digitIn 16 c = digitValue c ∧ (digitValue c).isSome = true ∧
      (digitValue c).getD 0 < 16 := by
  decide

theorem decDigits_facts : ∀ c ∈ decDigits,
    c ∈ hexDigits ∧ digitIn 10 c = digitValue c ∧ (digitValue c).getD 0 < 10 := by
  decide

/-- Reading a run of digits yields their count and the value of the numeral. -/
theorem readDigits_numeral (base : Nat) (s : List Char)
    (h : ∀ c ∈ s, digitIn base c = digitValue c ∧ (digitValue c).isSome = true)
    (count acc : Nat) :
    readDigits base s count acc
      = (count + s.length, acc * base ^ s.length + numeralValue base s) := by
  induction s generalizing count acc with
  | nil => simp [readDigits, numeralValue]
  | cons c s ih =>
    obtain ⟨h1, h2⟩ := h c (by simp)
    obtain ⟨d, hd⟩ := Option.isSome_iff_exists.mp h2
    rw [hd] at h1
    rw [readDigits, h1]
    simp only
    rw [ih (fun x hx => h x (by simp [hx]))]
    simp only [numeralValue, hd, Option.getD_some, List.length_cons, Prod.mk.injEq]
    constructor
    · omega
    · ring

theorem numeralValue_lt (base : Nat) (s : List Char)
    (h : ∀ c ∈ s, (digitValue c).getD 0 < base) : numeralValue base s < base ^ s.length := by
  induction s with
  | nil => simp [numeralValue]
  | cons c s ih =>
    have h1 := h c (by simp)
    have h2 := ih (fun x hx => h x (by simp [hx]))
    simp only [numeralValue, List.length_cons, pow_succ]
    have : (digitValue c).getD 0 * base ^ s.length ≤ (base - 1) * base ^ s.length :=
      Nat.mul_le_mul_right _ (by omega)
    have e : (base - 1) * base ^ s.length + base ^ s.length = base ^ s.length * base := by
      have hb : base - 1 + 1 = base := by omega
      calc (base - 1) * base ^ s.length + base ^ s.length
          = (base - 1 + 1) * base ^ s.length := by ring
        _ = base ^ s.length * base := by rw [hb]; ring
    omega

/-- Extraction from a non-empty hexadecimal numeral stores its value, or the largest 64-bit
value when the numeral does not fit. -/
theorem extractU64_hex (s : List Char) (old : Nat) (hne : s ≠ [])
    (h : ∀ c ∈ s, c ∈ hexDigits) :
    extractU64 16 s old = min (numeralValue 16 s) (2 ^ 64 - 1) := by
  cases s with
  | nil => exact absurd rfl hne
  | cons c rest =>
    have hc := hexDigits_facts c (h c (by simp))
    have hsp : (c :: rest).dropWhile isspace = c :: rest := by
      simp [List.dropWhile, hc.1]
    have hsign : readSign (c :: rest) = (false, c :: rest) := by
      simp [readSign, hc.2.1, hc.2.2.1]
    have hpre : readHexPrefix 16 (c :: rest) = c :: rest := by
      cases rest with
      | nil => rfl
      | cons d rest =>
        have hd := hexDigits_facts d (h d (by simp))
        simp [readHexPrefix, hd.2.2.2.1, hd.2.2.2.2.1]
    have hread := readDigits_numeral 16 (c :: rest)
      (fun x hx => ⟨(hexDigits_facts x (h x hx)).2.2.2.2.2.2.1,
        (hexDigits_facts x (h x hx)).2.2.2.2.2.2.2.1⟩) 0 0
    simp only [extractU64, hsp, hsign, hpre, hread]
    simp only [List.length_cons, zero_add, Nat.zero_mul]
    rw [if_neg (by omega)]
    split
    · rename_i hgt
      rw [Nat.min_eq_right (by omega)]
    · rename_i hle
      simp only [Bool.false_eq_true, if_false]
      rw [Nat.min_eq_left (by omega)]

/-- Extraction from a non-empty decimal numeral stores its value, or the largest 64-bit value
when the numeral does not fit. -/
theorem extractU64_dec (s : List Char) (old : Nat) (hne : s ≠ [])
    (h : ∀ c ∈ s, c ∈ decDigits) :
    extractU64 10 s old = min (numeralValue 10 s) (2 ^ 64 - 1) := by
  cases s with
  | nil => exact absurd rfl hne
  | cons c rest =>
    have hc := hexDigits_facts c (decDigits_facts c (h c (by simp))).1
    have hsp : (c :: rest).dropWhile isspace = c :: rest := by
      simp [List.dropWhile, hc.1]
    have hsign : readSign (c :: rest) = (false, c :: rest) := by
      simp [readSign, hc.2.1, hc.2.2.1]
    have hpre : readHexPrefix 10 (c :: rest) = c :: rest := by
      cases rest with
      | nil => rfl
      | cons d rest => simp [readHexPrefix]
    have hread := readDigits_numeral 10 (c :: rest)
      (fun x hx => ⟨(decDigits_facts x (h x hx)).2.1,
        (hexDigits_facts x (decDigits_facts x (h x hx)).1).2.2.2.2.2.2.2.1⟩) 0 0
    simp only [extractU64, hsp, hsign, hpre, hread]
    simp only [List.length_cons, zero_add, Nat.zero_mul]
    rw [if_neg (by omega)]
    split
    · rename_i hgt
      rw [Nat.min_eq_right (by omega)]
    · rename_i hle
      simp only [Bool.false_eq_true, if_false]
      rw [Nat.min_eq_left (by omega)]

/-! ### The `k6` and `mase` cases -/

theorem k6Commands_facts : ∀ cmd ∈ k6Commands,
    ' ' ∉ cmd ∧ cmd ≠ [] ∧ k6TransType cmd = .ok (k6CommandType cmd) := by
  intro cmd h
  simp only [k6Commands, List.mem_cons, List.mem_singleton, List.not_mem_nil, or_false] at h
  rcases h with rfl | rfl | rfl | rfl | rfl | rfl <;> exact ⟨by decide, by decide, rfl⟩

theorem not_blank_of_hexDigits (s : List Char) (h : ∀ c ∈ s, c ∈ hexDigits) : ' ' ∉ s :=
  fun hmem => (hexDigits_facts ' ' (h ' ' hmem)).2.2.2.2.2.1 rfl

/-- C3, amended: on a `k6` line `0x<H> <cmd> <cycle>` (fields separated by one or more blanks,
`H` a hexadecimal and `cycle` a decimal numeral, both below `2^64`, `cmd` one of the six
commands) `parseTraceFileLine` sets the address to the value of `H`, the type to WRITE for
`P_MEM_WR` and `BOFF` and to READ for the other four, and the clock cycle to `cycle` when
`useClockCycle` is set (it keeps its value otherwise); no buffer is returned. -/
theorem parseTraceFileLine_k6 (noStorage useClockCycle : Bool) (H cmd cyc : List Char)
    (n1 n2 addr clockCycle : Nat) (transType : TransactionType)
    (hH : H ≠ []) (hHd : ∀ c ∈ H, c ∈ hexDigits)
    (hcyc : cyc ≠ []) (hcd : ∀ c ∈ cyc, c ∈ decDigits)
    (hcmd : cmd ∈ k6Commands) (hn1 : 0 < n1) (hn2 : 0 < n2)
    (hlen : ("0x".toList ++ H ++ List.replicate n1 ' ' ++ cmd ++ List.replicate n2 ' '
      ++ cyc).length < npos)
    (hHv : numeralValue 16 H < 2 ^ 64) (hcv : numeralValue 10 cyc < 2 ^ 64) :
    parseTraceFileLine noStorage
        ("0x".toList ++ H ++ List.replicate n1 ' ' ++ cmd ++ List.replicate n2 ' ' ++ cyc)
        addr transType clockCycle .k6 useClockCycle
      = .ok ⟨numeralValue 16 H, k6CommandType cmd,
          if useClockCycle then numeralValue 10 cyc else clockCycle, none, []⟩ := by
  obtain ⟨hcb, hcne, hct⟩ := k6Commands_facts cmd hcmd
  have hline : "0x".toList ++ H ++ List.replicate n1 ' ' ++ cmd ++ List.replicate n2 ' ' ++ cyc
      = ("0x".toList ++ H) ++ (List.replicate n1 ' ' ++ (cmd ++ (List.replicate n2 ' ' ++ cyc)))
      := by simp
  rw [hline] at hlen ⊢
  have hab : ' ' ∉ "0x".toList ++ H := by
    have := not_blank_of_hexDigits H hHd
    simp only [List.mem_append, not_or]
    exact ⟨by decide, this⟩
  have hcycb : ' ' ∉ cyc :=
    not_blank_of_hexDigits cyc (fun c hc => (decDigits_facts c (hcd c hc)).1)
  have hsplit := splitAddrCmdCycle_fields ("0x".toList ++ H) cmd cyc n1 n2 hab hcb hcycb hcne
    hcyc hn1 hn2 hlen
  have hsub : substrFrom ("0x".toList ++ H) 2 = .ok H :=
    substr_to_end (p := "0x".toList) H npos (by
      have := hlen
      simp only [List.length_append] at this
      omega)
  have hx : extractU64 16 H addr = numeralValue 16 H := by
    rw [extractU64_hex H addr hH hHd, Nat.min_eq_left (by omega)]
  have hc : extractU64 10 cyc clockCycle = numeralValue 10 cyc := by
    rw [extractU64_dec cyc clockCycle hcyc hcd, Nat.min_eq_left (by omega)]
  simp only [parseTraceFileLine, hsplit, hct, finishAddrCycle, hsub, hx, hc, bind, Except.bind,
    pure, Except.pure]

/-- C3 (amended) at the line `0x1F  P_LOCK_WR 42`. -/
theorem parseTraceFileLine_k6_witness :
    parseTraceFileLine false "0x1F  P_LOCK_WR 42".toList 0 .DATA_WRITE 7 .k6 true
      = .ok ⟨31, .DATA_READ, 42, none, []⟩ :=
  parseTraceFileLine_k6 false true "1F".toList "P_LOCK_WR".toList "42".toList 2 1 0 7 .DATA_WRITE
    (by decide) (by decide) (by decide) (by decide) (by decide) (by decide) (by decide)
    (by decide) (by decide) (by decide)

/-- C3 as stated fails when the numeral does not fit the 64-bit address: on the line
`0x10000000000000000 P_FETCH 0` the hexadecimal number is `2^64`, and the address becomes
`2^64 - 1`. -/
theorem parseTraceFileLine_k6_overflow :
    parseTraceFileLine false "0x10000000000000000 P_FETCH 0".toList 0 .DATA_READ 0 .k6 true
        = .ok ⟨18446744073709551615, .DATA_READ, 0, none, []⟩ ∧
      numeralValue 16 "10000000000000000".toList = 18446744073709551616 := by
  constructor
  · rfl
  · rfl

/-! ### The `misc` case -/

theorem splitMisc_two (a0 : Char) (a b : List Char) (ha : ' ' ∉ a) (hb : ' ' ∉ b)
    (hlen : (a0 :: a ++ ' ' :: b).length < npos) :
    splitMisc (a0 :: a ++ ' ' :: b) = .ok (a0 :: a, b, [], []) := by
  generalize hline : a0 :: a ++ ' ' :: b = line at hlen
  have hL : line.length = a.length + b.length + 2 := by
    rw [← hline]; simp; omega
  rw [npos_eq] at hlen
  have e0 : sizeAdd 0 1 = 1 := rfl
  have h1 : find line ' ' 1 = a.length + 1 := by
    have e := find_split (l := line) (p := [a0]) (s := a ++ ' ' :: b) ' ' (i := 1)
      (by simp [← hline]) rfl
    rw [e, findFrom_append_of_not_mem _ _ _ _ ha, findFrom_cons_self]
    omega
  have hne : a.length + 1 ≠ npos := by rw [npos_eq]; omega
  have s1 : substr line 0 (a.length + 1) = .ok (a0 :: a) :=
    substr_split (p := []) (a := a0 :: a) (r := ' ' :: b) (by simp [← hline]) rfl (by simp)
  have e1 : sizeAdd (a.length + 1) 1 = a.length + 2 :=
    sizeAdd_of_lt (by rw [pow64_eq]; omega)
  have h2 : find line ' ' (a.length + 2) = npos := by
    rw [find_split (p := a0 :: a ++ [' ']) (s := b) ' ' (by simp [← hline]) (by simp)]
    exact findFrom_of_not_mem _ _ _ hb
  have s2 : substrFrom line (a.length + 2) = .ok b :=
    substr_split_end (p := a0 :: a ++ [' ']) (by simp [← hline]) (by simp)
      (by rw [npos_eq]; omega)
  simp only [splitMisc, e0, h1, hne, if_false, s1, e1, h2, if_true, s2, bind, Except.bind, pure,
    Except.pure]

theorem splitMisc_three (a0 : Char) (a b d : List Char) (ha : ' ' ∉ a) (hb : ' ' ∉ b)
    (hlen : (a0 :: a ++ ' ' :: (b ++ ' ' :: d)).length < npos) :
    splitMisc (a0 :: a ++ ' ' :: (b ++ ' ' :: d)) = .ok (a0 :: a, b, d, []) := by
  generalize hline : a0 :: a ++ ' ' :: (b ++ ' ' :: d) = line at hlen
  have hL : line.length = a.length + b.length + d.length + 3 := by
    rw [← hline]; simp; omega
  rw [npos_eq] at hlen
  have e0 : sizeAdd 0 1 = 1 := rfl
  have h1 : find line ' ' 1 = a.length + 1 := by
    have e := find_split (l := line) (p := [a0]) (s := a ++ ' ' :: (b ++ ' ' :: d)) ' '
      (i := 1) (by simp [← hline]) rfl
    rw [e, findFrom_append_of_not_mem _ _ _ _ ha, findFrom_cons_self]
    omega
  have hne : a.length + 1 ≠ npos := by rw [npos_eq]; omega
  have s1 : substr line 0 (a.length + 1) = .ok (a0 :: a) :=
    substr_split (p := []) (a := a0 :: a) (r := ' ' :: (b ++ ' ' :: d)) (by simp [← hline])
      rfl (by simp)
  have e1 : sizeAdd (a.length + 1) 1 = a.length + 2 :=
    sizeAdd_of_lt (by rw [pow64_eq]; omega)
  have h2 : find line ' ' (a.length + 2) = a.length + 2 + b.length := by
    rw [find_split (p := a0 :: a ++ [' ']) (s := b ++ ' ' :: d) ' ' (by simp [← hline])
      (by simp), findFrom_append_of_not_mem _ _ _ _ hb, findFrom_cons_self]
  have hne2 : a.length + 2 + b.length ≠ npos := by rw [npos_eq]; omega
  have e2 : sizeSub (sizeSub (a.length + 2 + b.length) (a.length + 1)) 1 = b.length := by
    have inner : sizeSub (a.length + 2 + b.length) (a.length + 1) = b.length + 1 := by
      rw [sizeSub_of_le (by omega) (by rw [pow64_eq]; omega)]; omega
    rw [inner, sizeSub_of_le (by omega) (by rw [pow64_eq]; omega)]
    omega
  have s2 : substr line (a.length + 2) b.length = .ok b :=
    substr_split (p := a0 :: a ++ [' ']) (r := ' ' :: d) (by simp [← hline]) (by simp) rfl
  have e3 : sizeAdd (a.length + 2 + b.length) 1 = a.length + 2 + b.length + 1 :=
    sizeAdd_of_lt (by rw [pow64_eq]; omega)
  have s3 : substrFrom line (a.length + 2 + b.length + 1) = .ok d :=
    substr_split_end (p := a0 :: a ++ ' ' :: (b ++ [' '])) (by simp [← hline])
      (by simp; omega) (by rw [npos_eq]; omega)
  simp only [splitMisc, e0, h1, hne, if_false, s1, e1, h2, hne2, e2, s2, e3, s3, bind,
    Except.bind, pure, Except.pure]

/-- Extraction from at most sixteen hexadecimal digits, into a word that holds 0, stores the
value of the digits. -/
theorem extractU64_hex_word (s : List Char) (h : ∀ c ∈ s, c ∈ hexDigits)
    (hlen : s.length ≤ 16) : extractU64 16 s 0 = numeralValue 16 s := by
  cases s with
  | nil => rfl
  | cons c rest =>
    rw [extractU64_hex _ _ (by simp) h]
    have hlt := numeralValue_lt 16 (c :: rest)
      (fun x hx => (hexDigits_facts x (h x hx)).2.2.2.2.2.2.2.2)
    have hpow : 16 ^ (c :: rest).length ≤ 16 ^ 16 := Nat.pow_le_pow_right (by decide) hlen
    have e : (16 : Nat) ^ 16 = 2 ^ 64 := by norm_num
    rw [Nat.min_eq_left (by omega)]

theorem parseDataLoop_piece (d : List Char) (i : Nat) (hi : i * 16 ≤ d.length)
    (hlen : d.length < npos) :
    substr d (i * 16) (min 16 (sizeAdd (sizeSub d.length (i * 16)) 1))
      = .ok ((d.drop (16 * i)).take 16) := by
  rw [npos_eq] at hlen
  have e1 : sizeSub d.length (i * 16) = d.length - i * 16 :=
    sizeSub_of_le hi (by rw [pow64_eq]; omega)
  have e2 : sizeAdd (d.length - i * 16) 1 = d.length - i * 16 + 1 :=
    sizeAdd_of_lt (by rw [pow64_eq]; omega)
  have e3 : 16 * i = i * 16 := Nat.mul_comm _ _
  rw [e1, e2, e3, substr, if_neg (by omega)]
  congr 1
  by_cases h : 16 ≤ d.length - i * 16 + 1
  · rw [Nat.min_eq_left h]
  · rw [Nat.min_eq_right (by omega), List.take_of_length_le (by simp),
      List.take_of_length_le (by simp; omega)]

theorem dataWord_of_length_lt (d : List Char) (j : Nat) (h : d.length < j * 16) :
    dataWord d j = 0 := by
  have : d.drop (16 * j) = [] := List.drop_eq_nil_of_le (by omega)
  simp [dataWord, this, numeralValue]

theorem parseDataLoop_words (d : List Char) (hd : ∀ c ∈ d, c ∈ hexDigits)
    (hlen : d.length < npos) :
    ∀ (n i : Nat) (buf : List Nat), (∀ j, i ≤ j → buf.getD j 0 = 0) →
      ∃ out, parseDataLoop d n i buf = .ok out ∧ out.length = buf.length ∧
        ∀ j, out.getD j 0
          = if i ≤ j ∧ j < i + n ∧ j < buf.length then dataWord d j else buf.getD j 0 := by
  intro n
  induction n with
  | zero =>
    intro i buf _
    exact ⟨buf, rfl, rfl, fun j => by rw [if_neg (by omega)]⟩
  | succ n ih =>
    intro i buf hz
    by_cases hbreak : i * 16 > d.length
    · refine ⟨buf, by simp [parseDataLoop, hbreak], rfl, fun j => ?_⟩
      split
      · rename_i hj
        rw [hz j hj.1, dataWord_of_length_lt]
        have : i * 16 ≤ j * 16 := Nat.mul_le_mul_right _ hj.1
        omega
      · rfl
    · have hi : i * 16 ≤ d.length := by omega
      have hpiece := parseDataLoop_piece d i hi hlen
      have hword : extractU64 16 ((d.drop (16 * i)).take 16) (buf.getD i 0) = dataWord d i := by
        rw [hz i (le_refl _)]
        exact extractU64_hex_word _
          (fun c hc => hd c (List.mem_of_mem_drop (List.mem_of_mem_take hc)))
          (by simp)
      obtain ⟨out, hrun, hlenout, hout⟩ := ih (i + 1) (buf.set i (dataWord d i)) (by
        intro j hj
        rw [List.getD_eq_getElem?_getD, List.getElem?_set_ne (by omega),
          ← List.getD_eq_getElem?_getD]
        exact hz j (by omega))
      refine ⟨out, ?_, by simpa using hlenout, fun j => ?_⟩
      · rw [parseDataLoop]
        simp only [hbreak, if_false, hpiece, hword, bind, Except.bind]
        exact hrun
      · rw [hout j]
        simp only [List.length_set]
        by_cases hji : j = i
        · subst hji
          by_cases hjl : j < buf.length
          · simp [hjl, List.getD_eq_getElem?_getD]
          · have : buf.getD j 0 = 0 := hz j (le_refl _)
            simp [hjl, List.getD_eq_getElem?_getD, List.getElem?_set]
            rw [List.getD_eq_getElem?_getD] at this
            simpa using this.symm
        · rw [List.getD_eq_getElem?_getD, List.getElem?_set_ne (fun e => hji e.symm),
            ← List.getD_eq_getElem?_getD]
          by_cases h1 : i + 1 ≤ j ∧ j < i + 1 + n ∧ j < buf.length
          · rw [if_pos h1, if_pos ⟨by omega, by omega, h1.2.2⟩]
          · rw [if_neg h1, if_neg (by omega)]

theorem parseDataLoop_four (d : List Char) (hd : ∀ c ∈ d, c ∈ hexDigits)
    (hlen : d.length < npos) :
    parseDataLoop d 4 0 [0, 0, 0, 0]
      = .ok [dataWord d 0, dataWord d 1, dataWord d 2, dataWord d 3] := by
  obtain ⟨out, hrun, hl, hout⟩ := parseDataLoop_words d hd hlen 4 0 [0, 0, 0, 0]
    (fun j _ => by
      rcases j with _ | _ | _ | _ | j <;> simp [List.getD])
  rw [hrun]
  match out, hl with
  | [a, b, c, e], _ =>
    have h0 := hout 0
    have h1 := hout 1
    have h2 := hout 2
    have h3 := hout 3
    simp at h0 h1 h2 h3
    rw [h0, h1, h2, h3]

theorem substrFrom_0x (H : List Char) (hlen : H.length < npos) :
    substrFrom ("0x".toList ++ H) 2 = .ok H :=
  substr_to_end (p := "0x".toList) H npos (by omega)

/-- C4, amended: the `misc` case reads no clock cycle. On a line `0x<H> <cmd>` (one blank,
`H` a hexadecimal numeral below `2^64`, `cmd` one of `read` and `write`) `parseTraceFileLine`
yields the value of `H` as address and READ for `read`, WRITE for `write`; the clock cycle
keeps the value it came in with, and no buffer is returned. -/
theorem parseTraceFileLine_misc (noStorage useClockCycle : Bool) (H cmd : List Char)
    (addr clockCycle : Nat) (transType : TransactionType)
    (hH : H ≠ []) (hHd : ∀ c ∈ H, c ∈ hexDigits)
    (hcmd : cmd = "read".toList ∨ cmd = "write".toList)
    (hlen : ("0x".toList ++ H ++ ' ' :: cmd).length < npos)
    (hHv : numeralValue 16 H < 2 ^ 64) :
    parseTraceFileLine noStorage ("0x".toList ++ H ++ ' ' :: cmd) addr transType clockCycle
        .misc useClockCycle
      = .ok ⟨numeralValue 16 H, miscCommandType cmd, clockCycle, none, []⟩ := by
  have hHb : ' ' ∉ 'x' :: H := by
    have := not_blank_of_hexDigits H hHd
    simp only [List.mem_cons, not_or]
    exact ⟨by decide, this⟩
  have hcb : ' ' ∉ cmd := by rcases hcmd with rfl | rfl <;> decide
  have hline : "0x".toList ++ H ++ ' ' :: cmd = '0' :: ('x' :: H) ++ ' ' :: cmd := by
    show ['0', 'x'] ++ H ++ ' ' :: cmd = _
    simp
  rw [hline] at hlen ⊢
  have hsplit := splitMisc_two '0' ('x' :: H) cmd hHb hcb hlen
  have hsub : substrFrom ('0' :: 'x' :: H) 2 = .ok H :=
    substrFrom_0x H (by simp only [List.length_append, List.length_cons] at hlen; omega)
  have hx : extractU64 16 H addr = numeralValue 16 H := by
    rw [extractU64_hex H addr hH hHd, Nat.min_eq_left (by omega)]
  have ht : miscTransType cmd = .ok (miscCommandType cmd) := by
    rcases hcmd with rfl | rfl <;> rfl
  simp only [parseTraceFileLine, parseMisc, hsplit, hsub, hx, ht, bind, Except.bind, pure,
    Except.pure, List.length_nil, gt_iff_lt, Nat.lt_irrefl, decide_False, Bool.and_false,
    Bool.false_and, Bool.false_eq_true, if_false]

/-- C4 (amended) at the line `0x1000 read`. -/
theorem parseTraceFileLine_misc_witness :
    parseTraceFileLine false "0x1000 read".toList 0 .DATA_WRITE 7 .misc true
      = .ok ⟨4096, .DATA_READ, 7, none, []⟩ :=
  parseTraceFileLine_misc false true "1000".toList "read".toList 0 7 .DATA_WRITE
    (by decide) (by decide) (by decide) (by decide) (by decide)

/-- C4 as stated fails: on the line `10 0x1000 read` the first field is taken as the address
and the second, `0x1000`, as the command, which is invalid, and the run ends with
`exit(-1)`. -/
theorem parseTraceFileLine_misc_cycle_first :
    parseTraceFileLine false "10 0x1000 read".toList 0 .DATA_READ 0 .misc true
      = .error (.exit (-1)) := by
  rfl

/-- C5 at the `mase` line `0x10 FOO 5`, whose command is none of `IFETCH`, `READ`, `WRITE`:
the parser reports the command and returns, with the address and clock cycle of the line and
the transaction type the caller's variable held before (here `DATA_WRITE`); on the same line
the `k6` and `misc` cases end the run. -/
theorem parseTraceFileLine_mase_unknown_command_returns :
    parseTraceFileLine false "0x10 FOO 5".toList 0 .DATA_WRITE 0 .mase true
        = .ok ⟨16, .DATA_WRITE, 5, none, [.unknownCommand "FOO".toList]⟩ ∧
      parseTraceFileLine false "0x10 FOO 5".toList 0 .DATA_WRITE 0 .k6 true
        = .error (.exit 0) ∧
      parseTraceFileLine false "0x10 FOO 5".toList 0 .DATA_WRITE 0 .misc true
        = .error (.exit (-1)) := by
  refine ⟨?_, ?_, ?_⟩ <;> rfl

/-- C7, amended: on a `misc` line `0x<H> write <d>` with a non-empty data field `d` of
hexadecimal digits, `parseTraceFileLine` (storage enabled) returns four words, word `i` being
the value of the digits `d[16 i .. min (16 i + 16) L)` and 0 for an empty slice; on a line
`0x<H> read` and on a line `0x<H> read <d>`, whatever `d` is, it returns no buffer. -/
theorem parseTraceFileLine_misc_data (useClockCycle : Bool) (H : List Char)
    (addr clockCycle : Nat) (transType : TransactionType) (hHb : ' ' ∉ H) :
    (∀ d : List Char, d ≠ [] → (∀ c ∈ d, c ∈ hexDigits) →
      ("0x".toList ++ H ++ " write ".toList ++ d).length < npos →
      parseTraceFileLine false ("0x".toList ++ H ++ " write ".toList ++ d) addr transType
          clockCycle .misc useClockCycle
        = .ok ⟨extractU64 16 H addr, .DATA_WRITE, clockCycle,
            some [dataWord d 0, dataWord d 1, dataWord d 2, dataWord d 3], []⟩) ∧
    (("0x".toList ++ H ++ " read".toList).length < npos →
      parseTraceFileLine false ("0x".toList ++ H ++ " read".toList) addr transType
          clockCycle .misc useClockCycle
        = .ok ⟨extractU64 16 H addr, .DATA_READ, clockCycle, none, []⟩) ∧
    (∀ d : List Char, ("0x".toList ++ H ++ " read ".toList ++ d).length < npos →
      parseTraceFileLine false ("0x".toList ++ H ++ " read ".toList ++ d) addr transType
          clockCycle .misc useClockCycle
        = .ok ⟨extractU64 16 H addr, .DATA_READ, clockCycle, none, []⟩) := by
  have hxb : ' ' ∉ 'x' :: H := by
    simp only [List.mem_cons, not_or]
    exact ⟨by decide, hHb⟩
  refine ⟨?_, ?_, ?_⟩
  · intro d hdne hd hlen
    have hline : "0x".toList ++ H ++ " write ".toList ++ d
        = '0' :: ('x' :: H) ++ ' ' :: ("write".toList ++ ' ' :: d) := by
      show ['0', 'x'] ++ H ++ [' ', 'w', 'r', 'i', 't', 'e', ' '] ++ d = _
      simp
    rw [hline] at hlen ⊢
    have hsplit := splitMisc_three '0' ('x' :: H) "write".toList d hxb (by decide) hlen
    simp only [List.length_append, List.length_cons] at hlen
    have hsub : substrFrom ('0' :: 'x' :: H) 2 = .ok H := substrFrom_0x H (by omega)
    have hloop := parseDataLoop_four d hd (by omega)
    have hpos : decide (d.length > 0) = true := by
      cases d with
      | nil => exact absurd rfl hdne
      | cons c d => simp
    have ht : miscTransType "write".toList = .ok .DATA_WRITE := rfl
    simp only [parseTraceFileLine, parseMisc, hsplit, hsub, ht, hloop, hpos, bind, Except.bind,
      pure, Except.pure, Bool.not_false, Bool.true_and, decide_True, if_true]
  · intro hlen
    have hline : "0x".toList ++ H ++ " read".toList = '0' :: ('x' :: H) ++ ' ' :: "read".toList := by
      show ['0', 'x'] ++ H ++ [' ', 'r', 'e', 'a', 'd'] = _
      simp
    rw [hline] at hlen ⊢
    have hsplit := splitMisc_two '0' ('x' :: H) "read".toList hxb (by decide) hlen
    simp only [List.length_append, List.length_cons] at hlen
    have hsub : substrFrom ('0' :: 'x' :: H) 2 = .ok H := substrFrom_0x H (by omega)
    have ht : miscTransType "read".toList = .ok .DATA_READ := rfl
    simp only [parseTraceFileLine, parseMisc, hsplit, hsub, ht, bind, Except.bind, pure,
      Except.pure, List.length_nil, gt_iff_lt, Nat.lt_irrefl, decide_False, Bool.and_false,
      Bool.false_and, Bool.false_eq_true, if_false]
  · intro d hlen
    have hline : "0x".toList ++ H ++ " read ".toList ++ d
        = '0' :: ('x' :: H) ++ ' ' :: ("read".toList ++ ' ' :: d) := by
      show ['0', 'x'] ++ H ++ [' ', 'r', 'e', 'a', 'd', ' '] ++ d = _
      simp
    rw [hline] at hlen ⊢
    have hsplit := splitMisc_three '0' ('x' :: H) "read".toList d hxb (by decide) hlen
    simp only [List.length_append, List.length_cons] at hlen
    have hsub : substrFrom ('0' :: 'x' :: H) 2 = .ok H := substrFrom_0x H (by omega)
    have ht : miscTransType "read".toList = .ok .DATA_READ := rfl
    have hne : decide (TransactionType.DATA_READ = TransactionType.DATA_WRITE) = false := by
      decide
    simp only [parseTraceFileLine, parseMisc, hsplit, hsub, ht, hne, bind, Except.bind, pure,
      Except.pure, Bool.and_false, Bool.false_eq_true, if_false]

/-- C7 (amended) at a write with 17 data digits, a read without data and a read with data. -/
theorem parseTraceFileLine_misc_data_witness :
    parseTraceFileLine false "0x40 write 00000000000000ffA".toList 0 .DATA_READ 3 .misc true
        = .ok ⟨64, .DATA_WRITE, 3, some [255, 10, 0, 0], []⟩ ∧
      parseTraceFileLine false "0x40 read".toList 0 .DATA_WRITE 3 .misc true
        = .ok ⟨64, .DATA_READ, 3, none, []⟩ ∧
      parseTraceFileLine false "0x40 read 0123".toList 0 .DATA_WRITE 3 .misc true
        = .ok ⟨64, .DATA_READ, 3, none, []⟩ :=
  ⟨(parseTraceFileLine_misc_data true "40".toList 0 3 .DATA_READ (by decide)).1
      "00000000000000ffA".toList (by decide) (by decide) (by decide),
    (parseTraceFileLine_misc_data true "40".toList 0 3 .DATA_WRITE (by decide)).2.1 (by decide),
    (parseTraceFileLine_misc_data true "40".toList 0 3 .DATA_WRITE (by decide)).2.2
      "0123".toList (by decide)⟩

/-- C7 as stated fails for an empty data field: on the line `0x10 write ` (a blank after the
command and nothing behind it) the data string has length 0 and no buffer is returned, where
the claim has four words that are 0. -/
theorem parseTraceFileLine_misc_empty_data :
    parseTraceFileLine false "0x10 write ".toList 0 .DATA_READ 0 .misc true
      = .ok ⟨16, .DATA_WRITE, 0, none, []⟩ := by
  rfl

/-! ### `old_TBS`: the trace type -/

theorem findLastFrom_append (c : Char) (a b : List Char) (i acc : Nat) :
    findLastFrom c (a ++ b) i acc = findLastFrom c b (i + a.length) (findLastFrom c a i acc) := by
  induction a generalizing i acc with
  | nil => simp [findLastFrom]
  | cons d a ih =>
    have e : i + 1 + a.length = i + (a.length + 1) := by omega
    rw [List.cons_append, findLastFrom, ih, findLastFrom, List.length_cons, e]

theorem findLastFrom_of_not_mem (c : Char) (a : List Char) (i acc : Nat) (h : c ∉ a) :
    findLastFrom c a i acc = acc := by
  induction a generalizing i with
  | nil => rfl
  | cons d a ih =>
    have hd : d ≠ c := fun e => h (by simp [e])
    rw [findLastFrom, if_neg hd, ih _ (fun e => h (by simp [e]))]

/-- A string splits at the last occurrence of a character, if there is one. -/
theorem split_at_last (c : Char) (s : List Char) :
    (c ∉ s ∧ (s.reverse.takeWhile (fun d => d ≠ c)).reverse = s) ∨
      ∃ p q, s = p ++ c :: q ∧ c ∉ q ∧ (s.reverse.takeWhile (fun d => d ≠ c)).reverse = q := by
  have hsplit := List.takeWhile_append_dropWhile (fun d => decide (d ≠ c)) s.reverse
  have hnot : c ∉ s.reverse.takeWhile (fun d => decide (d ≠ c)) := by
    intro hmem
    have := List.mem_takeWhile_imp hmem
    simp at this
  cases hdrop : s.reverse.dropWhile (fun d => decide (d ≠ c)) with
  | nil =>
    left
    rw [hdrop, List.append_nil] at hsplit
    rw [hsplit] at hnot ⊢
    exact ⟨by simpa using hnot, List.reverse_reverse s⟩
  | cons d t =>
    right
    have hd : d = c := by
      have := List.head_dropWhile_not (fun d => decide (d ≠ c)) s.reverse
        (by rw [hdrop]; exact List.cons_ne_nil _ _)
      simp only [hdrop, List.head_cons] at this
      simpa using this
    subst hd
    refine ⟨t.reverse, (s.reverse.takeWhile (fun x => decide (x ≠ d))).reverse, ?_, ?_, rfl⟩
    · rw [hdrop] at hsplit
      have := congrArg List.reverse hsplit
      simpa using this.symm
    · simpa using hnot

/-- A string splits at the first occurrence of a character, if there is one. -/
theorem split_at_first (c : Char) (s : List Char) :
    (c ∉ s ∧ s.takeWhile (fun d => d ≠ c) = s) ∨
      ∃ p q, s = p ++ c :: q ∧ c ∉ p ∧ s.takeWhile (fun d => d ≠ c) = p := by
  have hsplit := List.takeWhile_append_dropWhile (fun d => decide (d ≠ c)) s
  have hnot : c ∉ s.takeWhile (fun d => decide (d ≠ c)) := by
    intro hmem
    have := List.mem_takeWhile_imp hmem
    simp at this
  cases hdrop : s.dropWhile (fun d => decide (d ≠ c)) with
  | nil =>
    left
    rw [hdrop, List.append_nil] at hsplit
    rw [hsplit] at hnot
    exact ⟨hnot, hsplit⟩
  | cons d t =>
    right
    have hd : d = c := by
      have := List.head_dropWhile_not (fun d => decide (d ≠ c)) s
        (by rw [hdrop]; exact List.cons_ne_nil _ _)
      simp only [hdrop, List.head_cons] at this
      simpa using this
    subst hd
    refine ⟨s.takeWhile (fun x => decide (x ≠ d)), t, ?_, hnot, rfl⟩
    rw [hdrop] at hsplit
    exact hsplit.symm

/-- Cutting a string at the first occurrence of a character. -/
theorem substr_to_first (c : Char) (s : List Char) (hlen : s.length < npos) :
    substr s 0 (find s c 0) = .ok (s.takeWhile (fun d => d ≠ c)) := by
  rw [npos_eq] at hlen
  rcases split_at_first c s with ⟨hno, htake⟩ | ⟨p, q, hs, hno, htake⟩
  · have hfind : find s c 0 = npos := by
      rw [find_split (l := s) (p := []) (s := s) c (i := 0) rfl rfl]
      exact findFrom_of_not_mem _ _ _ hno
    rw [hfind, htake]
    exact substr_split_end (p := []) (a := s) rfl rfl (by rw [npos_eq]; omega)
  · have hfind : find s c 0 = p.length := by
      rw [find_split (l := s) (p := []) (s := s) c (i := 0) rfl rfl, hs,
        findFrom_append_of_not_mem _ _ _ _ hno, findFrom_cons_self]
      omega
    rw [hfind, htake]
    exact substr_split (p := []) (a := p) (r := c :: q) (by simpa using hs) rfl rfl

/-- The text after the last occurrence of a character. -/
theorem substrFrom_after_last (c : Char) (s : List Char) (hlen : s.length < npos) :
    substrFrom s (sizeAdd (find_last_of s c) 1)
      = .ok (s.reverse.takeWhile (fun d => d ≠ c)).reverse := by
  rw [npos_eq] at hlen
  rcases split_at_last c s with ⟨hno, htake⟩ | ⟨p, q, hs, hno, htake⟩
  · have hfind : find_last_of s c = npos := findLastFrom_of_not_mem _ _ _ _ hno
    have hwrap : sizeAdd npos 1 = 0 := by decide
    rw [hfind, hwrap, htake]
    exact substr_split_end (p := []) (a := s) rfl rfl (by rw [npos_eq]; omega)
  · have hL : s.length = p.length + q.length + 1 := by rw [hs]; simp; omega
    have hfind : find_last_of s c = p.length := by
      rw [find_last_of, hs, findLastFrom_append, findLastFrom, if_pos rfl,
        findLastFrom_of_not_mem _ _ _ _ hno]
      omega
    have hadd : sizeAdd p.length 1 = p.length + 1 := sizeAdd_of_lt (by rw [pow64_eq]; omega)
    rw [hfind, hadd, htake]
    exact substr_split_end (p := p ++ [c]) (a := q) (by simp [hs]) (by simp)
      (by rw [npos_eq]; omega)

theorem detectTraceType_eq (traceFileName : List Char) (hlen : traceFileName.length < npos) :
    detectTraceType traceFileName
      = match traceTypeOfPrefix (namePrefix traceFileName) with
        | some traceType => .ok traceType
        | none => .error (.exit 0) := by
  have hbase := substrFrom_after_last '/' traceFileName hlen
  have hblen : (baseName traceFileName).length < npos := by
    have : (baseName traceFileName).length ≤ traceFileName.length := by
      unfold baseName
      rw [List.length_reverse]
      exact le_trans (List.Sublist.length_le (List.takeWhile_sublist _))
        (by rw [List.length_reverse])
    omega
  have hpre := substr_to_first '_' (baseName traceFileName) hblen
  unfold detectTraceType
  rw [hbase]
  simp only [bind, Except.bind]
  have e : (List.takeWhile (fun d => decide (d ≠ '/')) traceFileName.reverse).reverse
      = baseName traceFileName := rfl
  rw [e, hpre]
  simp only [namePrefix]
  generalize List.takeWhile (fun c => decide (c ≠ '_')) (baseName traceFileName) = pre
  by_cases h1 : pre = "mase".toList
  · subst h1; rfl
  · by_cases h2 : pre = "k6".toList
    · subst h2; rfl
    · by_cases h3 : pre = "misc".toList
      · subst h3; rfl
      · simp only [traceTypeOfPrefix, if_neg h1, if_neg h2, if_neg h3]
        rfl

/-- C6: `old_TBS` chooses the trace format from the basename of the trace file path cut at
its first `_`: for the prefixes `k6`, `mase` and `misc` the run goes on with that format; for
every other prefix it ends with `exit(0)` in the state it started in, nothing noted: no memory
system built, no transaction submitted. -/
theorem old_TBS_trace_type {χ : Type} (env : Env χ) (noStorage : Bool)
    (traceFileName systemIniFilename deviceIniFilename pwdString : List Char)
    (megsOfMemory : Nat) (useClockCycle : Bool) (paramOverrides : OptionsMap) (numCycles : Nat)
    (addr0 : Nat) (transType0 : TransactionType) (st : DriverState)
    (hlen : traceFileName.length < npos) :
    old_TBS env noStorage traceFileName systemIniFilename deviceIniFilename pwdString
        megsOfMemory useClockCycle paramOverrides numCycles addr0 transType0 st
      = match traceTypeOfPrefix (namePrefix traceFileName) with
        | some traceType =>
          old_TBS_run env noStorage traceType traceFileName systemIniFilename deviceIniFilename
            pwdString megsOfMemory useClockCycle paramOverrides numCycles addr0 transType0 st
        | none => .error (.stop (.exit 0), st) := by
  unfold old_TBS
  rw [detectTraceType_eq traceFileName hlen]
  cases traceTypeOfPrefix (namePrefix traceFileName) <;> rfl

/-- C6 at two paths: `traces/k6_aoe.trc` selects `k6`, and `traces/mytrace_1.trc`, whose
prefix is `mytrace`, ends the run at once. -/
theorem old_TBS_trace_type_witness :
    old_TBS (demoEnv 1 []) false "traces/k6_aoe.trc".toList "system.ini".toList
        "device.ini".toList [] 2048 true [] 30 0 .DATA_READ (DriverState.start Globals.start)
      = old_TBS_run (demoEnv 1 []) false .k6 "traces/k6_aoe.trc".toList "system.ini".toList
        "device.ini".toList [] 2048 true [] 30 0 .DATA_READ (DriverState.start Globals.start) ∧
    old_TBS (demoEnv 1 []) false "traces/mytrace_1.trc".toList "system.ini".toList
        "device.ini".toList [] 2048 true [] 30 0 .DATA_READ (DriverState.start Globals.start)
      = .error (.stop (.exit 0), DriverState.start Globals.start) :=
  ⟨old_TBS_trace_type (demoEnv 1 []) false "traces/k6_aoe.trc".toList "system.ini".toList
      "device.ini".toList [] 2048 true [] 30 0 .DATA_READ (DriverState.start Globals.start)
      (by decide),
    old_TBS_trace_type (demoEnv 1 []) false "traces/mytrace_1.trc".toList "system.ini".toList
      "device.ini".toList [] 2048 true [] 30 0 .DATA_READ (DriverState.start Globals.start)
      (by decide)⟩

/-! ### `FilenameWithNumberSuffix` -/

/-- C9 at a file system where `dramsim.log` and `dramsim.1.log` ... `dramsim.98.log` exist and
`dramsim.99.log` does not: 99 is the least free number, and `FilenameWithNumberSuffix` with
`maxNumber = 100` returns the bare `dramsim`, without number and without extension. -/
theorem FilenameWithNumberSuffix_misses_99 :
    fileExists statAllBut99 "dramsim.log".toList = true ∧
      (∀ k ∈ List.range 99, 1 ≤ k →
        fileExists statAllBut99 ("dramsim".toList ++ '.' :: decimalText k ++ ".log".toList)
          = true) ∧
      fileExists statAllBut99 ("dramsim".toList ++ '.' :: decimalText 99 ++ ".log".toList)
        = false ∧
      FilenameWithNumberSuffix statAllBut99 "dramsim".toList ".log".toList 100
        = "dramsim".toList := by
  refine ⟨by decide, by decide, by decide, by decide⟩

/-! ### The constructor of `MultiChannelMemorySystem` -/

theorem isPowerOfTwoFrom_iff (x fuel k : Nat) :
    isPowerOfTwoFrom x fuel k = true ↔ ∃ j, k ≤ j ∧ j < k + fuel ∧ 2 ^ j = x := by
  induction fuel generalizing k with
  | zero =>
    simp only [isPowerOfTwoFrom, Bool.false_eq_true, false_iff]
    rintro ⟨j, h1, h2, _⟩
    omega
  | succ fuel ih =>
    rw [isPowerOfTwoFrom]
    by_cases h1 : 2 ^ k = x
    · simp only [h1, if_true, true_iff]
      exact ⟨k, le_refl _, by omega, h1⟩
    · by_cases h2 : 2 ^ k > x
      · simp only [h1, h2, if_false, if_true, Bool.false_eq_true, false_iff]
        rintro ⟨j, hj, _, hx⟩
        have : 2 ^ k ≤ 2 ^ j := Nat.pow_le_pow_right (by decide) hj
        omega
      · simp only [h1, h2, if_false, ih]
        constructor
        · rintro ⟨j, hj, hlt, hx⟩
          exact ⟨j, by omega, by omega, hx⟩
        · rintro ⟨j, hj, hlt, hx⟩
          have : j ≠ k := fun e => h1 (e ▸ hx)
          exact ⟨j, by omega, by omega, hx⟩

/-- The model of `isPowerOfTwo` says what its name says. -/
theorem isPowerOfTwo_iff (x : Nat) : isPowerOfTwo x = true ↔ ∃ k, x = 2 ^ k := by
  rw [isPowerOfTwo, isPowerOfTwoFrom_iff]
  constructor
  · rintro ⟨j, _, _, hx⟩
    exact ⟨j, hx.symm⟩
  · rintro ⟨k, rfl⟩
    exact ⟨k, Nat.zero_le _, by have := Nat.lt_two_pow k; omega, rfl⟩

theorem newChannels_ok {χ : Type} (env : Env χ) (megsPerChannel : Nat) (cfg : Config)
    (h : ∀ i, ∃ channel, env.newMemorySystem i megsPerChannel cfg = .ok channel) (n i : Nat) :
    ∃ channels, newChannels env megsPerChannel cfg n i = .ok channels := by
  induction n generalizing i with
  | zero => exact ⟨[], rfl⟩
  | succ n ih =>
    obtain ⟨channel, hc⟩ := h i
    obtain ⟨channels, hcs⟩ := ih (i + 1)
    exact ⟨channel :: channels, by simp [newChannels, hc, hcs, bind, Except.bind, pure,
      Except.pure]⟩

theorem newChannels_length {χ : Type} (env : Env χ) (megsPerChannel : Nat) (cfg : Config)
    (n i : Nat) (channels : List χ)
    (h : newChannels env megsPerChannel cfg n i = .ok channels) : channels.length = n := by
  induction n generalizing i channels with
  | zero =>
    simp only [newChannels, Except.ok.injEq] at h
    simp [← h]
  | succ n ih =>
    simp only [newChannels, bind, Except.bind, pure, Except.pure] at h
    cases hc : env.newMemorySystem i megsPerChannel cfg with
    | error e => simp [hc] at h
    | ok channel =>
      cases hcs : newChannels env megsPerChannel cfg n (i + 1) with
      | error e => simp [hc, hcs] at h
      | ok rest =>
        simp only [hc, hcs, Except.ok.injEq] at h
        rw [← h, List.length_cons, ih (i + 1) rest hcs]

/-- What a constructed system looks like. -/
theorem create_ok {χ : Type} (env : Env χ)
    (deviceIniFilename systemIniFilename pwd traceFilename : List Char) (megsOfMemory : Nat)
    (paramOverrides : Option OptionsMap) (sys : MultiChannelMemorySystem χ)
    (h : MultiChannelMemorySystem.create env deviceIniFilename systemIniFilename pwd
      traceFilename megsOfMemory paramOverrides = .ok sys) :
    resolveConfig env deviceIniFilename systemIniFilename pwd paramOverrides = .ok sys.cfg ∧
      sys.cfg.NUM_CHANS ≠ 0 ∧ sys.channels.length = sys.cfg.NUM_CHANS ∧
      sys.currentClockCycle = 0 ∧ sys.clock1 = sys.clock2 := by
  unfold MultiChannelMemorySystem.create at h
  split at h
  · exact absurd h (by simp)
  · split at h
    · exact absurd h (by simp)
    · rename_i cfg hcfg
      split at h
      · exact absurd h (by simp)
      · rename_i hn
        split at h
        · exact absurd h (by simp)
        · rename_i channels hch
          simp only [Except.ok.injEq] at h
          subst h
          exact ⟨hcfg, hn, newChannels_length env _ _ _ _ _ hch, rfl, rfl⟩

/-- One call of `update()` at a 1:1 clock ratio is one tick. At clock cycle 0 the output files
are set up first, and a failure there ends the run; with `EPOCH_LENGTH = 0` the modulo of the
tick is undefined; otherwise every channel is updated and the clock cycle goes up by one. -/
theorem update_one_tick {χ : Type} (env : Env χ) (s : MultiChannelMemorySystem χ)
    (hclocks : s.clock1 = s.clock2) :
    ((s.currentClockCycle = 0 → MultiChannelMemorySystem.InitOutputFiles env s = .ok ()) →
      s.cfg.EPOCH_LENGTH ≠ 0 →
      MultiChannelMemorySystem.update env s
        = .ok ({ s with
            channels := s.channels.map (fun channel => (env.channelUpdate channel).1)
            currentClockCycle := (s.currentClockCycle + 1) % 2 ^ 64 },
          (s.channels.map (fun channel => (env.channelUpdate channel).2)).flatten)) ∧
    (∀ e, s.currentClockCycle = 0 →
      MultiChannelMemorySystem.InitOutputFiles env s = .error e →
      MultiChannelMemorySystem.update env s = .error e) ∧
    ((s.currentClockCycle = 0 → MultiChannelMemorySystem.InitOutputFiles env s = .ok ()) →
      s.cfg.EPOCH_LENGTH = 0 →
      MultiChannelMemorySystem.update env s = .error .undefined) ∧
    (s.cfg.VERIFICATION_OUTPUT = false →
      MultiChannelMemorySystem.InitOutputFiles env s = .ok ()) := by
  refine ⟨?_, ?_, ?_, ?_⟩
  · intro hinit hepoch
    by_cases hzero : s.currentClockCycle = 0
    · simp [MultiChannelMemorySystem.update, hclocks, MultiChannelMemorySystem.ticks,
        MultiChannelMemorySystem.actual_update, hzero, hinit hzero, hepoch, bind, Except.bind,
        pure, Except.pure, List.map_map, Function.comp_def]
    · simp [MultiChannelMemorySystem.update, hclocks, MultiChannelMemorySystem.ticks,
        MultiChannelMemorySystem.actual_update, hzero, hepoch, bind, Except.bind,
        pure, Except.pure, List.map_map, Function.comp_def]
  · intro e hzero hinit
    simp [MultiChannelMemorySystem.update, hclocks, MultiChannelMemorySystem.ticks,
      MultiChannelMemorySystem.actual_update, hzero, hinit, bind, Except.bind]
  · intro hinit hepoch
    by_cases hzero : s.currentClockCycle = 0
    · simp [MultiChannelMemorySystem.update, hclocks, MultiChannelMemorySystem.ticks,
        MultiChannelMemorySystem.actual_update, hzero, hinit hzero, hepoch, bind, Except.bind,
        pure, Except.pure, throw, throwThe, MonadExceptOf.throw]
    · simp [MultiChannelMemorySystem.update, hclocks, MultiChannelMemorySystem.ticks,
        MultiChannelMemorySystem.actual_update, hzero, hepoch, bind, Except.bind,
        pure, Except.pure, throw, throwThe, MonadExceptOf.throw]
  · intro hver
    simp [MultiChannelMemorySystem.InitOutputFiles, hver, pure, Except.pure, bind, Except.bind]

/-- C10, amended: the constructor checks the channel count only against zero. For a
configuration whose `NUM_CHANS` is not a power of two: with `NUM_CHANS = 0` construction
aborts; otherwise it succeeds whenever `megsOfMemory` is a power of two and the channels can be
created. On every system so constructed each `addTransaction` (of either kind) aborts in
`findChannelNumber`, while `update()` is not guarded by the channel count: on the system as
constructed, and on it after `setCPUClockSpeed(0)` as the drivers call it, a call of `update()`
is one tick that updates every channel and advances the clock cycle by one, unless the tick
stops for a reason of its own: at clock cycle 0 a failure to set up the output files ends the
run (there is none when `VERIFICATION_OUTPUT` is off), and with `EPOCH_LENGTH = 0` the modulo
of the tick is undefined. -/
theorem create_without_power_of_two_check {χ : Type} (env : Env χ)
    (deviceIniFilename systemIniFilename pwd traceFilename : List Char) (megsOfMemory : Nat)
    (paramOverrides : Option OptionsMap) (cfg : Config)
    (hcfg : resolveConfig env deviceIniFilename systemIniFilename pwd paramOverrides = .ok cfg)
    (hnp : isPowerOfTwo cfg.NUM_CHANS = false) :
    (cfg.NUM_CHANS = 0 →
      MultiChannelMemorySystem.create env deviceIniFilename systemIniFilename pwd
        traceFilename megsOfMemory paramOverrides = .error .abort) ∧
    (cfg.NUM_CHANS ≠ 0 → isPowerOfTwo megsOfMemory = true →
      (∀ i, ∃ channel,
        env.newMemorySystem i (megsOfMemory / cfg.NUM_CHANS) cfg = .ok channel) →
      ∃ sys, MultiChannelMemorySystem.create env deviceIniFilename systemIniFilename pwd
        traceFilename megsOfMemory paramOverrides = .ok sys) ∧
    (∀ sys, MultiChannelMemorySystem.create env deviceIniFilename systemIniFilename pwd
        traceFilename megsOfMemory paramOverrides = .ok sys →
      sys.cfg = cfg ∧ sys.channels.length = cfg.NUM_CHANS ∧
      (∀ trans, MultiChannelMemorySystem.addTransaction env sys trans = .error .abort) ∧
      (∀ isWrite addr,
        MultiChannelMemorySystem.addTransactionRW env sys isWrite addr = .error .abort) ∧
      (∀ s, s = sys ∨ s = sys.setCPUClockSpeed env 0 →
        ((s.currentClockCycle = 0 → MultiChannelMemorySystem.InitOutputFiles env s = .ok ()) →
          cfg.EPOCH_LENGTH ≠ 0 →
          MultiChannelMemorySystem.update env s
            = .ok ({ s with
                channels := s.channels.map (fun channel => (env.channelUpdate channel).1)
                currentClockCycle := (s.currentClockCycle + 1) % 2 ^ 64 },
              (s.channels.map (fun channel => (env.channelUpdate channel).2)).flatten)) ∧
        (∀ e, s.currentClockCycle = 0 →
          MultiChannelMemorySystem.InitOutputFiles env s = .error e →
          MultiChannelMemorySystem.update env s = .error e) ∧
        ((s.currentClockCycle = 0 → MultiChannelMemorySystem.InitOutputFiles env s = .ok ()) →
          cfg.EPOCH_LENGTH = 0 →
          MultiChannelMemorySystem.update env s = .error .undefined) ∧
        (cfg.VERIFICATION_OUTPUT = false →
          MultiChannelMemorySystem.InitOutputFiles env s = .ok ()))) := by
  have hone : cfg.NUM_CHANS ≠ 1 := by
    intro h
    rw [h] at hnp
    exact absurd hnp (by decide)
  refine ⟨?_, ?_, ?_⟩
  · intro hzero
    unfold MultiChannelMemorySystem.create
    split
    · rfl
    · simp [hcfg, hzero]
  · intro hnz hmegs hchannels
    obtain ⟨channels, hch⟩ := newChannels_ok env _ cfg hchannels cfg.NUM_CHANS 0
    unfold MultiChannelMemorySystem.create
    simp only [hmegs, hcfg, hnz, hch, Bool.not_true, Bool.false_eq_true, if_false]
    exact ⟨_, rfl⟩
  · intro sys hsys
    obtain ⟨hres, _, hlen, _, hclocks⟩ := create_ok env _ _ _ _ _ _ sys hsys
    have hsame : sys.cfg = cfg := by
      rw [hcfg] at hres
      exact (Except.ok.inj hres).symm
    have hfind : ∀ addr, MultiChannelMemorySystem.findChannelNumber env sys addr
        = .error .abort := by
      intro addr
      simp [MultiChannelMemorySystem.findChannelNumber, hsame, hone, hnp]
    refine ⟨hsame, by rw [hlen, hsame], ?_, ?_, ?_⟩
    · intro trans
      simp [MultiChannelMemorySystem.addTransaction, hfind, bind, Except.bind]
    · intro isWrite addr
      simp [MultiChannelMemorySystem.addTransactionRW, hfind, bind, Except.bind]
    · intro s hs
      have hs2 : s.clock1 = s.clock2 ∧ s.cfg = cfg := by
        rcases hs with h | h
        · rw [h]
          exact ⟨hclocks, hsame⟩
        · rw [h]
          exact ⟨by simp [MultiChannelMemorySystem.setCPUClockSpeed], hsame⟩
      obtain ⟨t1, t2, t3, t4⟩ := update_one_tick env s hs2.1
      exact ⟨fun hinit hepoch => t1 hinit (by rw [hs2.2]; exact hepoch), t2,
        fun hinit hepoch => t3 hinit (by rw [hs2.2]; exact hepoch),
        fun hver => t4 (by rw [hs2.2]; exact hver)⟩

/-- C10 (amended) on the concrete platform with three channels: the system is constructed,
a read of address 64 offered to it aborts, and a call of `update()` is one tick. -/
theorem create_without_power_of_two_check_witness :
    MultiChannelMemorySystem.create (demoEnv 3 []) "device.ini".toList "system.ini".toList []
        "k6_t.trc".toList 2048 none = .ok threeChannels ∧
      MultiChannelMemorySystem.addTransaction (demoEnv 3 []) threeChannels
        ⟨.DATA_READ, 64, none, threeChannels.cfg⟩ = .error .abort ∧
      MultiChannelMemorySystem.update (demoEnv 3 []) threeChannels
        = .ok ({ threeChannels with
            channels := threeChannels.channels.map
              (fun channel => ((demoEnv 3 []).channelUpdate channel).1)
            currentClockCycle := (threeChannels.currentClockCycle + 1) % 2 ^ 64 },
          (threeChannels.channels.map
            (fun channel => ((demoEnv 3 []).channelUpdate channel).2)).flatten) :=
  ⟨rfl, ((create_without_power_of_two_check (demoEnv 3 []) "device.ini".toList
    "system.ini".toList [] "k6_t.trc".toList 2048 none (demoEnv 3 []).defaultConfig rfl
    (by decide)).2.2 threeChannels rfl).2.2.1 _,
    (((create_without_power_of_two_check (demoEnv 3 []) "device.ini".toList
      "system.ini".toList [] "k6_t.trc".toList 2048 none (demoEnv 3 []).defaultConfig rfl
      (by decide)).2.2 threeChannels rfl).2.2.2.2 threeChannels (Or.inl rfl)).1
      (fun _ => rfl) (by decide)⟩

/-- C10 as stated fails: with `NUM_CHANS = 3`, which is no power of two, construction
succeeds with three channels, `update()` runs on the system and brings it to its next clock
cycle, and only `addTransaction` aborts. -/
theorem create_three_channels_succeeds :
    isPowerOfTwo 3 = false ∧
    ∃ sys next, MultiChannelMemorySystem.create (demoEnv 3 []) "device.ini".toList
        "system.ini".toList [] "k6_t.trc".toList 2048 none = .ok sys ∧
      sys.cfg.NUM_CHANS = 3 ∧ sys.channels.length = 3 ∧
      MultiChannelMemorySystem.update (demoEnv 3 []) sys = .ok (next, []) ∧
      next.currentClockCycle = (sys.currentClockCycle + 1) % 2 ^ 64 ∧
      MultiChannelMemorySystem.addTransaction (demoEnv 3 []) next
        ⟨.DATA_READ, 64, none, sys.cfg⟩ = .error .abort :=
  ⟨by decide, _, _, rfl, rfl, rfl, rfl, rfl, rfl⟩

/-! ### `simple_TBS`: what holds along a run -/

theorem Run.sat_bind {α β : Type} {r : Run α} {f : α → Run β} {P : α → Prop}
    {P2 : β → Prop} {Q : DriverState → Prop} (h : r.sat P Q)
    (hf : ∀ a, P a → (f a).sat P2 Q) : (r >>= f).sat P2 Q := by
  cases r with
  | ok a => exact hf a h
  | error e => exact h

theorem Run.sat_mono {α : Type} {r : Run α} {P P2 : α → Prop} {Q Q2 : DriverState → Prop}
    (h : r.sat P Q) (hP : ∀ a, P a → P2 a) (hQ : ∀ st, Q st → Q2 st) : r.sat P2 Q2 := by
  cases r with
  | ok a => exact hP a h
  | error e => exact hQ _ h

theorem Frame.refl {χ : Type} (env : Env χ) (st : DriverState) : Frame env st st :=
  ⟨id, rfl, le_refl _, rfl, rfl, rfl, rfl⟩

theorem Frame.trans {χ : Type} {env : Env χ} {st1 st2 st3 : DriverState}
    (h12 : Frame env st1 st2) (h23 : Frame env st2 st3) : Frame env st1 st3 :=
  ⟨fun h => h23.timed (h12.timed h), h23.line.trans h12.line,
    le_trans h12.updates h23.updates, h23.cycles.trans h12.cycles,
    h23.speedup.trans h12.speedup, h23.maxTrans.trans h12.maxTrans,
    h23.lines.trans h12.lines⟩

theorem Inv.keeps {χ : Type} {env : Env χ} {st1 st2 : DriverState} (h : Inv env st1)
    (hf : Frame env st1 st2) : Inv env st2 :=
  ⟨hf.timed h.timed, by rw [hf.cycles]; exact le_trans h.cycles hf.updates,
    by rw [hf.speedup]; exact h.speedup⟩

theorem SubmittedFor.mono {χ : Type} {env : Env χ} {text : List Char} {t : Transaction}
    {u1 u2 : Nat} (h : SubmittedFor env text t u1) (hu : u1 ≤ u2) :
    SubmittedFor env text t u2 := by
  obtain ⟨hne, first, second, third, cycle, op, addr, h1, h2, h3, h4, h5, h6, h7⟩ := h
  exact ⟨hne, first, second, third, cycle, op, addr, h1, h2, h3, h4, le_trans h5 hu, h6, h7⟩

theorem Ready.stays {χ : Type} {env : Env χ} {st1 st2 : DriverState} {t : Transaction}
    (h : Ready env st1 t) (hf : Frame env st1 st2) : Ready env st2 t := by
  obtain ⟨text, hline, hsub⟩ := h
  exact ⟨text, by rw [hf.line]; exact hline, hsub.mono hf.updates⟩

/-- Noting an event that is no line, no submission and no update. -/
theorem Frame.note_other {χ : Type} (env : Env χ) (st : DriverState) (e : Event)
    (h1 : ∀ text, e ≠ .line text) (h2 : ∀ t r, e ≠ .addTransaction t r) (h3 : e ≠ .update) :
    Frame env st (st.note e) := by
  cases e with
  | line text => exact absurd rfl (h1 text)
  | addTransaction t r => exact absurd rfl (h2 t r)
  | update => exact absurd rfl h3
  | construct => exact ⟨id, rfl, le_refl _, rfl, rfl, rfl, rfl⟩
  | add_pending t c => exact ⟨id, rfl, le_refl _, rfl, rfl, rfl, rfl⟩
  | read_complete a d => exact ⟨id, rfl, le_refl _, rfl, rfl, rfl, rfl⟩
  | write_complete a d => exact ⟨id, rfl, le_refl _, rfl, rfl, rfl, rfl⟩

theorem Frame.note_update {χ : Type} (env : Env χ) (st : DriverState) :
    Frame env st (st.note .update) :=
  ⟨id, rfl, Nat.le_succ _, rfl, rfl, rfl, rfl⟩

/-- Changing the receiver and the counters that the timing does not depend on. -/
theorem Frame.of_same_events {χ : Type} (env : Env χ) (st1 st2 : DriverState)
    (he : st2.events = st1.events) (hc : st2.g.trace_cycles = st1.g.trace_cycles)
    (hs : st2.g.speedup_factor = st1.g.speedup_factor)
    (hm : st2.g.MAX_TRANS = st1.g.MAX_TRANS) : Frame env st1 st2 :=
  ⟨by rw [he]; exact id, by rw [he], by rw [he], hc, hs, hm, by rw [he]⟩

theorem runCallback_frame {χ : Type} (env : Env χ) (st : DriverState) (c : Completion) :
    (runCallback st c).sat (Frame env st) (Frame env st) := by
  unfold runCallback
  split
  · have hnote := Frame.note_other env st (.write_complete c.address c.done_cycle)
      (by simp) (by simp) (by simp)
    simp only
    split
    · rename_i r g hres
      simp only [TransactionReceiver.write_complete] at hres
      split at hres
      · exact absurd hres (by simp)
      · split at hres
        · exact absurd hres (by simp)
        · simp only [Except.ok.injEq, Prod.mk.injEq] at hres
          refine hnote.trans (Frame.of_same_events env _ _ rfl ?_ ?_ ?_)
          all_goals simp only [← hres.2]; rfl
    · exact hnote
  · have hnote := Frame.note_other env st (.read_complete c.address c.done_cycle)
      (by simp) (by simp) (by simp)
    simp only
    split
    · rename_i r g hres
      simp only [TransactionReceiver.read_complete] at hres
      split at hres
      · exact absurd hres (by simp)
      · split at hres
        · exact absurd hres (by simp)
        · simp only [Except.ok.injEq, Prod.mk.injEq] at hres
          refine hnote.trans (Frame.of_same_events env _ _ rfl ?_ ?_ ?_)
          all_goals simp only [← hres.2]; rfl
    · exact hnote

theorem runCallbacks_frame {χ : Type} (env : Env χ) (cs : List Completion) (st : DriverState) :
    (runCallbacks cs st).sat (Frame env st) (Frame env st) := by
  induction cs generalizing st with
  | nil => exact Frame.refl env st
  | cons c cs ih =>
    rw [runCallbacks]
    refine Run.sat_bind (runCallback_frame env st c) (fun st1 h1 => ?_)
    exact Run.sat_mono (ih st1) (fun _ h => h1.trans h) (fun _ h => h1.trans h)

theorem driverUpdate_frame {χ : Type} (env : Env χ) (mem : MultiChannelMemorySystem χ)
    (st : DriverState) :
    (driverUpdate env mem st).sat
      (fun r => Frame env st r.2 ∧ updatesIn st.events < updatesIn r.2.events)
      (Frame env st) := by
  unfold driverUpdate
  have hnote := Frame.note_update env st
  simp only
  split
  · exact hnote
  · rename_i mem2 completions _
    refine Run.sat_bind (Run.sat_mono (runCallbacks_frame env completions (st.note .update))
      (fun _ h => h) (fun _ h => hnote.trans h)) (fun st2 h2 => ?_)
    exact ⟨hnote.trans h2, Nat.lt_of_lt_of_le (Nat.lt_succ_self _) h2.updates⟩

theorem driverAddPending_frame {χ : Type} (env : Env χ) (st : DriverState) (t : Transaction)
    (cycle : Nat) : (driverAddPending st t cycle).sat (Frame env st) (Frame env st) := by
  unfold driverAddPending
  have hnote := Frame.note_other env st (.add_pending t cycle) (by simp) (by simp) (by simp)
  simp only
  split
  · exact hnote.trans (Frame.of_same_events env _ _ rfl rfl rfl rfl)
  · exact hnote

theorem driverAdd_ready {χ : Type} (env : Env χ) (mem : MultiChannelMemorySystem χ)
    (st : DriverState) (t : Transaction) (hinv : Inv env st) (hready : Ready env st t) :
    (driverAdd env mem st t).sat
      (fun r => Inv env r.2.2 ∧ Ready env r.2.2 t ∧ r.2.2.g = st.g) (Inv env) := by
  have hnote : ∀ r, Inv env (st.note (.addTransaction t r)) ∧
      Ready env (st.note (.addTransaction t r)) t := fun r =>
    ⟨⟨⟨hready, hinv.timed⟩, hinv.cycles, hinv.speedup⟩, hready⟩
  unfold driverAdd
  split
  · exact (hnote none).1
  · rename_i accepted mem2 _
    exact ⟨(hnote (some accepted)).1, (hnote (some accepted)).2, rfl⟩

theorem throttleLoop_frame {χ : Type} (env : Env χ) (fuel : Nat) :
    ∀ (mem : MultiChannelMemorySystem χ) (st : DriverState),
      (throttleLoop env fuel mem st).sat (fun r => Frame env st r.2) (Frame env st) := by
  induction fuel with
  | zero =>
    intro mem st
    rw [throttleLoop]
    split
    · exact Frame.refl env st
    · exact Frame.refl env st
  | succ fuel ih =>
    intro mem st
    rw [throttleLoop]
    split
    · refine Run.sat_bind (Run.sat_mono (driverUpdate_frame env mem st) (fun _ h => h.1)
        (fun _ h => h)) (fun updated h1 => ?_)
      have h2 : Frame env updated.2 { updated.2 with g := { updated.2.g with
          throttle_cycles := (updated.2.g.throttle_cycles + 1) % 2 ^ 64 } } :=
        Frame.of_same_events env _ _ rfl rfl rfl rfl
      exact Run.sat_mono (ih updated.1 _) (fun _ h => (h1.trans h2).trans h)
        (fun _ h => (h1.trans h2).trans h)
    · exact Frame.refl env st

theorem drainLoop_frame {χ : Type} (env : Env χ) (fuel : Nat) :
    ∀ (mem : MultiChannelMemorySystem χ) (st : DriverState),
      (drainLoop env fuel mem st).sat (fun r => Frame env st r.2) (Frame env st) := by
  induction fuel with
  | zero =>
    intro mem st
    rw [drainLoop]
    split
    · exact Frame.refl env st
    · exact Frame.refl env st
  | succ fuel ih =>
    intro mem st
    rw [drainLoop]
    split
    · refine Run.sat_bind (Run.sat_mono (driverUpdate_frame env mem st) (fun _ h => h.1)
        (fun _ h => h)) (fun updated h1 => ?_)
      have h2 : Frame env updated.2 { updated.2 with g := { updated.2.g with
          final_cycles := (updated.2.g.final_cycles + 1) % 2 ^ 64 } } :=
        Frame.of_same_events env _ _ rfl rfl rfl rfl
      exact Run.sat_mono (ih updated.1 _) (fun _ h => (h1.trans h2).trans h)
        (fun _ h => (h1.trans h2).trans h)
    · exact Frame.refl env st

/-- The loop that advances `trace_cycles` leaves it at `trans_cycle` or beyond, and calls
`update()` once for every step. -/
theorem advanceLoop_inv {χ : Type} (env : Env χ) (trans_cycle fuel : Nat) :
    ∀ (mem : MultiChannelMemorySystem χ) (st : DriverState), Inv env st →
      (advanceLoop env trans_cycle fuel mem st).sat
        (fun r => Inv env r.2 ∧ lastLine r.2.events = lastLine st.events ∧
          r.2.g.MAX_TRANS = st.g.MAX_TRANS ∧ trans_cycle ≤ r.2.g.trace_cycles)
        (Inv env) := by
  induction fuel with
  | zero =>
    intro mem st hinv
    rw [advanceLoop]
    split
    · exact hinv
    · rename_i hge
      exact ⟨hinv, rfl, rfl, Nat.le_of_not_lt hge⟩
  | succ fuel ih =>
    intro mem st hinv
    rw [advanceLoop]
    split
    · refine Run.sat_bind (Run.sat_mono (driverUpdate_frame env mem st) (fun _ h => h)
        (fun _ h => hinv.keeps h)) (fun updated h1 => ?_)
      have hinv1 := hinv.keeps h1.1
      have hstep : Inv env { updated.2 with g := { updated.2.g with
          trace_cycles := (updated.2.g.trace_cycles + 1) % 2 ^ 64 } } := by
        refine ⟨hinv1.timed, ?_, hinv1.speedup⟩
        have hc := h1.1.cycles
        have hu := h1.2
        have hle := hinv.cycles
        show (updated.2.g.trace_cycles + 1) % 2 ^ 64 ≤ updatesIn updated.2.events
        exact le_trans (Nat.mod_le _ _) (by omega)
      refine Run.sat_mono (ih updated.1 _ hstep) (fun r h => ?_) (fun _ h => h)
      exact ⟨h.1, h.2.1.trans h1.1.line, h.2.2.1.trans h1.1.maxTrans, h.2.2.2⟩
    · rename_i hge
      exact ⟨hinv, rfl, rfl, Nat.le_of_not_lt hge⟩

/-- The lines `getline(char_line, 256)` delivers have at most 255 characters. -/
theorem getlineBuffer_length (inFile : IStream) : (getlineBuffer 256 inFile).1.length ≤ 255 := by
  have htake : ∀ l : List Char,
      (l.takeWhile (fun c => decide (c ≠ '\x00'))).length ≤ l.length :=
    fun l => List.Sublist.length_le (List.takeWhile_sublist _)
  unfold getlineBuffer
  split
  · simp
  · simp only
    split
    · rename_i hlt
      split
      · exact le_trans (htake _) (by omega)
      · exact le_trans (htake _) (by omega)
    · refine le_trans (htake _) ?_
      simp

theorem finishSimpleLine_zero (v0 v1 v2 : Nat) :
    finishSimpleLine 0 v0 v1 v2 = (v0 % 2 ^ 64, kissType v1, v2 % 2 ^ 64) := by
  have hmod : v1 % 2 ^ 64 % 2 = v1 % 2 :=
    Nat.mod_mod_of_dvd v1 (Dvd.intro (2 ^ 63) (by norm_num))
  simp only [finishSimpleLine, kissType, hmod, ne_eq, not_true_eq_false, if_false]

/-- What a line that yields a transaction looks like. -/
theorem parseSimpleLine_some {χ : Type} (env : Env χ) (text : List Char)
    (trans_cycle addr : Nat) (transType : TransactionType) (hlen : text.length < npos)
    (h : parseSimpleLine env 0 text = .ok (some (trans_cycle, transType, addr))) :
    lineBody env text ≠ [] ∧
      ∃ first second third cycle op address,
        env.split (lineBody env text) = [first, second, third] ∧
        env.convert_uint64_t first = .ok cycle ∧
        env.convert_uint64_t second = .ok op ∧
        env.convert_uint64_t third = .ok address ∧
        trans_cycle = cycle % 2 ^ 64 ∧ transType = kissType op ∧ addr = address % 2 ^ 64 := by
  unfold parseSimpleLine at h
  rw [substr_to_first '#' text hlen] at h
  have hbody : env.strip (List.takeWhile (fun d => decide (d ≠ '#')) text) = lineBody env text :=
    rfl
  simp only [hbody] at h
  split at h
  · exact absurd h (by simp)
  · rename_i hne
    split at h
    · rename_i first second third hsplit
      split at h
      · exact absurd h (by simp)
      · rename_i cycle h0
        split at h
        · exact absurd h (by simp)
        · rename_i op h1
          split at h
          · exact absurd h (by simp)
          · rename_i address h2
            rw [finishSimpleLine_zero] at h
            simp only [Except.ok.injEq, Option.some.injEq, Prod.mk.injEq] at h
            exact ⟨by simpa using hne, first, second, third, cycle, op, address, hsplit, h0,
              h1, h2, h.1.symm, h.2.1.symm, h.2.2.symm⟩
    · exact absurd h (by simp)

/-- What a line that splits into three unsigned integers yields, and what an empty line
yields. -/
theorem parseSimpleLine_of_fields {χ : Type} (env : Env χ) (text : List Char)
    (hlen : text.length < npos) :
    (∀ first second third cycle op addr, lineBody env text ≠ [] →
      env.split (lineBody env text) = [first, second, third] →
      env.convert_uint64_t first = .ok cycle → env.convert_uint64_t second = .ok op →
      env.convert_uint64_t third = .ok addr →
      parseSimpleLine env 0 text = .ok (some (cycle % 2 ^ 64, kissType op, addr % 2 ^ 64))) ∧
    (∀ speedup_factor, lineBody env text = [] →
      parseSimpleLine env speedup_factor text = .ok none) := by
  have hbody : env.strip (List.takeWhile (fun d => decide (d ≠ '#')) text) = lineBody env text :=
    rfl
  constructor
  · intro first second third cycle op addr hne hsplit h0 h1 h2
    have hempty : (lineBody env text).isEmpty = false := by
      cases hb : lineBody env text with
      | nil => exact absurd hb hne
      | cons c l => rfl
    unfold parseSimpleLine
    rw [substr_to_first '#' text hlen]
    simp only [hbody, hempty, hsplit, h0, h1, h2, finishSimpleLine_zero, Bool.false_eq_true,
      if_false]
  · intro speedup_factor hb
    unfold parseSimpleLine
    rw [substr_to_first '#' text hlen]
    simp only [hbody, hb, List.isEmpty_nil, if_true]

theorem simple_TBS_offer_inv {χ : Type} (env : Env χ) (s : SimpleLoop χ) (t : Transaction)
    (hinv : Inv env s.st) (hready : Ready env s.st t) (htrans : s.trans = some t) :
    (simple_TBS_offer env s t).sat
      (fun s2 => Inv env s2.st ∧ Ready env s2.st t ∧ s2.trans = some t) (Inv env) := by
  unfold simple_TBS_offer
  refine Run.sat_bind (driverAdd_ready env s.mem s.st t hinv hready) (fun added h1 => ?_)
  obtain ⟨hinv1, hready1, _⟩ := h1
  split
  · refine Run.sat_bind (Run.sat_mono (driverAddPending_frame env added.2.2 t _)
      (fun _ h => h) (fun _ h => hinv1.keeps h)) (fun st2 h2 => ?_)
    have h3 : Frame env st2
        { st2 with g := { st2.g with pending := (st2.g.pending + 1) % 2 ^ 64 } } :=
      Frame.of_same_events env _ _ rfl rfl rfl rfl
    exact ⟨hinv1.keeps (h2.trans h3), hready1.stays (h2.trans h3), htrans⟩
  · refine Run.sat_bind (Run.sat_mono (driverUpdate_frame env added.2.1 added.2.2)
      (fun _ h => h.1) (fun _ h => hinv1.keeps h)) (fun updated h2 => ?_)
    have h3 : Frame env updated.2 { updated.2 with g := { updated.2.g with
        throttle_cycles := (updated.2.g.throttle_cycles + 1) % 2 ^ 64 } } :=
      Frame.of_same_events env _ _ rfl rfl rfl rfl
    exact ⟨hinv1.keeps (h2.trans h3), hready1.stays (h2.trans h3), htrans⟩

theorem simple_TBS_throttle_inv {χ : Type} (env : Env χ) (bound : Nat) (s : SimpleLoop χ)
    (t : Transaction) (hinv : Inv env s.st) (hready : Ready env s.st t)
    (htrans : s.trans = some t) :
    (simple_TBS_throttle env bound s).sat
      (fun s2 => Inv env s2.st ∧ Ready env s2.st t ∧ s2.trans = some t) (Inv env) := by
  unfold simple_TBS_throttle
  split
  · have h1 : Frame env s.st { s.st with g := { s.st.g with
        throttle_count := (s.st.g.throttle_count + 1) % 2 ^ 64 } } :=
      Frame.of_same_events env _ _ rfl rfl rfl rfl
    refine Run.sat_bind (Run.sat_mono (throttleLoop_frame env bound s.mem _)
      (fun _ h => h) (fun _ h => hinv.keeps (h1.trans h))) (fun throttled h2 => ?_)
    exact ⟨hinv.keeps (h1.trans h2), hready.stays (h1.trans h2), htrans⟩
  · exact ⟨hinv, hready, htrans⟩

theorem simple_TBS_submit_inv {χ : Type} (env : Env χ) (bound : Nat) (s : SimpleLoop χ)
    (hinv : Inv env s.st) (hready : ∀ t, s.trans = some t → Ready env s.st t) :
    (simple_TBS_submit env bound s).sat
      (fun s2 => Inv env s2.st ∧ ∀ t, s2.trans = some t → Ready env s2.st t) (Inv env) := by
  unfold simple_TBS_submit
  split
  · exact hinv
  · rename_i t htrans
    refine Run.sat_bind (simple_TBS_offer_inv env s t hinv (hready t htrans) htrans)
      (fun s1 h1 => ?_)
    refine Run.sat_bind (simple_TBS_throttle_inv env bound s1 t h1.1 h1.2.1 h1.2.2)
      (fun s2 h2 => ?_)
    have hsame : (simple_TBS_checkDone s2).st = s2.st ∧ (simple_TBS_checkDone s2).trans = s2.trans
        := by
      unfold simple_TBS_checkDone
      split <;> exact ⟨rfl, rfl⟩
    show Inv env (simple_TBS_checkDone s2).st ∧
      ∀ t, (simple_TBS_checkDone s2).trans = some t → Ready env (simple_TBS_checkDone s2).st t
    rw [hsame.1, hsame.2]
    refine ⟨h2.1, fun t2 ht2 => ?_⟩
    have : t2 = t := by
      rw [h2.2.2] at ht2
      exact (Option.some.inj ht2).symm
    rw [this]
    exact h2.2.1

theorem alignTransactionAddress_some (dramsim_log2 : Nat → Nat) (t aligned : Transaction)
    (h : alignTransactionAddress dramsim_log2 t = some aligned) :
    aligned.transactionType = t.transactionType ∧ aligned.cfg = t.cfg ∧ aligned.data = t.data := by
  unfold alignTransactionAddress at h
  simp only at h
  split at h
  · simp only [Option.some.injEq] at h
    subst h
    exact ⟨rfl, rfl, rfl⟩
  · exact absurd h (by simp)

theorem alignedTransaction_sat {χ : Type} (env : Env χ) (st : DriverState)
    (transType : TransactionType) (addr : Nat) (data : Option (List Nat)) (cfg : Config) :
    (alignedTransaction env st transType addr data cfg).sat
      (fun t => alignTransactionAddress env.dramsim_log2 ⟨transType, addr, data, cfg⟩ = some t)
      (fun st2 => st2 = st) := by
  unfold alignedTransaction
  split
  · rename_i aligned h
    exact h
  · rfl

theorem simple_TBS_issue_inv {χ : Type} (env : Env χ) (bound : Nat) (cfg : Config)
    (s : SimpleLoop χ) (trans_cycle addr : Nat) (transType : TransactionType) (text : List Char)
    (hinv : Inv env s.st) (hline : lastLine s.st.events = some text)
    (hlen : text.length < npos)
    (hparse : parseSimpleLine env 0 text = .ok (some (trans_cycle, transType, addr))) :
    (simple_TBS_issue env bound cfg s trans_cycle transType addr).sat
      (fun s2 => Inv env s2.st ∧ ∀ t, s2.trans = some t → Ready env s2.st t) (Inv env) := by
  obtain ⟨hne, first, second, third, cycle, op, address, hsplit, h0, h1, h2, hc, ht, ha⟩ :=
    parseSimpleLine_some env _ trans_cycle addr transType hlen hparse
  unfold simple_TBS_issue
  refine Run.sat_bind (advanceLoop_inv env trans_cycle bound s.mem s.st hinv)
    (fun advanced hadv => ?_)
  obtain ⟨hinv2, hline2, _, hcycles2⟩ := hadv
  refine Run.sat_bind (Run.sat_mono (alignedTransaction_sat env advanced.2 transType addr none
    cfg) (fun _ h => h) (fun _ h => by rw [h]; exact hinv2)) (fun aligned halign => ?_)
  obtain ⟨hty, hcfg, _⟩ := alignTransactionAddress_some _ _ _ halign
  simp only at hty hcfg
  refine simple_TBS_submit_inv env bound _ hinv2 (fun t2 ht2 => ?_)
  simp only [Option.some.injEq] at ht2
  subst ht2
  refine ⟨text, hline2.trans hline, hne, first, second, third, cycle, op, address, hsplit, h0,
    h1, h2, ?_, ?_, ?_⟩
  · rw [← hc]
    exact le_trans hcycles2 hinv2.cycles
  · rw [hty, ht]
  · rw [hcfg, ← ht, ← ha]
    exact halign

theorem simple_TBS_body_inv {χ : Type} (env : Env χ) (bound : Nat) (cfg : Config)
    (s : SimpleLoop χ) (hinv : Inv env s.st)
    (hready : s.paused = true → ∀ t, s.trans = some t → Ready env s.st t) :
    (simple_TBS_body env bound cfg s).sat
      (fun s2 => Inv env s2.st ∧ (s2.paused = true → ∀ t, s2.trans = some t → Ready env s2.st t))
      (Inv env) := by
  unfold simple_TBS_body
  split
  · rename_i hpaused
    have hlen : (getlineBuffer 256 s.inFile).1.length < npos := by
      have := getlineBuffer_length s.inFile
      rw [npos_eq]
      omega
    have hnoted : Inv env (s.st.note (.line (getlineBuffer 256 s.inFile).1)) :=
      ⟨hinv.timed, hinv.cycles, hinv.speedup⟩
    simp only
    split
    · exact hnoted
    · refine ⟨hnoted, fun hp => ?_⟩
      have hp2 : s.paused = true := hp
      rw [hp2] at hpaused
      exact absurd hpaused (by simp)
    · rename_i trans_cycle transType addr hparse
      have hsf : (s.st.note (.line (getlineBuffer 256 s.inFile).1)).g.speedup_factor = 0 :=
        hinv.speedup
      rw [hsf] at hparse
      exact Run.sat_mono (simple_TBS_issue_inv env bound cfg _ trans_cycle addr transType
        (getlineBuffer 256 s.inFile).1 hnoted rfl hlen hparse)
        (fun s2 h => ⟨h.1, fun _ => h.2⟩) (fun _ h => h)
  · rename_i hpaused
    have hp : s.paused = true := by simpa using hpaused
    exact Run.sat_mono (simple_TBS_submit_inv env bound s hinv (hready hp))
      (fun s2 h => ⟨h.1, fun _ => h.2⟩) (fun _ h => h)

theorem simple_TBS_loop_inv {χ : Type} (env : Env χ) (bound : Nat) (cfg : Config) (fuel : Nat) :
    ∀ s : SimpleLoop χ, Inv env s.st →
      (s.paused = true → ∀ t, s.trans = some t → Ready env s.st t) →
      (simple_TBS_loop env bound cfg fuel s).sat (fun s2 => Inv env s2.st) (Inv env) := by
  induction fuel with
  | zero =>
    intro s hinv _
    rw [simple_TBS_loop]
    split
    · exact hinv
    · exact hinv
  | succ fuel ih =>
    intro s hinv hready
    rw [simple_TBS_loop]
    split
    · exact Run.sat_bind (simple_TBS_body_inv env bound cfg s hinv hready)
        (fun s2 h => ih s2 h.1 h.2)
    · exact hinv

theorem skipLoop_state (START_TRANS : Nat) (st : DriverState) (P : DriverState → Prop)
    (h : P st) (fuel : Nat) :
    ∀ (inFile : IStream) (trans_count : Nat) (done : Bool),
      (skipLoop START_TRANS st fuel inFile trans_count done).sat (fun _ => True) P := by
  induction fuel with
  | zero =>
    intro inFile trans_count done
    rw [skipLoop]
    split
    · exact h
    · trivial
  | succ fuel ih =>
    intro inFile trans_count done
    rw [skipLoop]
    split
    · exact ih _ _ _
    · trivial

theorem simple_TBS_trace_inv {χ : Type} (env : Env χ) (bound : Nat) (cfg : Config)
    (mem : MultiChannelMemorySystem χ) (st : DriverState) (inFile : IStream)
    (hinv : Inv env st) :
    (simple_TBS_trace env bound cfg mem st inFile).sat (Inv env) (Inv env) := by
  unfold simple_TBS_trace
  have hskip : (simple_TBS_skip st bound inFile).sat (fun _ => True) (Inv env) := by
    unfold simple_TBS_skip
    split
    · exact skipLoop_state _ _ _ hinv _ _ _ _
    · trivial
  refine Run.sat_bind hskip (fun skipped _ => ?_)
  refine Run.sat_bind (simple_TBS_loop_inv env bound cfg bound _ hinv
    (fun hp => absurd hp (by simp))) (fun s hs => ?_)
  refine Run.sat_bind (Run.sat_mono (drainLoop_frame env bound s.mem s.st)
    (fun _ h => hs.keeps h) (fun _ h => hs.keeps h)) (fun drained hd => ?_)
  exact hd

/-- Along every run of `simple_TBS` from the start of the process, however it ends, every
submission is timed. -/
theorem simple_TBS_timed {χ : Type} (env : Env χ) (bound : Nat)
    (traceFileName systemIniFilename deviceIniFilename pwdString : List Char)
    (megsOfMemory : Nat) (paramOverrides : OptionsMap) (g : Globals)
    (hsf : g.speedup_factor = 0) (htc : g.trace_cycles = 0) :
    (simple_TBS env bound traceFileName systemIniFilename deviceIniFilename pwdString
      megsOfMemory paramOverrides (DriverState.start g)).sat
        (fun st => Timed env st.events) (fun st => Timed env st.events) := by
  have hstart : Inv env (DriverState.start g) :=
    ⟨trivial, by show g.trace_cycles ≤ _; rw [htc]; exact Nat.zero_le _, hsf⟩
  have hnoted : Inv env ((DriverState.start g).note .construct) :=
    ⟨trivial, by show g.trace_cycles ≤ _; rw [htc]; exact Nat.zero_le _, hsf⟩
  refine Run.sat_mono (P := fun st => Inv env st) (Q := Inv env) ?_ (fun _ h => h.timed)
    (fun _ h => h.timed)
  unfold simple_TBS
  split
  · exact hstart
  · simp only
    split
    · exact hnoted
    · split
      · exact hnoted
      · exact simple_TBS_trace_inv env bound _ _ _ _ hnoted

/-! ### `simple_TBS`: the lines of the trace file -/

theorem traceLinesFrom_append (l rest acc : List Char) (h : '\n' ∉ l) :
    traceLinesFrom (l ++ rest) acc = traceLinesFrom rest (l.reverse ++ acc) := by
  induction l generalizing acc with
  | nil => rfl
  | cons c l ih =>
    have hc : c ≠ '\n' := fun e => h (by simp [e])
    have hl : '\n' ∉ l := fun e => h (by simp [e])
    rw [List.cons_append, traceLinesFrom, if_neg hc, ih _ hl]
    simp

theorem traceLines_cons (l rest : List Char) (h : '\n' ∉ l) :
    traceLines (l ++ '\n' :: rest) = l :: traceLines rest := by
  rw [traceLines, traceLinesFrom_append l _ [] h, traceLinesFrom]
  simp [traceLines]

theorem traceLines_last (l : List Char) (h : '\n' ∉ l) : traceLines l = [l] := by
  have := traceLinesFrom_append l [] [] h
  rw [List.append_nil] at this
  rw [traceLines, this, traceLinesFrom]
  simp

theorem bufferText_of_fits (line : List Char) (h : FitsBuffer line) : bufferText line = line := by
  obtain ⟨hlen, hnul⟩ := h
  rw [bufferText, List.take_of_length_le (by omega)]
  exact List.takeWhile_eq_self_iff.mpr (fun c hc => by
    have : c ≠ '\x00' := fun e => hnul (e ▸ hc)
    simpa using this)

/-- What `getline(char_line, 256)` delivers from a stream that can be read: the text the
buffer holds of the next line of the stream; and a stream that can still be read afterwards
stands at the line after it. -/
theorem getlineBuffer_reads (inFile : IStream) (hgood : inFile.good = true) :
    (getlineBuffer 256 inFile).1
        = bufferText (inFile.buf.takeWhile (fun c => c ≠ '\n')) ∧
      (traceLines inFile.buf)[0]? = some (inFile.buf.takeWhile (fun c => c ≠ '\n')) ∧
      ((getlineBuffer 256 inFile).2.good = true →
        traceLines inFile.buf = inFile.buf.takeWhile (fun c => c ≠ '\n')
          :: traceLines (getlineBuffer 256 inFile).2.buf) := by
  have hsplit := List.takeWhile_append_dropWhile (fun c => decide (c ≠ '\n')) inFile.buf
  have hfree : '\n' ∉ inFile.buf.takeWhile (fun c => decide (c ≠ '\n')) := by
    intro hmem
    have := List.mem_takeWhile_imp hmem
    simp at this
  generalize hL : inFile.buf.takeWhile (fun c => decide (c ≠ '\n')) = L at hsplit hfree
  have hlines : (traceLines inFile.buf)[0]? = some L ∧
      ∀ rest, inFile.buf.dropWhile (fun c => decide (c ≠ '\n')) = '\n' :: rest →
        traceLines inFile.buf = L :: traceLines rest := by
    cases hd : inFile.buf.dropWhile (fun c => decide (c ≠ '\n')) with
    | nil =>
      rw [hd, List.append_nil] at hsplit
      rw [← hsplit, traceLines_last L hfree]
      exact ⟨by simp, fun rest h => by cases h⟩
    | cons d rest =>
      have hhead := List.head_dropWhile_not (fun c => decide (c ≠ '\n')) inFile.buf
        (by rw [hd]; exact List.cons_ne_nil _ _)
      simp only [hd, List.head_cons, decide_eq_false_iff_not, ne_eq, not_not] at hhead
      subst hhead
      rw [hd] at hsplit
      rw [← hsplit, traceLines_cons L rest hfree]
      exact ⟨by simp, fun rest2 h => by rw [(List.cons.inj h).2]⟩
  have hnot : (!inFile.good) = false := by rw [hgood]; rfl
  unfold getlineBuffer
  simp only [hnot, Bool.false_eq_true, if_false, hL]
  by_cases hlen : L.length < 256
  · have htake : bufferText L = L.takeWhile (fun c => decide (c ≠ '\x00')) := by
      rw [bufferText, List.take_of_length_le (by omega)]
    simp only [hlen, if_true]
    cases hd : inFile.buf.dropWhile (fun c => decide (c ≠ '\n')) with
    | nil =>
      refine ⟨htake.symm, hlines.1, fun hg => ?_⟩
      simp [IStream.good] at hg
    | cons d rest =>
      have hhead := List.head_dropWhile_not (fun c => decide (c ≠ '\n')) inFile.buf
        (by rw [hd]; exact List.cons_ne_nil _ _)
      simp only [hd, List.head_cons, decide_eq_false_iff_not, ne_eq, not_not] at hhead
      subst hhead
      exact ⟨htake.symm, hlines.1, fun _ => hlines.2 rest hd⟩
  · simp only [hlen, if_false]
    refine ⟨rfl, hlines.1, fun hg => ?_⟩
    simp [IStream.good] at hg

theorem Run.sat_and {α : Type} {r : Run α} {P P2 : α → Prop} {Q Q2 : DriverState → Prop}
    (h1 : r.sat P Q) (h2 : r.sat P2 Q2) :
    r.sat (fun a => P a ∧ P2 a) (fun st => Q st ∧ Q2 st) := by
  cases r with
  | ok a => exact ⟨h1, h2⟩
  | error e => exact ⟨h1, h2⟩

theorem lastLine_eq_head (es : List Event) : lastLine es = (linesIn es).head? := by
  induction es with
  | nil => rfl
  | cons e es ih => cases e <;> simp [lastLine, linesIn, ih]

theorem LinesAt.last {content : List Char} {skip : Nat} {es : List Event} {text : List Char}
    (h : LinesAt content skip (linesIn es)) (hlast : lastLine es = some text) :
    ∃ line, (traceLines content)[skip + (linesIn es).length - 1]? = some line ∧
      1 ≤ (linesIn es).length ∧ text = bufferText line := by
  rw [lastLine_eq_head] at hlast
  cases htexts : linesIn es with
  | nil => rw [htexts] at hlast; cases hlast
  | cons first texts =>
    rw [htexts] at h hlast
    obtain ⟨⟨line, hline, htext⟩, _⟩ := h
    simp only [List.head?_cons, Option.some.injEq] at hlast
    subst hlast
    refine ⟨line, ?_, by simp, htext⟩
    rw [List.length_cons]
    exact hline

theorem SubmittedFor.of_fits {χ : Type} {env : Env χ} {line : List Char} {t : Transaction}
    {updates : Nat} (h : SubmittedFor env (bufferText line) t updates) (hfits : FitsBuffer line) :
    SubmittedFor env line t updates := by
  rw [bufferText_of_fits line hfits] at h
  exact h

theorem TimedLines.of_timed {χ : Type} (env : Env χ) (content : List Char) (skip : Nat)
    (es : List Event) (h1 : Timed env es) (h2 : LinesAt content skip (linesIn es)) :
    TimedLines env content skip es := by
  induction es with
  | nil => trivial
  | cons e es ih =>
    cases e with
    | addTransaction t result =>
      obtain ⟨⟨text, hlast, hsub⟩, htimed⟩ := h1
      have h3 : LinesAt content skip (linesIn es) := h2
      obtain ⟨line, hline, hpos, htext⟩ := h3.last hlast
      subst htext
      exact ⟨⟨line, hline, hpos, hlast, hsub, fun hfits => hsub.of_fits hfits⟩,
        ih htimed h3⟩
    | line text => exact ih h1 h2.2
    | construct => exact ih h1 h2
    | add_pending t c => exact ih h1 h2
    | update => exact ih h1 h2
    | read_complete a d => exact ih h1 h2
    | write_complete a d => exact ih h1 h2

theorem driverAdd_lines {χ : Type} (env : Env χ) (mem : MultiChannelMemorySystem χ)
    (st : DriverState) (t : Transaction) :
    (driverAdd env mem st t).sat (fun r => linesIn r.2.2.events = linesIn st.events)
      (fun st2 => linesIn st2.events = linesIn st.events) := by
  unfold driverAdd
  split
  · rfl
  · rfl

theorem advanceLoop_lines {χ : Type} (env : Env χ) (trans_cycle fuel : Nat) :
    ∀ (mem : MultiChannelMemorySystem χ) (st : DriverState),
      (advanceLoop env trans_cycle fuel mem st).sat
        (fun r => linesIn r.2.events = linesIn st.events)
        (fun st2 => linesIn st2.events = linesIn st.events) := by
  induction fuel with
  | zero =>
    intro mem st
    rw [advanceLoop]
    split
    · rfl
    · rfl
  | succ fuel ih =>
    intro mem st
    rw [advanceLoop]
    split
    · refine Run.sat_bind (Run.sat_mono (driverUpdate_frame env mem st) (fun _ h => h.1.lines)
        (fun _ h => h.lines)) (fun updated h1 => ?_)
      exact Run.sat_mono (ih updated.1 _) (fun _ h => h.trans h1) (fun _ h => h.trans h1)
    · rfl

theorem simple_TBS_offer_lines {χ : Type} (env : Env χ) (s : SimpleLoop χ) (t : Transaction) :
    (simple_TBS_offer env s t).sat
      (fun s2 => linesIn s2.st.events = linesIn s.st.events ∧ s2.inFile = s.inFile)
      (fun st2 => linesIn st2.events = linesIn s.st.events) := by
  unfold simple_TBS_offer
  refine Run.sat_bind (driverAdd_lines env s.mem s.st t) (fun added h1 => ?_)
  split
  · refine Run.sat_bind (Run.sat_mono (driverAddPending_frame env added.2.2 t _)
      (fun _ h => h.lines.trans h1) (fun _ h => h.lines.trans h1)) (fun st2 h2 => ?_)
    exact ⟨h2, rfl⟩
  · refine Run.sat_bind (Run.sat_mono (driverUpdate_frame env added.2.1 added.2.2)
      (fun _ h => h.1.lines.trans h1) (fun _ h => h.lines.trans h1)) (fun updated h2 => ?_)
    exact ⟨h2, rfl⟩

theorem simple_TBS_throttle_lines {χ : Type} (env : Env χ) (bound : Nat) (s : SimpleLoop χ) :
    (simple_TBS_throttle env bound s).sat
      (fun s2 => linesIn s2.st.events = linesIn s.st.events ∧ s2.inFile = s.inFile)
      (fun st2 => linesIn st2.events = linesIn s.st.events) := by
  unfold simple_TBS_throttle
  split
  · refine Run.sat_bind (Run.sat_mono (throttleLoop_frame env bound s.mem _)
      (fun _ h => h.lines) (fun _ h => h.lines)) (fun throttled h2 => ?_)
    exact ⟨h2, rfl⟩
  · exact ⟨rfl, rfl⟩

theorem simple_TBS_submit_lines {χ : Type} (env : Env χ) (bound : Nat) (s : SimpleLoop χ) :
    (simple_TBS_submit env bound s).sat
      (fun s2 => linesIn s2.st.events = linesIn s.st.events ∧ s2.inFile = s.inFile)
      (fun st2 => linesIn st2.events = linesIn s.st.events) := by
  unfold simple_TBS_submit
  split
  · rfl
  · rename_i t htrans
    refine Run.sat_bind (simple_TBS_offer_lines env s t) (fun s1 h1 => ?_)
    refine Run.sat_bind (Run.sat_mono (simple_TBS_throttle_lines env bound s1)
      (fun _ h => (⟨h.1.trans h1.1, h.2.trans h1.2⟩ :
        _ = linesIn s.st.events ∧ _ = s.inFile))
      (fun _ h => h.trans h1.1)) (fun s2 h2 => ?_)
    have hsame : (simple_TBS_checkDone s2).st = s2.st ∧
        (simple_TBS_checkDone s2).inFile = s2.inFile := by
      unfold simple_TBS_checkDone
      split <;> exact ⟨rfl, rfl⟩
    show linesIn (simple_TBS_checkDone s2).st.events = linesIn s.st.events ∧
      (simple_TBS_checkDone s2).inFile = s.inFile
    rw [hsame.1, hsame.2]
    exact h2

theorem simple_TBS_issue_lines {χ : Type} (env : Env χ) (bound : Nat) (cfg : Config)
    (s : SimpleLoop χ) (trans_cycle addr : Nat) (transType : TransactionType) :
    (simple_TBS_issue env bound cfg s trans_cycle transType addr).sat
      (fun s2 => linesIn s2.st.events = linesIn s.st.events ∧ s2.inFile = s.inFile)
      (fun st2 => linesIn st2.events = linesIn s.st.events) := by
  unfold simple_TBS_issue
  refine Run.sat_bind (advanceLoop_lines env trans_cycle bound s.mem s.st)
    (fun advanced hadv => ?_)
  refine Run.sat_bind (Run.sat_mono (alignedTransaction_sat env advanced.2 transType addr none
    cfg) (fun _ _ => trivial) (fun _ h => by rw [h]; exact hadv)) (fun aligned _ => ?_)
  exact Run.sat_mono (simple_TBS_submit_lines env bound _)
    (fun _ h => ⟨h.1.trans hadv, h.2⟩) (fun _ h => h.trans hadv)

/-- Reading one line from a stream that stands at a line of the file. -/
theorem Reading.read {content : List Char} {skip : Nat} {st : DriverState} {inFile : IStream}
    (h : Reading content skip st inFile) (hgood : inFile.good = true) :
    Reading content skip (st.note (.line (getlineBuffer 256 inFile).1))
      (getlineBuffer 256 inFile).2 := by
  obtain ⟨htext, hhead, hrest⟩ := getlineBuffer_reads inFile hgood
  have hdrop := h.stream hgood
  constructor
  · refine ⟨⟨_, ?_, htext⟩, h.lines⟩
    have := congrArg (fun l => l[0]?) hdrop
    simp only [List.getElem?_drop, Nat.add_zero] at this
    rw [this]
    exact hhead
  · intro hg
    have hlen : (linesIn (st.note (.line (getlineBuffer 256 inFile).1)).events).length
        = (linesIn st.events).length + 1 := rfl
    rw [hlen, ← Nat.add_assoc, ← List.drop_drop, hdrop, hrest hg]
    rfl

theorem simple_TBS_body_reading {χ : Type} (env : Env χ) (bound : Nat) (cfg : Config)
    (s : SimpleLoop χ) (content : List Char) (skip : Nat)
    (h : Reading content skip s.st s.inFile) (hgood : s.inFile.good = true) :
    (simple_TBS_body env bound cfg s).sat
      (fun s2 => Reading content skip s2.st s2.inFile)
      (fun st => LinesAt content skip (linesIn st.events)) := by
  have keep : ∀ (s1 s2 : SimpleLoop χ), Reading content skip s1.st s1.inFile →
      linesIn s2.st.events = linesIn s1.st.events ∧ s2.inFile = s1.inFile →
      Reading content skip s2.st s2.inFile := by
    intro s1 s2 h1 h2
    constructor
    · rw [h2.1]; exact h1.lines
    · rw [h2.1, h2.2]; exact h1.stream
  unfold simple_TBS_body
  split
  · have hread := h.read hgood
    simp only
    split
    · exact hread.lines
    · exact hread
    · rename_i trans_cycle transType addr hparse
      exact Run.sat_mono (simple_TBS_issue_lines env bound cfg _ trans_cycle addr transType)
        (fun s2 h2 => keep _ s2 hread h2) (fun st2 h2 => by rw [h2]; exact hread.lines)
  · exact Run.sat_mono (simple_TBS_submit_lines env bound s)
      (fun s2 h2 => keep s s2 h h2) (fun st2 h2 => by rw [h2]; exact h.lines)

theorem simple_TBS_loop_reading {χ : Type} (env : Env χ) (bound : Nat) (cfg : Config)
    (content : List Char) (skip fuel : Nat) :
    ∀ s : SimpleLoop χ, Reading content skip s.st s.inFile →
      (simple_TBS_loop env bound cfg fuel s).sat
        (fun s2 => LinesAt content skip (linesIn s2.st.events))
        (fun st => LinesAt content skip (linesIn st.events)) := by
  induction fuel with
  | zero =>
    intro s h
    rw [simple_TBS_loop]
    split
    · exact h.lines
    · exact h.lines
  | succ fuel ih =>
    intro s h
    rw [simple_TBS_loop]
    split
    · rename_i hcond
      have hgood : s.inFile.good = true := by
        simp only [Bool.and_eq_true] at hcond
        exact hcond.1
      exact Run.sat_bind (simple_TBS_body_reading env bound cfg s content skip h hgood)
        (fun s2 h2 => ih s2 h2)
    · exact h.lines

theorem skipLoop_position (START_TRANS : Nat) (st : DriverState) (content : List Char)
    (fuel : Nat) :
    ∀ (inFile : IStream) (trans_count : Nat) (done : Bool) (position : Nat)
      (result : IStream × Nat), AtLine content position inFile →
      skipLoop START_TRANS st fuel inFile trans_count done = .ok result →
      ∃ skip, AtLine content skip result.1 := by
  induction fuel with
  | zero =>
    intro inFile trans_count done position result hat hres
    rw [skipLoop] at hres
    split at hres
    · cases hres
    · cases hres
      exact ⟨position, hat⟩
  | succ fuel ih =>
    intro inFile trans_count done position result hat hres
    rw [skipLoop] at hres
    split at hres
    · rename_i hcond
      have hgood : inFile.good = true := by
        simp only [Bool.and_eq_true] at hcond
        exact hcond.1
      obtain ⟨_, _, hrest⟩ := getlineBuffer_reads inFile hgood
      have hnext : AtLine content (position + 1) (getlineBuffer 256 inFile).2 := by
        intro hg
        rw [← List.drop_drop, hat hgood, hrest hg]
        rfl
      exact ih _ _ _ (position + 1) result hnext hres
    · cases hres
      exact ⟨position, hat⟩

theorem simple_TBS_trace_reading {χ : Type} (env : Env χ) (bound : Nat) (cfg : Config)
    (mem : MultiChannelMemorySystem χ) (st : DriverState) (content : List Char)
    (hst : linesIn st.events = []) :
    ∃ skip, (st.g.START_TRANS = 0 → skip = 0) ∧
      (simple_TBS_trace env bound cfg mem st ⟨content, false, false⟩).sat
        (fun st2 => LinesAt content skip (linesIn st2.events))
        (fun st2 => LinesAt content skip (linesIn st2.events)) := by
  have hstart : AtLine content 0 ⟨content, false, false⟩ := fun _ => rfl
  have hnone : ∀ skip, LinesAt content skip (linesIn st.events) := by
    intro skip
    rw [hst]
    trivial
  cases hsk : simple_TBS_skip st bound ⟨content, false, false⟩ with
  | error e =>
    refine ⟨0, fun _ => rfl, ?_⟩
    have hstate : (simple_TBS_skip st bound ⟨content, false, false⟩).sat (fun _ => True)
        (fun st2 => LinesAt content 0 (linesIn st2.events)) := by
      unfold simple_TBS_skip
      split
      · exact skipLoop_state _ _ _ (hnone 0) _ _ _ _
      · trivial
    rw [hsk] at hstate
    unfold simple_TBS_trace
    rw [hsk]
    exact hstate
  | ok skipped =>
    obtain ⟨skip, hzero, hat⟩ : ∃ skip, (st.g.START_TRANS = 0 → skip = 0) ∧
        AtLine content skip skipped.1 := by
      unfold simple_TBS_skip at hsk
      split at hsk
      · rename_i hne
        obtain ⟨skip, hat⟩ := skipLoop_position _ _ content _ _ _ _ 0 skipped hstart hsk
        exact ⟨skip, fun h => absurd h hne, hat⟩
      · cases hsk
        exact ⟨0, fun _ => rfl, hstart⟩
    refine ⟨skip, hzero, ?_⟩
    unfold simple_TBS_trace
    rw [hsk]
    refine Run.sat_bind (r := .ok skipped) (P := fun r => r = skipped) rfl (fun r hr => ?_)
    subst hr
    have hreading : Reading content skip st r.1 :=
      ⟨hnone skip, by rw [hst]; exact hat⟩
    refine Run.sat_bind (simple_TBS_loop_reading env bound cfg content skip bound
      { mem := mem, st := st, inFile := r.1, trans := none, done := false, paused := false,
        trans_count := r.2 } hreading) (fun s hs => ?_)
    refine Run.sat_bind (Run.sat_mono (drainLoop_frame env bound s.mem s.st)
      (fun _ h => h.lines) (fun st2 h => by rw [h.lines]; exact hs)) (fun drained hd => ?_)
    show LinesAt content skip (linesIn drained.2.events)
    rw [hd]
    exact hs

/-- Along every run of `simple_TBS` the lines read are the lines of the trace file, in order
from the first one that is not skipped, each as the line buffer holds it. -/
theorem simple_TBS_reading {χ : Type} (env : Env χ) (bound : Nat)
    (traceFileName systemIniFilename deviceIniFilename pwdString : List Char)
    (megsOfMemory : Nat) (paramOverrides : OptionsMap) (g : Globals) (content : List Char)
    (hopen : env.openInput traceFileName = some content) :
    ∃ skip, (g.START_TRANS = 0 → skip = 0) ∧
      (simple_TBS env bound traceFileName systemIniFilename deviceIniFilename pwdString
        megsOfMemory paramOverrides (DriverState.start g)).sat
          (fun st => LinesAt content skip (linesIn st.events))
          (fun st => LinesAt content skip (linesIn st.events)) := by
  unfold simple_TBS
  by_cases hdev : deviceIniFilename.length = 0
  · rw [if_pos hdev]
    exact ⟨0, fun _ => rfl, trivial⟩
  · rw [if_neg hdev]
    simp only
    cases hcreate : MultiChannelMemorySystem.create env deviceIniFilename systemIniFilename
        pwdString traceFileName megsOfMemory (some paramOverrides) with
    | error e => exact ⟨0, fun _ => rfl, trivial⟩
    | ok mem =>
      simp only [hopen]
      exact simple_TBS_trace_reading env bound _ _ ((DriverState.start g).note .construct)
        content rfl

/-- C8, amended: in `simple_TBS`, for a line of the trace file that fits the line buffer
(fewer than 256 characters, none of them null). When the line is the next one of the stream
and, with everything from the first `#` deleted and the white space around it stripped, is not
empty and splits into three unsigned integers `cycle`, `op`, `addr`, the loop body (with
`speedup_factor = 0`) reads it and goes on to `simple_TBS_issue` with that cycle, the type
READ for an even `op` and WRITE for an odd one, and that address, where `update()` is called
until `trace_cycles` reaches the cycle and the transaction is built and aligned; when it is
empty the body ends with the line read and no transaction built or submitted. And along every
run from the start of the process on the trace file `content`, however the run ends: the lines
are read in the order of the file (from the first line when `START_TRANS` is 0), and each call
of `addTransaction` is made for the line of the file read last; the transaction is the one of
the text the line buffer holds of that line, so for a line that fits it is of the type given by
the line's `op`, with the line's `addr` aligned, and it is submitted after at least `cycle`
calls of `update()`. -/
theorem simple_TBS_lines {χ : Type} (env : Env χ) (bound : Nat)
    (traceFileName systemIniFilename deviceIniFilename pwdString : List Char)
    (megsOfMemory : Nat) (paramOverrides : OptionsMap) (g : Globals) (content : List Char)
    (hsf : g.speedup_factor = 0) (htc : g.trace_cycles = 0)
    (hopen : env.openInput traceFileName = some content) :
    (∀ (cfg : Config) (s : SimpleLoop χ) (line first second third : List Char)
      (cycle op addr : Nat),
      s.paused = false → s.st.g.speedup_factor = 0 → s.inFile.good = true →
      s.inFile.buf.takeWhile (fun c => c ≠ '\n') = line → FitsBuffer line →
      lineBody env line ≠ [] →
      env.split (lineBody env line) = [first, second, third] →
      env.convert_uint64_t first = .ok cycle → env.convert_uint64_t second = .ok op →
      env.convert_uint64_t third = .ok addr →
      simple_TBS_body env bound cfg s
        = simple_TBS_issue env bound cfg
            { s with
              inFile := (getlineBuffer 256 s.inFile).2
              st := s.st.note (.line line) }
            (cycle % 2 ^ 64) (kissType op) (addr % 2 ^ 64)) ∧
    (∀ (cfg : Config) (s : SimpleLoop χ) (line : List Char),
      s.paused = false → s.inFile.good = true →
      s.inFile.buf.takeWhile (fun c => c ≠ '\n') = line → FitsBuffer line →
      lineBody env line = [] →
      simple_TBS_body env bound cfg s
        = .ok { s with
            inFile := (getlineBuffer 256 s.inFile).2
            st := s.st.note (.line line) }) ∧
    (∃ skip, (g.START_TRANS = 0 → skip = 0) ∧
      (simple_TBS env bound traceFileName systemIniFilename deviceIniFilename pwdString
        megsOfMemory paramOverrides (DriverState.start g)).sat
          (fun st => TimedLines env content skip st.events)
          (fun st => TimedLines env content skip st.events)) := by
  have hlen : ∀ line : List Char, FitsBuffer line → line.length < npos := by
    intro line hfits
    have := hfits.1
    rw [npos_eq]
    omega
  have hread : ∀ (s : SimpleLoop χ) (line : List Char), s.inFile.good = true →
      s.inFile.buf.takeWhile (fun c => c ≠ '\n') = line → FitsBuffer line →
      (getlineBuffer 256 s.inFile).1 = line := by
    intro s line hgood hnext hfits
    rw [(getlineBuffer_reads s.inFile hgood).1, hnext, bufferText_of_fits line hfits]
  refine ⟨?_, ?_, ?_⟩
  · intro cfg s line first second third cycle op addr hp hs hgood hnext hfits hne hsplit h0 h1
      h2
    have htext := hread s line hgood hnext hfits
    have hparse := (parseSimpleLine_of_fields env line (hlen line hfits)).1 first second third
      cycle op addr hne hsplit h0 h1 h2
    have hs2 : (s.st.note (.line line)).g.speedup_factor = 0 := hs
    simp only [simple_TBS_body, hp, htext, hs2, hparse, Bool.not_false, if_true]
  · intro cfg s line hp hgood hnext hfits hempty
    have htext := hread s line hgood hnext hfits
    have hparse := (parseSimpleLine_of_fields env line (hlen line hfits)).2
      (s.st.note (.line line)).g.speedup_factor hempty
    simp only [simple_TBS_body, hp, htext, hparse, Bool.not_false, if_true]
  · obtain ⟨skip, hzero, hlines⟩ := simple_TBS_reading env bound traceFileName
      systemIniFilename deviceIniFilename pwdString megsOfMemory paramOverrides g content hopen
    have htimed := simple_TBS_timed env bound traceFileName systemIniFilename
      deviceIniFilename pwdString megsOfMemory paramOverrides g hsf htc
    exact ⟨skip, hzero, Run.sat_mono (Run.sat_and htimed hlines)
      (fun st h => TimedLines.of_timed env content skip st.events h.1 h.2)
      (fun st h => TimedLines.of_timed env content skip st.events h.1 h.2)⟩

/-- C8 (amended) on the concrete platform, for the trace `# t`, `0 0 64`, `3 1 130`: every
submission of the run is made for the line of the file read last; the four lines of the file
are read in order, a read of 64 and a write of 128 are submitted, and the run returns after 4
calls of `update()` with nothing pending. -/
theorem simple_TBS_lines_witness :
    (∃ skip, (Globals.start.START_TRANS = 0 → skip = 0) ∧
      (simple_TBS (demoEnv 1 kissTrace) 20 "t.trc".toList "system.ini".toList
        "device.ini".toList [] 2048 [] (DriverState.start Globals.start)).sat
          (fun st => TimedLines (demoEnv 1 kissTrace) kissTrace skip st.events)
          (fun st => TimedLines (demoEnv 1 kissTrace) kissTrace skip st.events)) ∧
    traceLines kissTrace = ["# t".toList, "0 0 64".toList, "3 1 130".toList, []] ∧
    (simple_TBS (demoEnv 1 kissTrace) 20 "t.trc".toList "system.ini".toList
      "device.ini".toList [] 2048 [] (DriverState.start Globals.start)).toOption.map
        (fun st => (updatesIn st.events, st.g.pending, st.g.trace_cycles,
          (linesIn st.events).reverse, (submissionsIn st.events).reverse))
      = some (4, 0, 3, ["# t".toList, "0 0 64".toList, "3 1 130".toList, []],
          [⟨.DATA_READ, 64, none, ⟨8, 64, 1, 100000, false⟩⟩,
            ⟨.DATA_WRITE, 128, none, ⟨8, 64, 1, 100000, false⟩⟩]) :=
  ⟨(simple_TBS_lines (demoEnv 1 kissTrace) 20 "t.trc".toList "system.ini".toList
    "device.ini".toList [] 2048 [] Globals.start kissTrace rfl rfl rfl).2.2, by decide, rfl⟩

set_option maxRecDepth 100000 in
/-- C8 as stated fails for a line that does not fit the line buffer. The line `0 0`, 251
blanks, `128` has 257 characters and splits into the three unsigned integers 0, 0 and 128, so
its transaction is a read of address 128; the run on the trace that holds this line submits
one transaction, a read of address 0 (the buffer holds `0 0`, 251 blanks, `1`), which is not
the transaction of the line. -/
theorem simple_TBS_long_line :
    longLine.length = 257 ∧
    traceLines longTrace = [longLine, []] ∧
    lineBody (demoEnv 1 longTrace) longLine ≠ [] ∧
    (demoEnv 1 longTrace).split (lineBody (demoEnv 1 longTrace) longLine)
      = ["0".toList, "0".toList, "128".toList] ∧
    ["0".toList, "0".toList, "128".toList].map (demoEnv 1 longTrace).convert_uint64_t
      = [.ok 0, .ok 0, .ok 128] ∧
    alignTransactionAddress (demoEnv 1 longTrace).dramsim_log2
        ⟨kissType 0, 128, none, ⟨8, 64, 1, 100000, false⟩⟩
      = some ⟨.DATA_READ, 128, none, ⟨8, 64, 1, 100000, false⟩⟩ ∧
    (simple_TBS (demoEnv 1 longTrace) 20 "t.trc".toList "system.ini".toList
      "device.ini".toList [] 2048 [] (DriverState.start Globals.start)).toOption.map
        (fun st => (linesIn st.events, submissionsIn st.events))
      = some (["0 0".toList ++ List.replicate 251 ' ' ++ "1".toList],
          [⟨.DATA_READ, 0, none, ⟨8, 64, 1, 100000, false⟩⟩]) ∧
    ∀ updates, ¬ SubmittedFor (demoEnv 1 longTrace) longLine
      ⟨.DATA_READ, 0, none, ⟨8, 64, 1, 100000, false⟩⟩ updates := by
  refine ⟨by decide, by decide, by decide, by decide, rfl, rfl, by decide, ?_⟩
  rintro updates ⟨_, first, second, third, cycle, op, addr, hsplit, _, h1, h2, _, _, halign⟩
  have hs : (demoEnv 1 longTrace).split (lineBody (demoEnv 1 longTrace) longLine)
      = ["0".toList, "0".toList, "128".toList] := by decide
  rw [hs] at hsplit
  simp only [List.cons.injEq, and_true] at hsplit
  obtain ⟨_, hsecond, hthird⟩ := hsplit
  subst hsecond hthird
  have h1b : (demoEnv 1 longTrace).convert_uint64_t "0".toList = .ok 0 := rfl
  have h2b : (demoEnv 1 longTrace).convert_uint64_t "128".toList = .ok 128 := rfl
  rw [h1b] at h1
  rw [h2b] at h2
  cases h1
  cases h2
  exact absurd halign (by decide)

/-! ### `setCPUClockSpeed` -/

/-- C11: after `setCPUClockSpeed(0)` the two clocks of the crosser are equal; after
`setCPUClockSpeed(f)` with `f` not 0 the second clock is `f`; and for every argument the first
clock is the DRAM frequency of the configuration (the value of `1.0/(cfg.tCK*1e-9)`, a
parameter of the embedding), the same whatever the argument, and nothing else of the system
changes. -/
theorem setCPUClockSpeed_clocks {χ : Type} (env : Env χ) (sys : MultiChannelMemorySystem χ) :
    (sys.setCPUClockSpeed env 0).clock2 = (sys.setCPUClockSpeed env 0).clock1 ∧
    (∀ f, f ≠ 0 → (sys.setCPUClockSpeed env f).clock2 = f) ∧
    (∀ f, (sys.setCPUClockSpeed env f).clock1 = env.dramsimClkFreqHz sys.cfg) ∧
    (∀ f g, (sys.setCPUClockSpeed env f).clock1 = (sys.setCPUClockSpeed env g).clock1) ∧
    (∀ f, (sys.setCPUClockSpeed env f).cfg = sys.cfg ∧
      (sys.setCPUClockSpeed env f).channels = sys.channels ∧
      (sys.setCPUClockSpeed env f).currentClockCycle = sys.currentClockCycle) := by
  refine ⟨?_, ?_, ?_, ?_, ?_⟩
  · simp [MultiChannelMemorySystem.setCPUClockSpeed]
  · intro f hf
    simp [MultiChannelMemorySystem.setCPUClockSpeed, hf]
  · intro f
    rfl
  · intro f g
    rfl
  · intro f
    exact ⟨rfl, rfl, rfl⟩

/-- C11 at a concrete system: with the argument 0 both clocks are the DRAM frequency, and with
the argument 3200000000 the second clock is that number. -/
theorem setCPUClockSpeed_clocks_witness :
    ((threeChannels.setCPUClockSpeed (demoEnv 3 []) 0).clock1,
      (threeChannels.setCPUClockSpeed (demoEnv 3 []) 0).clock2,
      (threeChannels.setCPUClockSpeed (demoEnv 3 []) 3200000000).clock1,
      (threeChannels.setCPUClockSpeed (demoEnv 3 []) 3200000000).clock2)
      = (666666666, 666666666, 666666666, 3200000000) ∧
    (threeChannels.setCPUClockSpeed (demoEnv 3 []) 0).clock2
      = (threeChannels.setCPUClockSpeed (demoEnv 3 []) 0).clock1 :=
  ⟨by decide, (setCPUClockSpeed_clocks (demoEnv 3 []) threeChannels).1⟩

/-! ### `TransactionReceiver` -/

theorem PendingMap.find?_pop_front_self (m : PendingMap) (address : Nat) :
    (m.pop_front address).find? address = (m.find? address).map List.tail := by
  induction m with
  | nil => simp [PendingMap.pop_front, PendingMap.find?]
  | cons p m ih =>
    obtain ⟨a, l⟩ := p
    by_cases h : a = address
    · simp [PendingMap.pop_front, PendingMap.find?, h]
    · simp [PendingMap.pop_front, PendingMap.find?, h, ih]

theorem PendingMap.find?_pop_front_other (m : PendingMap) (address other : Nat)
    (h : other ≠ address) : (m.pop_front address).find? other = m.find? other := by
  induction m with
  | nil => simp [PendingMap.pop_front, PendingMap.find?]
  | cons p m ih =>
    obtain ⟨a, l⟩ := p
    by_cases ha : a = address
    · have hne : ¬ a = other := fun e => h (e ▸ ha)
      rw [PendingMap.pop_front, if_pos ha, PendingMap.find?, if_neg hne, PendingMap.find?,
        if_neg hne]
    · rw [PendingMap.pop_front, if_neg ha, PendingMap.find?, PendingMap.find?, ih]

theorem PendingMap.find?_push_back_self (m : PendingMap) (address cycle : Nat) :
    (m.push_back address cycle).find? address
      = some (((m.find? address).getD []) ++ [cycle]) := by
  induction m with
  | nil => simp [PendingMap.push_back, PendingMap.find?]
  | cons p m ih =>
    obtain ⟨a, l⟩ := p
    by_cases h : a = address
    · simp [PendingMap.push_back, PendingMap.find?, h]
    · simp [PendingMap.push_back, PendingMap.find?, h, ih]

theorem PendingMap.find?_push_back_other (m : PendingMap) (address cycle other : Nat)
    (h : other ≠ address) : (m.push_back address cycle).find? other = m.find? other := by
  induction m with
  | nil =>
    have hne : ¬ address = other := fun e => h e.symm
    simp [PendingMap.push_back, PendingMap.find?, hne]
  | cons p m ih =>
    obtain ⟨a, l⟩ := p
    by_cases ha : a = address
    · have hne : ¬ a = other := fun e => h (e ▸ ha)
      rw [PendingMap.push_back, if_pos ha, PendingMap.find?, if_neg hne, PendingMap.find?,
        if_neg hne]
    · rw [PendingMap.push_back, if_neg ha, PendingMap.find?, PendingMap.find?, ih]

/-- C12: `read_complete` ends the run with `exit(-1)` exactly when the map of pending reads
has no entry for the address or an empty list there, and it has no other way to fail; when the
list is `c :: l` it returns, the list of the address is `l` afterwards (exactly the front entry
is gone), the list of every other address is as before and the map of pending writes is
untouched. The same holds of `write_complete` with the two maps exchanged. -/
theorem read_write_complete_pending (r : TransactionReceiver) (g : Globals)
    (A done_cycle : Nat) :
    ((r.read_complete g A done_cycle = .error (.exit (-1)) ↔
        (r.pendingReadRequests.find? A = none ∨ r.pendingReadRequests.find? A = some [])) ∧
      (∀ s, r.read_complete g A done_cycle = .error s → s = .exit (-1)) ∧
      (∀ c l, r.pendingReadRequests.find? A = some (c :: l) →
        ∃ r2 g2, r.read_complete g A done_cycle = .ok (r2, g2) ∧
          r2.pendingReadRequests.find? A = some l ∧
          (∀ B, B ≠ A → r2.pendingReadRequests.find? B = r.pendingReadRequests.find? B) ∧
          r2.pendingWriteRequests = r.pendingWriteRequests)) ∧
    ((r.write_complete g A done_cycle = .error (.exit (-1)) ↔
        (r.pendingWriteRequests.find? A = none ∨ r.pendingWriteRequests.find? A = some [])) ∧
      (∀ s, r.write_complete g A done_cycle = .error s → s = .exit (-1)) ∧
      (∀ c l, r.pendingWriteRequests.find? A = some (c :: l) →
        ∃ r2 g2, r.write_complete g A done_cycle = .ok (r2, g2) ∧
          r2.pendingWriteRequests.find? A = some l ∧
          (∀ B, B ≠ A → r2.pendingWriteRequests.find? B = r.pendingWriteRequests.find? B) ∧
          r2.pendingReadRequests = r.pendingReadRequests)) := by
  constructor
  · cases h : r.pendingReadRequests.find? A with
    | none => simp [TransactionReceiver.read_complete, h]
    | some l =>
      cases l with
      | nil => simp [TransactionReceiver.read_complete, h]
      | cons c l =>
        have hrun : r.read_complete g A done_cycle
            = .ok ({ r with
                pendingReadRequests := r.pendingReadRequests.pop_front A
                numReads := (r.numReads + 1) % 2 ^ 32 }, g.countCompletion done_cycle) := by
          simp [TransactionReceiver.read_complete, h]
        refine ⟨by simp [hrun], by simp [hrun], ?_⟩
        intro c2 l2 e
        obtain ⟨rfl, rfl⟩ : c = c2 ∧ l = l2 := by simpa using e
        refine ⟨_, _, hrun, ?_, ?_, rfl⟩
        · simp [PendingMap.find?_pop_front_self, h]
        · intro B hB
          exact PendingMap.find?_pop_front_other _ _ _ hB
  · cases h : r.pendingWriteRequests.find? A with
    | none => simp [TransactionReceiver.write_complete, h]
    | some l =>
      cases l with
      | nil => simp [TransactionReceiver.write_complete, h]
      | cons c l =>
        have hrun : r.write_complete g A done_cycle
            = .ok ({ r with
                pendingWriteRequests := r.pendingWriteRequests.pop_front A
                numWrites := (r.numWrites + 1) % 2 ^ 32 }, g.countCompletion done_cycle) := by
          simp [TransactionReceiver.write_complete, h]
        refine ⟨by simp [hrun], by simp [hrun], ?_⟩
        intro c2 l2 e
        obtain ⟨rfl, rfl⟩ : c = c2 ∧ l = l2 := by simpa using e
        refine ⟨_, _, hrun, ?_, ?_, rfl⟩
        · simp [PendingMap.find?_pop_front_self, h]
        · intro B hB
          exact PendingMap.find?_pop_front_other _ _ _ hB

/-- C12 at a concrete receiver: with the reads `[5, 9]` pending at address 64 and a write
pending at 128, `read_complete` at 64 leaves `[9]` there and the writes as they were, and
`read_complete` at 128, where no read is pending, ends the run. -/
theorem read_write_complete_pending_witness :
    (∃ r2 g2,
      TransactionReceiver.read_complete ⟨[(64, [5, 9])], [(128, [7])], 0, 0⟩ Globals.start 64 20
        = .ok (r2, g2) ∧
      r2.pendingReadRequests.find? 64 = some [9] ∧
      (∀ B, B ≠ 64 → r2.pendingReadRequests.find? B
        = PendingMap.find? [(64, [5, 9])] B) ∧
      r2.pendingWriteRequests = [(128, [7])]) ∧
    TransactionReceiver.read_complete ⟨[(64, [5, 9])], [(128, [7])], 0, 0⟩ Globals.start 128 20
      = .error (.exit (-1)) :=
  ⟨(read_write_complete_pending ⟨[(64, [5, 9])], [(128, [7])], 0, 0⟩ Globals.start 64
      20).1.2.2 5 [9] (by decide),
    (read_write_complete_pending ⟨[(64, [5, 9])], [(128, [7])], 0, 0⟩ Globals.start 128
      20).1.1.2 (Or.inl (by decide))⟩

theorem ReceiverCall.run_pendingAt (r : TransactionReceiver) (g : Globals) (call : ReceiverCall)
    (isWrite : Bool) (A : Nat) (r2 : TransactionReceiver) (g2 : Globals) (log : List Matched)
    (h : call.run r g = .ok (r2, g2, log)) :
    matchedCycles isWrite A log ++ r2.pendingAt isWrite A
      = r.pendingAt isWrite A ++ addedCycles isWrite A [call] := by
  cases call with
  | add_pending t cycle =>
    simp only [ReceiverCall.run, TransactionReceiver.add_pending] at h
    cases ht : t.transactionType with
    | DATA_READ =>
      simp only [ht] at h
      obtain ⟨rfl, rfl, rfl⟩ : _ ∧ _ ∧ _ := by simpa using h
      cases isWrite with
      | true =>
        simp [matchedCycles, addedCycles, TransactionReceiver.pendingAt, kindType, ht]
      | false =>
        by_cases hA : t.address = A
        · subst hA
          simp [matchedCycles, addedCycles, TransactionReceiver.pendingAt, kindType, ht,
            PendingMap.find?_push_back_self]
        · have hA2 : A ≠ t.address := fun e => hA e.symm
          simp [matchedCycles, addedCycles, TransactionReceiver.pendingAt, kindType, ht, hA,
            PendingMap.find?_push_back_other _ _ _ _ hA2]
    | DATA_WRITE =>
      simp only [ht] at h
      obtain ⟨rfl, rfl, rfl⟩ : _ ∧ _ ∧ _ := by simpa using h
      cases isWrite with
      | false =>
        simp [matchedCycles, addedCycles, TransactionReceiver.pendingAt, kindType, ht]
      | true =>
        by_cases hA : t.address = A
        · subst hA
          simp [matchedCycles, addedCycles, TransactionReceiver.pendingAt, kindType, ht,
            PendingMap.find?_push_back_self]
        · have hA2 : A ≠ t.address := fun e => hA e.symm
          simp [matchedCycles, addedCycles, TransactionReceiver.pendingAt, kindType, ht, hA,
            PendingMap.find?_push_back_other _ _ _ _ hA2]
    | RETURN_DATA =>
      simp [ht] at h
  | read_complete address done_cycle =>
    simp only [ReceiverCall.run, TransactionReceiver.read_complete] at h
    cases hf : r.pendingReadRequests.find? address with
    | none => simp [hf] at h
    | some l =>
      cases l with
      | nil => simp [hf] at h
      | cons c l =>
        simp only [hf] at h
        obtain ⟨rfl, rfl, rfl⟩ : _ ∧ _ ∧ _ := by simpa using h
        cases isWrite with
        | true =>
          simp [matchedCycles, addedCycles, TransactionReceiver.pendingAt]
        | false =>
          by_cases hA : address = A
          · subst hA
            simp [matchedCycles, addedCycles, TransactionReceiver.pendingAt, PendingMap.front,
              hf, PendingMap.find?_pop_front_self]
          · have hA2 : A ≠ address := fun e => hA e.symm
            simp [matchedCycles, addedCycles, TransactionReceiver.pendingAt, hA,
              PendingMap.find?_pop_front_other _ _ _ hA2]
  | write_complete address done_cycle =>
    simp only [ReceiverCall.run, TransactionReceiver.write_complete] at h
    cases hf : r.pendingWriteRequests.find? address with
    | none => simp [hf] at h
    | some l =>
      cases l with
      | nil => simp [hf] at h
      | cons c l =>
        simp only [hf] at h
        obtain ⟨rfl, rfl, rfl⟩ : _ ∧ _ ∧ _ := by simpa using h
        cases isWrite with
        | false =>
          simp [matchedCycles, addedCycles, TransactionReceiver.pendingAt]
        | true =>
          by_cases hA : address = A
          · subst hA
            simp [matchedCycles, addedCycles, TransactionReceiver.pendingAt, PendingMap.front,
              hf, PendingMap.find?_pop_front_self]
          · have hA2 : A ≠ address := fun e => hA e.symm
            simp [matchedCycles, addedCycles, TransactionReceiver.pendingAt, hA,
              PendingMap.find?_pop_front_other _ _ _ hA2]

theorem addedCycles_cons (isWrite : Bool) (A : Nat) (call : ReceiverCall)
    (calls : List ReceiverCall) :
    addedCycles isWrite A (call :: calls)
      = addedCycles isWrite A [call] ++ addedCycles isWrite A calls := by
  cases call with
  | add_pending t cycle =>
    by_cases h : t.transactionType = kindType isWrite ∧ t.address = A
    · simp [addedCycles, h]
    · simp [addedCycles, h]
  | read_complete address done_cycle => simp [addedCycles]
  | write_complete address done_cycle => simp [addedCycles]

theorem matchedCycles_append (isWrite : Bool) (A : Nat) (l1 l2 : List Matched) :
    matchedCycles isWrite A (l1 ++ l2)
      = matchedCycles isWrite A l1 ++ matchedCycles isWrite A l2 := by
  simp [matchedCycles]

theorem runCalls_pendingAt (calls : List ReceiverCall) (r : TransactionReceiver) (g : Globals)
    (isWrite : Bool) (A : Nat) (r2 : TransactionReceiver) (g2 : Globals) (log : List Matched)
    (h : runCalls r g calls = .ok (r2, g2, log)) :
    matchedCycles isWrite A log ++ r2.pendingAt isWrite A
      = r.pendingAt isWrite A ++ addedCycles isWrite A calls := by
  induction calls generalizing r g log with
  | nil =>
    simp only [runCalls] at h
    obtain ⟨rfl, rfl, rfl⟩ : _ ∧ _ ∧ _ := by simpa using h
    simp [matchedCycles, addedCycles]
  | cons call calls ih =>
    simp only [runCalls] at h
    cases h1 : call.run r g with
    | error s => simp [h1] at h
    | ok out1 =>
      obtain ⟨r1, g1, first⟩ := out1
      simp only [h1] at h
      cases h2 : runCalls r1 g1 calls with
      | error s => simp [h2] at h
      | ok out2 =>
        obtain ⟨r3, g3, rest⟩ := out2
        simp only [h2] at h
        obtain ⟨rfl, rfl, rfl⟩ : _ ∧ _ ∧ _ := by simpa using h
        have e1 := ReceiverCall.run_pendingAt r g call isWrite A r1 g1 first h1
        have e2 := ih r1 g1 rest h2
        rw [addedCycles_cons, matchedCycles_append, List.append_assoc, e2, ← List.append_assoc,
          e1, List.append_assoc]

/-- C13: on a receiver that holds nothing pending of a kind (read or write) at an address `A`,
as is every receiver its constructor has just built, for every sequence of calls of
`add_pending`, `read_complete` and `write_complete` that does not end the run: the added
cycles that the completions of that kind at `A` took off the list, in order, are the first so
many of the cycles passed to the calls of `add_pending` of that kind at `A`, in order; so the
`j`-th completion is matched with the cycle of the `j`-th `add_pending`, and what was added and
not matched is what is still pending. -/
theorem receiver_fifo (calls : List ReceiverCall) (r : TransactionReceiver) (g : Globals)
    (isWrite : Bool) (A : Nat) (r2 : TransactionReceiver) (g2 : Globals) (log : List Matched)
    (hstart : r.pendingAt isWrite A = [])
    (h : runCalls r g calls = .ok (r2, g2, log)) :
    matchedCycles isWrite A log
        = (addedCycles isWrite A calls).take (matchedCycles isWrite A log).length ∧
      (∀ (j c : Nat), (matchedCycles isWrite A log)[j]? = some c →
        (addedCycles isWrite A calls)[j]? = some c) ∧
      addedCycles isWrite A calls = matchedCycles isWrite A log ++ r2.pendingAt isWrite A := by
  have e := runCalls_pendingAt calls r g isWrite A r2 g2 log h
  rw [hstart, List.nil_append] at e
  refine ⟨?_, ?_, e.symm⟩
  · rw [← e]
    simp
  · intro j c hj
    rw [← e]
    have hlt : j < (matchedCycles isWrite A log).length := by
      by_contra hge
      rw [List.getElem?_eq_none (by omega)] at hj
      cases hj
    rw [List.getElem?_append_left hlt]
    exact hj

/-- C13 at a concrete sequence on a new receiver: two reads and a write are added at address
64 at cycles 3, 5 and 4, a read at 128 at cycle 1, and then two reads at 64 complete: they are
matched with 3 and then 5. -/
theorem receiver_fifo_witness :
    runCalls ⟨[], [], 0, 0⟩ Globals.start fifoCalls
      = .ok (⟨[(64, []), (128, [1])], [(64, [4])], 2, 0⟩,
          { Globals.start with complete := 2, pending := 2 ^ 64 - 2 },
          [⟨false, 64, 3⟩, ⟨false, 64, 5⟩]) ∧
    matchedCycles false 64 [⟨false, 64, 3⟩, ⟨false, 64, 5⟩] = [3, 5] ∧
    addedCycles false 64 fifoCalls = [3, 5] ∧
    ∀ (j c : Nat),
      (matchedCycles false 64 [⟨false, 64, 3⟩, ⟨false, 64, 5⟩])[j]? = some c →
        (addedCycles false 64 fifoCalls)[j]? = some c :=
  ⟨rfl, by decide, by decide,
    (receiver_fifo fifoCalls ⟨[], [], 0, 0⟩ Globals.start false 64
      ⟨[(64, []), (128, [1])], [(64, [4])], 2, 0⟩
      { Globals.start with complete := 2, pending := 2 ^ 64 - 2 }
      [⟨false, 64, 3⟩, ⟨false, 64, 5⟩] (by decide) rfl).2.1⟩

/-! ### `findChannelNumber` and `willAcceptTransaction` -/

/-- C14: whenever `findChannelNumber` returns a channel it is below `NUM_CHANS`, and so, in a
system the constructor has built, below the number of channels, and `addTransaction` indexes
`channels` in bounds. With `NUM_CHANS = 1` it returns 0 for every address; with `NUM_CHANS` a
power of two greater than 1 it returns the channel `addressMapping` computes (an `unsigned`)
when that is below `NUM_CHANS` and aborts otherwise; with `NUM_CHANS` greater than 1 and not a
power of two it aborts for every address. -/
theorem findChannelNumber_in_bounds {χ : Type} (env : Env χ) (sys : MultiChannelMemorySystem χ)
    (addr : Nat) :
    (∀ c, sys.findChannelNumber env addr = .ok c → c < sys.cfg.NUM_CHANS) ∧
    (∀ c, sys.channels.length = sys.cfg.NUM_CHANS → sys.findChannelNumber env addr = .ok c →
      c < sys.channels.length ∧
        ∀ t, t.address = addr → sys.addTransaction env t ≠ .error .undefined) ∧
    (sys.cfg.NUM_CHANS = 1 → sys.findChannelNumber env addr = .ok 0) ∧
    (1 < sys.cfg.NUM_CHANS → (∃ k, sys.cfg.NUM_CHANS = 2 ^ k) →
      (env.addressMapping addr sys.cfg % 2 ^ 32 < sys.cfg.NUM_CHANS →
        sys.findChannelNumber env addr = .ok (env.addressMapping addr sys.cfg % 2 ^ 32)) ∧
      (sys.cfg.NUM_CHANS ≤ env.addressMapping addr sys.cfg % 2 ^ 32 →
        sys.findChannelNumber env addr = .error .abort)) ∧
    (1 < sys.cfg.NUM_CHANS → (¬ ∃ k, sys.cfg.NUM_CHANS = 2 ^ k) →
      sys.findChannelNumber env addr = .error .abort) := by
  have hbound : ∀ c, sys.findChannelNumber env addr = .ok c → c < sys.cfg.NUM_CHANS := by
    intro c h
    unfold MultiChannelMemorySystem.findChannelNumber at h
    split at h
    · rename_i h1
      cases h
      omega
    · split at h
      · cases h
      · dsimp only at h
        split at h
        · cases h
        · rename_i hlt
          cases h
          omega
  refine ⟨hbound, ?_, ?_, ?_, ?_⟩
  · intro c hlen h
    have hc : c < sys.channels.length := by
      rw [hlen]
      exact hbound c h
    refine ⟨hc, ?_⟩
    intro t ht
    subst ht
    obtain ⟨channel, hch⟩ : ∃ channel, sys.channels[c]? = some channel :=
      ⟨sys.channels[c], List.getElem?_eq_getElem hc⟩
    simp [MultiChannelMemorySystem.addTransaction, h, hch, bind, Except.bind, pure,
      Except.pure]
  · intro h1
    simp [MultiChannelMemorySystem.findChannelNumber, h1]
  · intro h1 hpow
    have hne : sys.cfg.NUM_CHANS ≠ 1 := by omega
    have hp : isPowerOfTwo sys.cfg.NUM_CHANS = true := (isPowerOfTwo_iff _).mpr hpow
    unfold MultiChannelMemorySystem.findChannelNumber
    generalize env.addressMapping addr sys.cfg % 2 ^ 32 = m
    constructor
    · intro hlt
      have : ¬ m ≥ sys.cfg.NUM_CHANS := by omega
      simp [hne, hp, this]
    · intro hge
      have : m ≥ sys.cfg.NUM_CHANS := hge
      simp [hne, hp, this]
  · intro h1 hpow
    have hne : sys.cfg.NUM_CHANS ≠ 1 := by omega
    have hp : isPowerOfTwo sys.cfg.NUM_CHANS = false := by
      cases h : isPowerOfTwo sys.cfg.NUM_CHANS with
      | false => rfl
      | true => exact absurd ((isPowerOfTwo_iff _).mp h) hpow
    simp [MultiChannelMemorySystem.findChannelNumber, hne, hp]

/-- C14 at a concrete system with four channels: the address 0x140 maps to channel 1, which
is below 4. -/
theorem findChannelNumber_in_bounds_witness :
    MultiChannelMemorySystem.findChannelNumber (demoEnv 4 []) fourChannels 0x140 = .ok 1 ∧
    (1 : Nat) < fourChannels.cfg.NUM_CHANS :=
  ⟨rfl, (findChannelNumber_in_bounds (demoEnv 4 []) fourChannels 0x140).1 1 rfl⟩

theorem willAcceptFrom_false {χ : Type} (env : Env χ) (channels : List χ) (n start c : Nat)
    (channel : χ) (h1 : start ≤ c) (h2 : c < start + n) (hc : channels[c]? = some channel)
    (hno : env.WillAcceptTransaction channel = false) :
    willAcceptFrom env channels n start = some false := by
  induction n generalizing start with
  | zero => omega
  | succ n ih =>
    have hlt : c < channels.length := by
      by_contra hge
      rw [List.getElem?_eq_none (by omega)] at hc
      cases hc
    have hs : start < channels.length := by omega
    rw [willAcceptFrom, List.get?_eq_getElem?, List.getElem?_eq_getElem hs]
    dsimp only
    by_cases hacc : env.WillAcceptTransaction channels[start] = true
    · have hne : start ≠ c := by
        intro e
        subst e
        rw [List.getElem?_eq_getElem hs] at hc
        cases hc
        rw [hno] at hacc
        cases hacc
      rw [hacc]
      simp only [Bool.not_true, Bool.false_eq_true, if_false]
      exact ih (start + 1) (by omega) (by omega)
    · simp [hacc]

theorem willAcceptFrom_true {χ : Type} (env : Env χ) (channels : List χ) (n start : Nat)
    (h : ∀ c, start ≤ c → c < start + n →
      ∃ channel, channels[c]? = some channel ∧ env.WillAcceptTransaction channel = true) :
    willAcceptFrom env channels n start = some true := by
  induction n generalizing start with
  | zero => rfl
  | succ n ih =>
    obtain ⟨channel, hc, hacc⟩ := h start (Nat.le_refl _) (by omega)
    rw [willAcceptFrom, List.get?_eq_getElem?, hc]
    simp only [hacc, Bool.not_true, Bool.false_eq_true, if_false]
    exact ih (start + 1) (fun c h1 h2 => h c (by omega) (by omega))

/-- C16: in a system with `NUM_CHANS` channels, `willAcceptTransaction()` returns, and it
returns true iff every channel `0 .. NUM_CHANS-1` reports `WillAcceptTransaction() = true`;
and it returns false as soon as a channel will not accept: with a channel `c < NUM_CHANS` that
refuses the answer is false whatever the channels after `c` are (even were there fewer than
`NUM_CHANS` of them). -/
theorem willAcceptTransaction_all {χ : Type} (env : Env χ) (sys : MultiChannelMemorySystem χ) :
    (sys.channels.length = sys.cfg.NUM_CHANS →
      ∃ answer, sys.willAcceptTransaction env = some answer ∧
        (answer = true ↔ ∀ c, c < sys.cfg.NUM_CHANS →
          ∃ channel, sys.channels[c]? = some channel ∧
            env.WillAcceptTransaction channel = true)) ∧
    (∀ c channel, c < sys.cfg.NUM_CHANS → sys.channels[c]? = some channel →
      env.WillAcceptTransaction channel = false →
      ∀ later, ({ sys with channels := sys.channels.take (c + 1) ++ later }
        : MultiChannelMemorySystem χ).willAcceptTransaction env = some false) := by
  constructor
  · intro hlen
    by_cases hall : ∀ c, c < sys.cfg.NUM_CHANS →
        ∃ channel, sys.channels[c]? = some channel ∧ env.WillAcceptTransaction channel = true
    · refine ⟨true, ?_, ⟨fun _ => hall, fun _ => rfl⟩⟩
      exact willAcceptFrom_true env sys.channels sys.cfg.NUM_CHANS 0
        (fun c _ h2 => hall c (by omega))
    · refine ⟨false, ?_, ⟨fun e => Bool.noConfusion e, fun e => absurd e hall⟩⟩
      push_neg at hall
      obtain ⟨c, hc, hno⟩ := hall
      have hlt : c < sys.channels.length := by omega
      have hget : sys.channels[c]? = some sys.channels[c] := List.getElem?_eq_getElem hlt
      have hrefuse : env.WillAcceptTransaction sys.channels[c] = false := by
        cases hw : env.WillAcceptTransaction sys.channels[c] with
        | false => rfl
        | true => exact absurd hw (hno _ hget)
      exact willAcceptFrom_false env sys.channels sys.cfg.NUM_CHANS 0 c _ (Nat.zero_le _)
        (by omega) hget hrefuse
  · intro c channel hc hget hno later
    have hlt : c < sys.channels.length := by
      by_contra hge
      rw [List.getElem?_eq_none (by omega)] at hget
      cases hget
    have hget2 : (sys.channels.take (c + 1) ++ later)[c]? = some channel := by
      rw [List.getElem?_append_left (by simp; omega), List.getElem?_take_of_lt (by omega)]
      exact hget
    exact willAcceptFrom_false env _ sys.cfg.NUM_CHANS 0 c channel (Nat.zero_le _) (by omega)
      hget2 hno

/-- C16 at a concrete system with four channels: with every queue short the answer is true,
and with two transactions waiting in channel 2 it is false. -/
theorem willAcceptTransaction_all_witness :
    MultiChannelMemorySystem.willAcceptTransaction (demoEnv 4 []) fourChannels = some true ∧
    MultiChannelMemorySystem.willAcceptTransaction (demoEnv 4 [])
      { fourChannels with channels := [[], [], [(false, 128), (true, 384)], []] } = some false ∧
    ∃ answer, MultiChannelMemorySystem.willAcceptTransaction (demoEnv 4 []) fourChannels
        = some answer ∧
      (answer = true ↔ ∀ c, c < fourChannels.cfg.NUM_CHANS →
        ∃ channel, fourChannels.channels[c]? = some channel ∧
          (demoEnv 4 []).WillAcceptTransaction channel = true) :=
  ⟨rfl, rfl, (willAcceptTransaction_all (demoEnv 4 []) fourChannels).1 rfl⟩

/-! ### `FilenameWithNumberSuffix`: the suffix that is found -/

theorem toDigitsCore_length_eq (fuel n : Nat) (ds : List Char) (h : n < fuel) :
    (Nat.toDigitsCore 10 fuel n ds).length = ds.length + Nat.log 10 n + 1 := by
  induction fuel generalizing n ds with
  | zero => omega
  | succ fuel ih =>
    rw [Nat.toDigitsCore]
    by_cases h0 : n / 10 = 0
    · rw [if_pos h0]
      have hlt : n < 10 := by omega
      rw [Nat.log_of_lt hlt]
      simp
    · rw [if_neg h0]
      have hge : 10 ≤ n := by omega
      rw [ih (n / 10) _ (by omega)]
      have hlog : Nat.log 10 n = Nat.log 10 (n / 10) + 1 :=
        Nat.log_of_one_lt_of_le (by decide) hge
      rw [hlog, List.length_cons]
      omega

theorem decimalText_length (n : Nat) : (decimalText n).length = Nat.log 10 n + 1 := by
  rw [decimalText, Nat.toDigits, toDigitsCore_length_eq _ _ _ (Nat.lt_succ_self n)]
  simp

theorem decimalText_length_mono {j i : Nat} (h : j ≤ i) :
    (decimalText j).length ≤ (decimalText i).length := by
  rw [decimalText_length, decimalText_length]
  have := Nat.log_mono_right (b := 10) h
  omega

theorem streamWrite_cover (buffer text : List Char) (h : buffer.length ≤ text.length) :
    streamWrite buffer 0 text = text := by
  simp [streamWrite, List.drop_eq_nil_of_le h]

theorem suffixLoop_finds (stat : List Char → StatResult) (filename extension : List Char)
    (maxNumber k : Nat) (hk : k + 1 < maxNumber)
    (hfree : fileExists stat (filename ++ '.' :: decimalText k ++ extension) = false)
    (n i j : Nat) (cur : List Char) (hj1 : 1 ≤ j) (hjk : j ≤ k)
    (hj : j = i - 1 ∨ (i = 1 ∧ j = 1)) (hfuel : k + 2 ≤ n + i)
    (htaken : ∀ m, j ≤ m → m < k →
      fileExists stat (filename ++ '.' :: decimalText m ++ extension) = true) :
    suffixLoop stat filename extension maxNumber n i ('.' :: decimalText j) cur
      = filename ++ '.' :: decimalText k ++ extension := by
  induction n generalizing i j cur with
  | zero => omega
  | succ n ih =>
    have hi : i < maxNumber := by omega
    rw [suffixLoop, if_pos hi]
    dsimp only
    by_cases hjk2 : j = k
    · subst hjk2
      simp only [List.append_assoc] at hfree ⊢
      rw [hfree]
      simp
    · have hex := htaken j (Nat.le_refl _) (by omega)
      simp only [List.append_assoc] at hex ⊢
      rw [hex, if_pos rfl]
      have hji : j ≤ i := by omega
      have hw : streamWrite ('.' :: decimalText j) 0 ('.' :: decimalText i)
          = '.' :: decimalText i :=
        streamWrite_cover _ _ (by
          simp only [List.length_cons]
          have := decimalText_length_mono hji
          omega)
      rw [hw]
      have := ih (i + 1) i filename (by omega) (by omega) (Or.inl (by omega)) (by omega)
        (fun m h1 h2 => htaken m (by omega) h2)
      simpa only [List.append_assoc] using this

/-- C17: when `filename ++ extension` exists, `k ≥ 1` is the least number for which
`filename ++ "." ++ k ++ extension` does not exist (every smaller suffix from 1 on exists) and
`k ≤ maxNumber - 2` (so `maxNumber ≥ 3`), `FilenameWithNumberSuffix` returns exactly
`filename ++ "." ++ k ++ extension`, a name that does not exist. -/
theorem FilenameWithNumberSuffix_least_free (stat : List Char → StatResult)
    (filename extension : List Char) (maxNumber k : Nat)
    (hbase : fileExists stat (filename ++ extension) = true)
    (hk1 : 1 ≤ k) (hk : k ≤ maxNumber - 2)
    (htaken : ∀ m, 1 ≤ m → m < k →
      fileExists stat (filename ++ '.' :: decimalText m ++ extension) = true)
    (hfree : fileExists stat (filename ++ '.' :: decimalText k ++ extension) = false) :
    FilenameWithNumberSuffix stat filename extension maxNumber
        = filename ++ '.' :: decimalText k ++ extension ∧
      fileExists stat (FilenameWithNumberSuffix stat filename extension maxNumber) = false ∧
      3 ≤ maxNumber := by
  have hres : FilenameWithNumberSuffix stat filename extension maxNumber
      = filename ++ '.' :: decimalText k ++ extension := by
    rw [FilenameWithNumberSuffix]
    dsimp only
    rw [hbase]
    simp only [Bool.not_true, Bool.false_eq_true, if_false]
    have hw : streamWrite [] 0 ('.' :: decimalText 1) = '.' :: decimalText 1 :=
      streamWrite_cover _ _ (by simp)
    rw [hw]
    exact suffixLoop_finds stat filename extension maxNumber k (by omega) hfree maxNumber 1 1 _
      (Nat.le_refl _) hk1 (Or.inr ⟨rfl, rfl⟩) (by omega) htaken
  refine ⟨hres, ?_, by omega⟩
  rw [hres]
  exact hfree

/-- C17 at a concrete file system: `dramsim.log`, `dramsim.1.log` and `dramsim.2.log` exist,
and the name returned is `dramsim.3.log`. -/
theorem FilenameWithNumberSuffix_least_free_witness :
    FilenameWithNumberSuffix statThreeLogs "dramsim".toList ".log".toList 100
      = "dramsim.3.log".toList ∧
    fileExists statThreeLogs
      (FilenameWithNumberSuffix statThreeLogs "dramsim".toList ".log".toList 100) = false :=
  ⟨(FilenameWithNumberSuffix_least_free statThreeLogs "dramsim".toList ".log".toList 100 3
      (by decide) (by decide) (by decide)
      (fun m h1 h2 => by interval_cases m <;> decide) (by decide)).1,
    (FilenameWithNumberSuffix_least_free statThreeLogs "dramsim".toList ".log".toList 100 3
      (by decide) (by decide) (by decide)
      (fun m h1 h2 => by interval_cases m <;> decide) (by decide)).2.1⟩

/-! ### `parseParamOverrides`: every input -/

theorem findFrom_spec (c : Char) (l : List Char) (i : Nat) :
    findFrom c l i = npos ∨
      (i ≤ findFrom c l i ∧ findFrom c l i < i + l.length ∧
        l[findFrom c l i - i]? = some c) := by
  induction l generalizing i with
  | nil => exact Or.inl rfl
  | cons d l ih =>
    rw [findFrom]
    by_cases h : d = c
    · rw [if_pos h]
      right
      simp [h]
    · rw [if_neg h]
      rcases ih (i + 1) with h1 | ⟨h1, h2, h3⟩
      · exact Or.inl h1
      · right
        refine ⟨by omega, by simp only [List.length_cons]; omega, ?_⟩
        have e : findFrom c l (i + 1) - i = (findFrom c l (i + 1) - (i + 1)) + 1 := by omega
        rw [e, List.getElem?_cons_succ]
        exact h3

theorem find_spec (s : List Char) (c : Char) (pos : Nat) :
    find s c pos = npos ∨
      (pos ≤ find s c pos ∧ find s c pos < s.length ∧ s[find s c pos]? = some c) := by
  rw [find]
  rcases findFrom_spec c (s.drop pos) pos with h | ⟨h1, h2, h3⟩
  · exact Or.inl h
  · right
    rw [List.length_drop] at h2
    rw [List.getElem?_drop] at h3
    have e : pos + (findFrom c (List.drop pos s) pos - pos) = findFrom c (List.drop pos s) pos := by
      omega
    rw [e] at h3
    exact ⟨h1, by omega, h3⟩

theorem find_of_not_mem (s : List Char) (c : Char) (pos : Nat) (h : c ∉ s) :
    find s c pos = npos := by
  rcases find_spec s c pos with h1 | ⟨_, h2, h3⟩
  · exact h1
  · exact absurd (List.getElem?_mem h3) h

theorem parseParamOverridesLoop_step (kv_str : List Char) (hlen : kv_str.length < npos)
    (start : Nat) (hfound : find kv_str '=' start ≠ npos) :
    ∃ key value next,
      start ≤ kv_str.length ∧
      substr kv_str start (sizeSub (find kv_str '=' start) start) = .ok key ∧
      sizeAdd (find kv_str '=' start) 1 ≤ kv_str.length ∧
      start + 2 ≤ next ∧ next ≤ kv_str.length + 1 ∧
      ∀ fuel kv_map, parseParamOverridesLoop kv_str (fuel + 1) start kv_map
        = parseParamOverridesLoop kv_str fuel next (kv_map.assign key value) := by
  rw [npos_eq] at hlen
  rcases find_spec kv_str '=' start with h | ⟨h1, h2, h3⟩
  · exact absurd h hfound
  · obtain ⟨eq, heq⟩ : ∃ eq, find kv_str '=' start = eq := ⟨_, rfl⟩
    rw [heq] at h1 h2 h3 hfound
    simp only [heq]
    have hmod : kv_str.length % 2 ^ 64 = kv_str.length :=
      Nat.mod_eq_of_lt (by rw [pow64_eq]; omega)
    obtain ⟨comma, hcomma, hc1, hc2⟩ : ∃ comma,
        (if find kv_str ',' eq = npos then kv_str.length % 2 ^ 64 else find kv_str ',' eq)
          = comma ∧ eq < comma ∧ comma ≤ kv_str.length := by
      rcases find_spec kv_str ',' eq with h | ⟨k1, k2, k3⟩
      · exact ⟨kv_str.length, by rw [if_pos h, hmod], h2, Nat.le_refl _⟩
      · have hne : find kv_str ',' eq ≠ npos := by rw [npos_eq]; omega
        have hne2 : find kv_str ',' eq ≠ eq := by
          intro e
          rw [e, h3] at k3
          exact absurd k3 (by decide)
        exact ⟨_, by rw [if_neg hne], by omega, by omega⟩
    have e2 : sizeAdd eq 1 = eq + 1 := sizeAdd_of_lt (by rw [pow64_eq]; omega)
    have e4 : sizeAdd comma 1 = comma + 1 := sizeAdd_of_lt (by rw [pow64_eq]; omega)
    have s1 : substr kv_str start (sizeSub eq start)
        = .ok ((kv_str.drop start).take (sizeSub eq start)) := by
      rw [substr, if_neg (by omega)]
    have s2 : substr kv_str (sizeAdd eq 1) (sizeSub (sizeSub comma eq) 1)
        = .ok ((kv_str.drop (sizeAdd eq 1)).take (sizeSub (sizeSub comma eq) 1)) := by
      rw [substr, if_neg (by rw [e2]; omega)]
    refine ⟨_, (kv_str.drop (sizeAdd eq 1)).take (sizeSub (sizeSub comma eq) 1), comma + 1,
      by omega, s1, by rw [e2]; omega, by omega, by omega, ?_⟩
    intro fuel kv_map
    rw [parseParamOverridesLoop]
    simp only [heq, hfound, if_false, hcomma, s1, s2, e4]

theorem parseParamOverridesLoop_total (kv_str : List Char) (hlen : kv_str.length < npos)
    (fuel start : Nat) (kv_map : OptionsMap)
    (hfuel : kv_str.length + 2 ≤ 2 * fuel + start) (hpos : 1 ≤ fuel) :
    ∃ result, parseParamOverridesLoop kv_str fuel start kv_map = some (.ok result) := by
  induction fuel generalizing start kv_map with
  | zero => omega
  | succ fuel ih =>
    by_cases hfound : find kv_str '=' start = npos
    · exact ⟨kv_map, by rw [parseParamOverridesLoop]; simp only [hfound, if_true]⟩
    · obtain ⟨key, value, next, _, _, _, hn1, hn2, hstep⟩ :=
        parseParamOverridesLoop_step kv_str hlen start hfound
      rw [hstep]
      exact ih next _ (by omega) (by omega)

/-- C18: for every string (shorter than `npos`, as every `std::string` is) the scanning loop of
`parseParamOverrides` terminates and a map is returned, no `substr` throwing. In every
iteration that finds an `=` at or after `start`, both `substr` calls are made with a start
position no greater than the length of the string, and the next iteration begins at a strictly
larger `start`. A string without `=` gives the empty map. -/
theorem parseParamOverrides_terminates (kv_str : List Char) (hlen : kv_str.length < npos) :
    (∃ kv_map, parseParamOverrides kv_str = some (.ok kv_map)) ∧
    (∀ start, find kv_str '=' start ≠ npos →
      ∃ key value next,
        start ≤ kv_str.length ∧
        substr kv_str start (sizeSub (find kv_str '=' start) start) = .ok key ∧
        sizeAdd (find kv_str '=' start) 1 ≤ kv_str.length ∧
        start < next ∧
        ∀ fuel kv_map, parseParamOverridesLoop kv_str (fuel + 1) start kv_map
          = parseParamOverridesLoop kv_str fuel next (kv_map.assign key value)) ∧
    ('=' ∉ kv_str → parseParamOverrides kv_str = some (.ok [])) := by
  refine ⟨?_, ?_, ?_⟩
  · exact parseParamOverridesLoop_total kv_str hlen (kv_str.length + 1) 0 [] (by omega)
      (by omega)
  · intro start hfound
    obtain ⟨key, value, next, h1, h2, h3, h4, _, h6⟩ :=
      parseParamOverridesLoop_step kv_str hlen start hfound
    exact ⟨key, value, next, h1, h2, h3, by omega, h6⟩
  · intro hno
    rw [parseParamOverrides, parseParamOverridesLoop]
    simp only [find_of_not_mem _ _ _ hno, if_true]

/-- C18 at concrete strings: an empty key, an empty value, consecutive commas, a trailing `=`
and a trailing `,` all give a map, and a string without `=` gives the empty map. -/
theorem parseParamOverrides_terminates_witness :
    parseParamOverrides "=5,,a=,x,b=".toList
      = some (.ok [([], "5".toList), (",a".toList, []), ("x,b".toList, [])]) ∧
    parseParamOverrides "tRC=14,".toList = some (.ok [("tRC".toList, "14".toList)]) ∧
    parseParamOverrides "tRC,tFAW".toList = some (.ok []) ∧
    ∃ kv_map, parseParamOverrides "=5,,a=,x,b=".toList = some (.ok kv_map) :=
  ⟨rfl, rfl, rfl, (parseParamOverrides_terminates "=5,,a=,x,b=".toList (by decide)).1⟩

/-! ### `main`: the number of cycles -/

theorem MainVars.step_numCycles (v v2 : MainVars) (c : CommandOption)
    (hc : ∀ optarg, c ≠ .numcycles optarg) (h : v.step c = .ok v2) :
    v2.numCycles = v.numCycles := by
  cases c with
  | numcycles optarg => exact absurd rfl (hc optarg)
  | size optarg =>
    simp only [MainVars.step] at h
    cases ha : atoi optarg with
    | none => simp [ha] at h
    | some value =>
      simp only [ha, Except.ok.injEq] at h
      rw [← h]
  | option optarg =>
    simp only [MainVars.step] at h
    cases hp : parseParamOverrides optarg with
    | none => simp [hp] at h
    | some result =>
      cases result with
      | error s => simp [hp] at h
      | ok kv_map =>
        simp only [hp, Except.ok.injEq] at h
        rw [← h]
  | help => simp [MainVars.step] at h
  | unknown => simp [MainVars.step] at h
  | _ =>
    simp only [MainVars.step, Except.ok.injEq] at h
    rw [← h]

theorem MainVars.scan_numCycles (options : List CommandOption) (v v2 : MainVars)
    (hc : ∀ optarg, .numcycles optarg ∉ options) (h : v.scan options = .ok v2) :
    v2.numCycles = v.numCycles := by
  induction options generalizing v with
  | nil =>
    simp only [MainVars.scan, Except.ok.injEq] at h
    rw [← h]
  | cons c rest ih =>
    simp only [MainVars.scan] at h
    cases hs : v.step c with
    | error e => simp [hs] at h
    | ok v1 =>
      simp only [hs] at h
      rw [ih v1 (fun optarg hm => hc optarg (List.mem_cons_of_mem _ hm)) h]
      exact MainVars.step_numCycles v v1 c
        (fun optarg e => hc optarg (by rw [e]; exact List.mem_cons_self _ _)) hs

set_option maxRecDepth 100000 in
/-- C15: a command line without `-c`/`--numcycles` leaves `numCycles` at the 1000 that `main`
initialises it with, for every list of options the loop gets through; and on the command line
`-t k6_t.trc -d device.ini` the value handed to `old_TBS` is 1000 and `update()` is called
1000 times, not 30. -/
theorem main_default_numCycles :
    (∀ options v, (∀ optarg, CommandOption.numcycles optarg ∉ options) →
      MainVars.start.scan options = .ok v → v.numCycles = 1000) ∧
    (MainVars.start.scan plainCommandLine).toOption.map (fun v => (v.KISS, v.numCycles))
      = some (false, 1000) ∧
    (main (demoEnv 1 "0x40 P_MEM_RD 0\n".toList) false 0 0 .DATA_READ
      plainCommandLine).toOption.map (fun st => updatesIn st.events) = some 1000 :=
  ⟨fun options v hc h => MainVars.scan_numCycles options MainVars.start v hc h, by decide,
    by decide⟩

/-! ### The counter `pending` in `old_TBS` -/

/-- C19: `old_TBS` records an accepted transaction with `add_pending` and does not count
`pending` up. On the `k6` trace `0x40 P_MEM_RD 0`, run for one cycle, the read is accepted
and recorded, and `update()` completes it: one `add_pending`, one completion, nothing
outstanding, and `pending`, decremented by the callback at 0, is `2 ^ 64 - 1`. -/
theorem old_TBS_pending_not_counted :
    (old_TBS (demoEnv 1 "0x40 P_MEM_RD 0\n".toList) false "k6_t.trc".toList "system.ini".toList
      "device.ini".toList [] 2048 true [] 1 0 .DATA_READ
      (DriverState.start Globals.start)).toOption.map
        (fun st => (addsIn st.events, completionsIn st.events, st.g.pending, st.events))
      = some (1, 1, 2 ^ 64 - 1,
          [.read_complete 64 0, .update,
            .add_pending ⟨.DATA_READ, 64, none, ⟨8, 64, 1, 100000, false⟩⟩ 0,
            .addTransaction ⟨.DATA_READ, 64, none, ⟨8, 64, 1, 100000, false⟩⟩ (some true),
            .line "0x40 P_MEM_RD 0".toList, .construct]) := by
  decide

end DRAMSim
